import Mathlib

/-! ESPraw: the request pipeline of `ESPrawClient` and the token check of `ESPraw`.

A shallow embedding of `src/ESPrawClient.cpp`, `src/ESPrawClient.h`,
`src/ESPrawConfig.h`, `src/ESPrawAuth.h`, `src/ESPrawAuth.cpp` and of
`ESPraw::get` / `ESPraw::post` in `src/ESPraw.cpp`: the sliding-window rate
limiter (`checkRateLimit`, `timeUntilNextRequest`, `recordRequest`,
`cleanupRequestLog`), `performRequest` with its retry loop, the token
(`isExpired`, `parseTokenResponse`), `ESPrawAuth` (`isAuthenticated`,
`refreshToken` and the two grants) and the token check in front of the client.

Modelling conventions.

* `unsigned long` is the 32-bit unsigned type of the ESP32 target: values are
  naturals below `2^32` and subtraction wraps (`subU32`).
* `int` and `long` are 32-bit signed types: a product computed in them is
  wrapped to two's complement (`wrapInt32`) before it is converted to
  `unsigned long` (`toULong`). The loop counter `attempt` of `performRequest`
  runs over `0 .. maxRetries`; the overflow of `attempt++` at
  `maxRetries = INT_MAX` is not represented.
* The array `_requestTimes[ESPRAW_RATE_LIMIT_REQUESTS]` is a list of slots;
  every read and write is bounds checked and an access outside the array makes
  the operation return `none`.
* Time is a number of milliseconds since boot; `millis()` reads it modulo
  `2^32`. A rate limiter function is passed one reading `now` per call (the
  computation between two readings takes no time); `delay(ms)` and the calls of
  the transport advance the clock. The guard of `ESPraw::get` / `ESPraw::post`
  reads the clock twice; the time between its two readings is the parameter
  `gap`.
* The transport is a function from the loop index of an attempt to what
  `HTTPClient` does on that attempt (`Exchange`); the token server is a function
  from the POST body to what the token request gets (`TokenExchange`).
  `performRequest`, `ESPraw::get` and `ESPraw::post` return the response
  together with the state and the clock afterwards and the list of their
  effects (`Event`, `GateEvent`), in order.
-/

namespace ESPraw

/-! ## Constants of `ESPrawConfig.h` -/

/-- `ESPRAW_RATE_LIMIT_REQUESTS`: requests per minute. -/
def ESPRAW_RATE_LIMIT_REQUESTS : Int := 60

/-- `ESPRAW_RATE_LIMIT_WINDOW`: 60 seconds in milliseconds. -/
def ESPRAW_RATE_LIMIT_WINDOW : Nat := 60000

/-- `ESPRAW_MAX_RETRIES`. -/
def ESPRAW_MAX_RETRIES : Int := 3

/-- `ESPRAW_RETRY_DELAY`: 1 second. -/
def ESPRAW_RETRY_DELAY : Int := 1000

/-- `ESPRAW_CONNECT_TIMEOUT`: 10 seconds. -/
def ESPRAW_CONNECT_TIMEOUT : Int := 10000

/-- `ESPRAW_REQUEST_TIMEOUT`: 30 seconds. -/
def ESPRAW_REQUEST_TIMEOUT : Int := 30000

/-- `ESPRAW_USER_AGENT_FORMAT`: `"ESPraw/" ESPRAW_VERSION " (ESP32)"`. -/
def ESPRAW_USER_AGENT_FORMAT : String := "ESPraw/0.1.0 (ESP32)"

/-! ## Machine arithmetic -/

/-- Number of values of a 32-bit word. -/
def WORD : Nat := 4294967296

/-- Subtraction of two `unsigned long` values: `a - b` modulo `2^32`. -/
def subU32 (a b : Nat) : Nat := (a % WORD + (WORD - b % WORD)) % WORD

/-- Result of a 32-bit `int` operation: the two's complement value of `x`. -/
def wrapInt32 (x : Int) : Int := (x + 2147483648) % 4294967296 - 2147483648

/-- Conversion of an `int` to `unsigned long`. -/
def toULong (x : Int) : Nat := (x % 4294967296).toNat

/-! ## Rate limiter state -/

/-- Rate limiting members of `ESPrawClient`: `_requestTimes`, `_requestCount`,
`_lastCleanup`. -/
structure RateLimiter where
  requestTimes : List Nat
  requestCount : Int
  lastCleanup : Nat
  deriving DecidableEq, Repr

/-- Rate limiter members after the constructor `ESPrawClient::ESPrawClient()`:
the array zeroed by `memset`, `_requestCount(0)`, `_lastCleanup(0)`. -/
def RateLimiter.init : RateLimiter :=
  { requestTimes := List.replicate 60 0, requestCount := 0, lastCleanup := 0 }

/-- Read of `a[i]`; `none` when `i` is outside the array. -/
def readSlot (a : List Nat) (i : Int) : Option Nat :=
  if 0 ≤ i then a[i.toNat]? else none

/-- Write `a[i] = v`; `none` when `i` is outside the array. -/
def writeSlot (a : List Nat) (i : Int) (v : Nat) : Option (List Nat) :=
  if 0 ≤ i ∧ i.toNat < a.length then some (a.set i.toNat v) else none

/-- The `for` loop of `cleanupRequestLog`: `iters` iterations remain, `i` is the
loop index, `validRequests` the number of entries kept so far. -/
def cleanupLoop (now : Nat) : Nat → Nat → Nat → List Nat → Option (List Nat × Nat)
  | 0, _, validRequests, times => some (times, validRequests)
  | iters + 1, i, validRequests, times =>
    match readSlot times i with
    | none => none
    | some t =>
      if subU32 now t < ESPRAW_RATE_LIMIT_WINDOW then
        match writeSlot times validRequests t with
        | none => none
        | some times1 => cleanupLoop now iters (i + 1) (validRequests + 1) times1
      else
        cleanupLoop now iters (i + 1) validRequests times

/-- `ESPrawClient::cleanupRequestLog` with `millis() = now`. -/
def cleanupRequestLog (now : Nat) (s : RateLimiter) : Option RateLimiter :=
  if subU32 now s.lastCleanup < 1000 then
    some s
  else
    match cleanupLoop now s.requestCount.toNat 0 0 s.requestTimes with
    | none => none
    | some (times, validRequests) =>
      some { requestTimes := times, requestCount := validRequests, lastCleanup := now }

/-- `ESPrawClient::checkRateLimit` with `millis() = now`: the returned flag and
the state left behind by the cleanup. -/
def checkRateLimit (now : Nat) (s : RateLimiter) : Option (Bool × RateLimiter) :=
  match cleanupRequestLog now s with
  | none => none
  | some s1 => some (decide (s1.requestCount < ESPRAW_RATE_LIMIT_REQUESTS), s1)

/-- `ESPrawClient::timeUntilNextRequest` with `millis() = now`. -/
def timeUntilNextRequest (now : Nat) (s : RateLimiter) : Option (Nat × RateLimiter) :=
  match checkRateLimit now s with
  | none => none
  | some (true, s1) => some (0, s1)
  | some (false, s1) =>
    match cleanupRequestLog now s1 with
    | none => none
    | some s2 =>
      if s2.requestCount = 0 then
        some (0, s2)
      else
        match readSlot s2.requestTimes 0 with
        | none => none
        | some oldestRequest =>
          let timeElapsed := subU32 now oldestRequest
          if timeElapsed ≥ ESPRAW_RATE_LIMIT_WINDOW then
            some (0, s2)
          else
            some (ESPRAW_RATE_LIMIT_WINDOW - timeElapsed, s2)

/-- `ESPrawClient::recordRequest` with `millis() = now`. -/
def recordRequest (now : Nat) (s : RateLimiter) : Option RateLimiter :=
  match cleanupRequestLog now s with
  | none => none
  | some s1 =>
    if s1.requestCount < ESPRAW_RATE_LIMIT_REQUESTS then
      match writeSlot s1.requestTimes s1.requestCount now with
      | none => none
      | some times => some { s1 with requestTimes := times, requestCount := s1.requestCount + 1 }
    else
      some s1

/-- The tracked timestamps: the first `_requestCount` slots of `_requestTimes`. -/
def tracked (s : RateLimiter) : List Nat :=
  s.requestTimes.take s.requestCount.toNat

/-- Representation invariant of the rate limiter: the array has its declared
size and the counter indexes into it. -/
def WellFormed (s : RateLimiter) : Prop :=
  s.requestTimes.length = 60 ∧ 0 ≤ s.requestCount ∧ s.requestCount ≤ ESPRAW_RATE_LIMIT_REQUESTS

instance (s : RateLimiter) : Decidable (WellFormed s) := by
  unfold WellFormed; infer_instance

/-- The four rate limiter entry points. -/
inductive RateOp where
  | check
  | timeUntil
  | record
  | cleanup
  deriving DecidableEq, Repr

/-- One call of a rate limiter function with `millis() = now`, keeping only the
state it leaves behind. -/
def runOp (op : RateOp) (now : Nat) (s : RateLimiter) : Option RateLimiter :=
  match op with
  | RateOp.check => (checkRateLimit now s).map Prod.snd
  | RateOp.timeUntil => (timeUntilNextRequest now s).map Prod.snd
  | RateOp.record => recordRequest now s
  | RateOp.cleanup => cleanupRequestLog now s

/-- A sequence of calls, each made at an instant given in milliseconds since
boot; `millis()` reads that instant modulo `2^32`. -/
def runOps : List (RateOp × Nat) → RateLimiter → Option RateLimiter
  | [], s => some s
  | (op, t) :: rest, s =>
    match runOp op (t % WORD) s with
    | none => none
    | some s1 => runOps rest s1

/-- States the rate limiter can be in after construction followed by any calls
of its four functions. -/
def Reachable (s : RateLimiter) : Prop :=
  ∃ ops, runOps ops RateLimiter.init = some s

/-- Predicate of the cleanup pass: the entry is younger than the window. -/
def inWindow (now t : Nat) : Bool := decide (subU32 now t < ESPRAW_RATE_LIMIT_WINDOW)

/-! ## Concrete rate limiter states used as test inputs -/

/-- A full log whose 60 entries were all recorded at clock reading 0, last
cleaned at reading `lastCleanup`. -/
def fullLogAtZero (lastCleanup : Nat) : RateLimiter :=
  { requestTimes := List.replicate 60 0, requestCount := 60, lastCleanup := lastCleanup }

/-- The log of `test_rate_limit_cleanup`: entries 5000, 15000, 25000. -/
def cleanupTestLog : RateLimiter :=
  { requestTimes := [5000, 15000, 25000] ++ List.replicate 57 0, requestCount := 3,
    lastCleanup := 0 }

/-- A full log whose oldest entry is the one of `test_time_until_next_request`:
oldest request at 10000, the 59 others at 20000. -/
def timeUntilTestLog : RateLimiter :=
  { requestTimes := 10000 :: List.replicate 59 20000, requestCount := 60, lastCleanup := 20000 }

/-! ## `performRequest`: data -/

/-- `ESPrawRequestMethod`. -/
inductive ESPrawRequestMethod where
  | GET
  | POST
  | PUT
  | PATCH
  | DELETE_METHOD
  deriving DecidableEq, Repr

/-- `ESPrawResponse`. -/
structure ESPrawResponse where
  statusCode : Int
  body : String
  error : String
  success : Bool
  deriving DecidableEq, Repr

/-- `ESPrawResponse::ESPrawResponse()`: `statusCode(0)`, `success(false)`, the two
strings empty. -/
def ESPrawResponse.init : ESPrawResponse :=
  { statusCode := 0, body := "", error := "", success := false }

/-- `ESPrawRequestConfig`. -/
structure ESPrawRequestConfig where
  maxRetries : Int
  retryDelay : Int
  connectTimeout : Int
  requestTimeout : Int
  deriving DecidableEq, Repr

/-- `ESPrawRequestConfig::ESPrawRequestConfig()`. -/
def ESPrawRequestConfig.init : ESPrawRequestConfig :=
  { maxRetries := ESPRAW_MAX_RETRIES, retryDelay := ESPRAW_RETRY_DELAY,
    connectTimeout := ESPRAW_CONNECT_TIMEOUT, requestTimeout := ESPRAW_REQUEST_TIMEOUT }

/-- Data members of `ESPrawClient` (the TLS socket apart). -/
structure ESPrawClient where
  accessToken : String
  userAgent : String
  config : ESPrawRequestConfig
  limiter : RateLimiter
  deriving DecidableEq, Repr

/-- `ESPrawClient::ESPrawClient()` followed by `begin(config)`. -/
def ESPrawClient.init (config : ESPrawRequestConfig) : ESPrawClient :=
  { accessToken := "", userAgent := "", config := config, limiter := RateLimiter.init }

/-- Functions of the Arduino core and of `HTTPClient` that `performRequest`
calls and whose code is not part of the repository. -/
structure Library where
  errorToString : Int → String
  toInt : String → Int

/-- What the transport does on one attempt: `http.begin` fails, or the request
method returns `httpCode`, with `http.getString()` and
`http.header("Retry-After")` as given. `elapsed` is the time the calls take. -/
inductive Exchange where
  | beginFailed (elapsed : Nat)
  | completed (httpCode : Int) (body : String) (retryAfter : String) (elapsed : Nat)
  deriving DecidableEq, Repr

/-- Effects of `performRequest` that are visible outside it, by call site. -/
inductive Event where
  | rateLimitWait (ms : Nat)
  | backoff (ms : Nat)
  | attempt (k : Nat)
  | send (k : Nat) (method : ESPrawRequestMethod) (url : String)
      (headers : List (String × String)) (body : String)
  | retryAfterWait (ms : Nat)
  | record (now : Nat)
  deriving DecidableEq, Repr

/-- Result of a call of `performRequest`: the response returned, the rate
limiter and the clock (ms since boot) afterwards, and the effects in order. -/
structure Run where
  response : ESPrawResponse
  limiter : RateLimiter
  time : Nat
  events : List Event
  deriving DecidableEq, Repr

/-- Effects that happened before those of `r`. -/
def Run.after (evs : List Event) (r : Run) : Run :=
  { r with events := evs ++ r.events }

/-- How one pass through the body of the retry loop ends: at the end of the
body or a `continue` (`next`), or at a `return response` (`ret`). -/
inductive Step where
  | next (response : ESPrawResponse) (time : Nat) (events : List Event)
  | ret (response : ESPrawResponse) (limiter : RateLimiter) (time : Nat) (events : List Event)
  deriving DecidableEq, Repr

/-! ## `performRequest`: code -/

/-- Lines 109-110: `_config.retryDelay * (1 << attempt)` computed in `int`,
stored in an `unsigned long`, capped at 30000. The shifter takes the count of
`1 << attempt` modulo 32 (C++ leaves a shift of an `int` by 32 or more
undefined; this is what the compiled code does). -/
def backoffDelay (retryDelay : Int) (attempt : Nat) : Nat :=
  let backoffDelay := toULong (wrapInt32 (retryDelay * wrapInt32 (2 ^ (attempt % 32))))
  if backoffDelay > 30000 then 30000 else backoffDelay

/-- `ESPrawClient::addHeaders`: the headers added, in order. -/
def addHeaders (c : ESPrawClient) : List (String × String) :=
  (if c.userAgent.length > 0 then [("User-Agent", c.userAgent)]
   else [("User-Agent", ESPRAW_USER_AGENT_FORMAT)]) ++
  (if c.accessToken.length > 0 then [("Authorization", "Bearer " ++ c.accessToken)] else []) ++
  [("Accept", "application/json")]

/-- Lines 125-128: the `Content-Type` header for POST and PUT. -/
def contentTypeHeader (method : ESPrawRequestMethod) (contentType : String) :
    List (String × String) :=
  if (method = ESPrawRequestMethod.POST ∨ method = ESPrawRequestMethod.PUT)
      ∧ contentType.length > 0 then [("Content-Type", contentType)] else []

/-- Lines 149-175: what the loop body does once `httpCode` is known. `events` are
the effects of the body so far. -/
def classify (lib : Library) (lim : RateLimiter) (httpCode : Int) (bodyText retryAfter : String)
    (response : ESPrawResponse) (time : Nat) (events : List Event) : Option Step :=
  let response := { response with statusCode := httpCode }
  if httpCode > 0 then
    let response := { response with body := bodyText }
    if httpCode ≥ 200 ∧ httpCode < 300 then
      let response := { response with success := true }
      match recordRequest (time % WORD) lim with
      | none => none
      | some lim1 => some (Step.ret response lim1 time (events ++ [Event.record (time % WORD)]))
    else if httpCode = 401 then
      let response := { response with error := "Unauthorized - token may be expired" }
      some (Step.ret response lim time events)
    else if httpCode = 429 then
      let response := { response with error := "Rate limit exceeded" }
      if retryAfter.length > 0 then
        let ms := toULong (wrapInt32 (lib.toInt retryAfter * 1000))
        some (Step.next response (time + ms) (events ++ [Event.retryAfterWait ms]))
      else
        some (Step.next response time events)
    else
      let response := { response with error := "HTTP error: " ++ toString httpCode }
      some (Step.next response time events)
  else
    let response := { response with error := "Connection error: " ++ lib.errorToString httpCode }
    some (Step.next response time events)

/-- Lines 106-175: one pass through the body of the retry loop, for loop index
`attempt`, with the transport behaving as `x`. -/
def attemptBody (lib : Library) (c : ESPrawClient) (lim : RateLimiter)
    (method : ESPrawRequestMethod) (url body contentType : String)
    (attempt : Nat) (x : Exchange) (response : ESPrawResponse) (time : Nat) : Option Step :=
  let slept : Nat × List Event :=
    if attempt > 0 then
      (time + backoffDelay c.config.retryDelay attempt,
        [Event.backoff (backoffDelay c.config.retryDelay attempt)])
    else (time, [])
  let time := slept.1
  let events := slept.2 ++ [Event.attempt attempt]
  match x with
  | Exchange.beginFailed elapsed =>
    some (Step.next { response with error := "Failed to begin HTTP connection" }
      (time + elapsed) events)
  | Exchange.completed code bodyText retryAfter elapsed =>
    let headers := addHeaders c ++ contentTypeHeader method contentType
    match method with
    | ESPrawRequestMethod.PATCH =>
      classify lib lim (-1) bodyText retryAfter response time events
    | _ =>
      classify lib lim code bodyText retryAfter response (time + elapsed)
        (events ++ [Event.send attempt method url headers body])

/-- Lines 105-178: the retry loop, with `iters` passes left before
`attempt <= _config.maxRetries` fails, and the `return response` after it. -/
def retryLoop (lib : Library) (c : ESPrawClient) (lim : RateLimiter)
    (method : ESPrawRequestMethod) (url body contentType : String) (net : Nat → Exchange) :
    Nat → Nat → ESPrawResponse → Nat → Option Run
  | 0, _, response, time =>
    some { response := response, limiter := lim, time := time, events := [] }
  | iters + 1, attempt, response, time =>
    match attemptBody lib c lim method url body contentType attempt (net attempt) response time with
    | none => none
    | some (Step.ret response1 lim1 time1 events) =>
      some { response := response1, limiter := lim1, time := time1, events := events }
    | some (Step.next response1 time1 events) =>
      match retryLoop lib c lim method url body contentType net iters (attempt + 1)
          response1 time1 with
      | none => none
      | some r => some (r.after events)

/-- Lines 95-102: the rate limit check before the loop; the limiter, the clock
and the effects afterwards. -/
def rateLimitGate (lim : RateLimiter) (time : Nat) : Option (RateLimiter × Nat × List Event) :=
  match checkRateLimit (time % WORD) lim with
  | none => none
  | some (true, lim1) => some (lim1, time, [])
  | some (false, lim1) =>
    match timeUntilNextRequest (time % WORD) lim1 with
    | none => none
    | some (waitTime, lim2) =>
      if waitTime > 0 then some (lim2, time + waitTime, [Event.rateLimitWait waitTime])
      else some (lim2, time, [])

/-- `ESPrawClient::performRequest`, called at instant `time`, the transport
behaving as `net k` on the pass with loop index `k`. -/
def performRequest (lib : Library) (c : ESPrawClient) (method : ESPrawRequestMethod)
    (url body contentType : String) (net : Nat → Exchange) (time : Nat) : Option Run :=
  match rateLimitGate c.limiter time with
  | none => none
  | some (lim, time1, events) =>
    match retryLoop lib c lim method url body contentType net
        (c.config.maxRetries + 1).toNat 0 ESPrawResponse.init time1 with
    | none => none
    | some r => some (r.after events)

/-! ## Reading a run -/

/-- Loop indices of the attempts made, in order. -/
def attemptIndices : List Event → List Nat
  | [] => []
  | Event.attempt k :: rest => k :: attemptIndices rest
  | _ :: rest => attemptIndices rest

/-- Number of attempts made. -/
def Run.attempts (r : Run) : Nat := (attemptIndices r.events).length

/-- The backoff sleeps and the attempts of a run, in order, all other effects
left out. -/
def schedule : List Event → List Event
  | [] => []
  | Event.attempt k :: rest => Event.attempt k :: schedule rest
  | Event.backoff ms :: rest => Event.backoff ms :: schedule rest
  | _ :: rest => schedule rest

/-- The durations of the backoff sleeps of a run, in order. -/
def backoffSleeps : List Event → List Nat
  | [] => []
  | Event.backoff ms :: rest => ms :: backoffSleeps rest
  | _ :: rest => backoffSleeps rest

/-- Schedule in which each attempt other than attempt 0 is preceded by exactly
one backoff sleep: attempts `k, k + 1, ...`, `m` of them. -/
def scheduleFrom (retryDelay : Int) : Nat → Nat → List Event
  | _, 0 => []
  | k, m + 1 =>
    (if k > 0 then [Event.backoff (backoffDelay retryDelay k)] else []) ++
      Event.attempt k :: scheduleFrom retryDelay (k + 1) m

/-- The value of `httpCode` on a pass whose exchange is `x`; `none` when
`http.begin` failed and the pass ended before `httpCode` was declared. -/
def Exchange.code (method : ESPrawRequestMethod) : Exchange → Option Int
  | Exchange.beginFailed _ => none
  | Exchange.completed code _ _ _ => some (if method = ESPrawRequestMethod.PATCH then -1 else code)

/-- The pass ends in a `return`: the status is 2xx or 401. -/
def Exchange.stops (method : ESPrawRequestMethod) (x : Exchange) : Bool :=
  match x.code method with
  | none => false
  | some code => decide ((200 ≤ code ∧ code < 300) ∨ code = 401)

/-- A library whose `errorToString` and `toInt` are fixed: for test inputs. -/
def testLibrary : Library :=
  { errorToString := fun _ => "connection refused", toInt := fun s => s.toInt?.getD 0 }

/-- The response variable at the end of the pass. -/
def Step.response : Step → ESPrawResponse
  | Step.next response _ _ => response
  | Step.ret response _ _ _ => response

/-- The effects of the pass. -/
def Step.events : Step → List Event
  | Step.next _ _ events => events
  | Step.ret _ _ _ events => events

/-- The pass ended in `return response`. -/
def Step.isRet : Step → Bool
  | Step.next _ _ _ => false
  | Step.ret _ _ _ _ => true

/-- The rate limiter at the end of the pass, `lim` being the one before it. -/
def Step.limiter (lim : RateLimiter) : Step → RateLimiter
  | Step.next _ _ _ => lim
  | Step.ret _ lim1 _ _ => lim1

/-! ## Concrete transports and clients used as test inputs -/

/-- A client as constructed, with `maxRetries` and `retryDelay` set. -/
def clientWith (maxRetries retryDelay : Int) : ESPrawClient :=
  ESPrawClient.init { ESPrawRequestConfig.init with
    maxRetries := maxRetries, retryDelay := retryDelay }

/-- Transport of `test_retry_logic`: status 500 on the first two attempts, then
200 with a body. -/
def netFailFailSuccess : Nat → Exchange := fun k =>
  if k < 2 then Exchange.completed 500 "server error" "" 120
  else Exchange.completed 200 "listing" "" 80

/-- Transport that answers 401 on the first attempt and 200 afterwards. -/
def netUnauthorizedFirst : Nat → Exchange := fun k =>
  if k = 0 then Exchange.completed 401 "denied" "" 50
  else Exchange.completed 200 "listing" "" 80

/-- Transport that always answers 503. -/
def netAlwaysUnavailable : Nat → Exchange := fun _ =>
  Exchange.completed 503 "unavailable" "" 10

/-- Transport that answers 500 with a body on the first attempt; afterwards
`http.begin` fails. -/
def netErrorThenBeginFails : Nat → Exchange := fun k =>
  if k = 0 then Exchange.completed 500 "first body" "" 100
  else Exchange.beginFailed 5

/-- Transport that answers 500 with a body on the first attempt; afterwards the
connection is refused (`httpCode = -1`). -/
def netErrorThenRefused : Nat → Exchange := fun k =>
  if k = 0 then Exchange.completed 500 "first body" "" 100
  else Exchange.completed (-1) "" "" 5

/-! ## Tokens and authentication (`ESPrawAuth.h`, `ESPrawAuth.cpp`)

An Arduino `String` is a sequence of bytes; it is modelled by a `String` whose
characters stand for the bytes. `millis` is a reading of `millis()`. -/

/-- `ESPRAW_API_BASE_URL`. -/
def ESPRAW_API_BASE_URL : String := "https://oauth.reddit.com"

/-- `ESPrawToken`. -/
structure ESPrawToken where
  accessToken : String
  tokenType : String
  scope : String
  expiresAt : Nat
  isValid : Bool
  deriving DecidableEq, Repr

/-- `ESPrawToken::ESPrawToken()`: `expiresAt(0)`, `isValid(false)`, the strings
empty. -/
def ESPrawToken.init : ESPrawToken :=
  { accessToken := "", tokenType := "", scope := "", expiresAt := 0, isValid := false }

/-- `ESPrawToken::isExpired`: `millis() / 1000 > expiresAt`. -/
def ESPrawToken.isExpired (token : ESPrawToken) (millis : Nat) : Bool :=
  decide (millis / 1000 > token.expiresAt)

/-- `ESPrawAuthConfig`. -/
structure ESPrawAuthConfig where
  clientId : String
  clientSecret : String
  username : String
  password : String
  userAgent : String
  readOnlyMode : Bool
  deriving DecidableEq, Repr

/-- `ESPrawAuthConfig::ESPrawAuthConfig()`: `readOnlyMode(false)`. -/
def ESPrawAuthConfig.init : ESPrawAuthConfig :=
  { clientId := "", clientSecret := "", username := "", password := "", userAgent := "",
    readOnlyMode := false }

/-- Data members of `ESPrawAuth` (the TLS socket apart). -/
structure ESPrawAuth where
  config : ESPrawAuthConfig
  token : ESPrawToken
  deriving DecidableEq, Repr

/-- The answers of the parsed token document to the queries of
`parseTokenResponse`: `none` where `containsKey` is false, otherwise the value
read by `as<String>()` or `as<int>()`; `token_type` is what
`json["token_type"].as<String>()` returns. -/
structure TokenJson where
  access_token : Option String
  token_type : String
  scope : Option String
  expires_in : Option Int
  deriving DecidableEq, Repr

/-- What the transport does on a token request: `http.begin` fails, or
`http.POST(params)` returns `httpCode` and `deserializeJson` of the body gives
`json` (`none` on a deserialization error). `elapsed` is the time it takes. -/
inductive TokenExchange where
  | beginFailed (elapsed : Nat)
  | answered (httpCode : Int) (json : Option TokenJson) (elapsed : Nat)
  deriving DecidableEq, Repr

/-- Effects of `ESPraw::get` and `ESPraw::post`, by call site; `request` wraps an
effect of the client's `performRequest`. -/
inductive GateEvent where
  | refreshToken
  | requestToken (grantType params : String)
  | setAccessToken (token : String)
  | request (e : Event)
  deriving DecidableEq, Repr

/-- Lines 173-181 of `ESPrawAuth.cpp`: the character for a 4-bit value, `n + '0'`,
or `n - 10 + 'A'` when `n > 9`. -/
def hexDigit (n : Nat) : Char :=
  if n > 9 then Char.ofNat (n - 10 + 65) else Char.ofNat (n + 48)

/-- The body of the loop of `urlEncode` for the character `c`: what is appended
to `encoded`. `c & 0xf` is `c % 16` and `(c >> 4) & 0xf` is `c / 16 % 16`. -/
def urlEncodeChar (c : Char) : List Char :=
  if c = ' ' then ['+']
  else if c.isAlphanum then [c]
  else
    let code1 := hexDigit (c.toNat % 16)
    let code0 := hexDigit (c.toNat / 16 % 16)
    ['%', code0, code1]

/-- `ESPrawAuth::urlEncode`. -/
def urlEncode (str : String) : String :=
  String.mk (str.data.flatMap urlEncodeChar)

/-- `ESPrawAuth::parseTokenResponse`, `millis` being the reading of `millis()`.
The sum `(millis() / 1000) + expiresIn - 60` is computed in `unsigned long`. -/
def parseTokenResponse (millis : Nat) (json : TokenJson) : ESPrawToken :=
  match json.access_token with
  | none => ESPrawToken.init
  | some accessToken =>
    let token := { ESPrawToken.init with accessToken := accessToken, tokenType := json.token_type }
    let token := match json.scope with
      | some scope => { token with scope := scope }
      | none => token
    let token := match json.expires_in with
      | some expiresIn =>
        { token with expiresAt := toULong (((millis / 1000 : Nat) : Int) + expiresIn - 60) }
      | none => token
    { token with isValid := true }

/-- `ESPrawAuth::requestToken`, called at instant `time`: the token and the clock
afterwards. The source does not use `grantType`. -/
def requestToken (tokenNet : String → TokenExchange) (_grantType params : String)
    (time : Nat) : ESPrawToken × Nat :=
  match tokenNet params with
  | TokenExchange.beginFailed elapsed => (ESPrawToken.init, time + elapsed)
  | TokenExchange.answered httpCode json elapsed =>
    if httpCode = 200 then
      match json with
      | some doc => (parseTokenResponse ((time + elapsed) % WORD) doc, time + elapsed)
      | none => (ESPrawToken.init, time + elapsed)
    else
      (ESPrawToken.init, time + elapsed)

/-- Result of a call of an `ESPrawAuth` function that may request a token. -/
structure AuthRun where
  success : Bool
  auth : ESPrawAuth
  time : Nat
  events : List GateEvent
  deriving DecidableEq, Repr

/-- `ESPrawAuth::authenticateScript`. -/
def ESPrawAuth.authenticateScript (tokenNet : String → TokenExchange) (self : ESPrawAuth)
    (time : Nat) : AuthRun :=
  if self.config.clientId.isEmpty || self.config.clientSecret.isEmpty ||
      self.config.username.isEmpty || self.config.password.isEmpty then
    { success := false, auth := self, time := time, events := [] }
  else
    let params := "grant_type=password&username=" ++ urlEncode self.config.username ++
      "&password=" ++ urlEncode self.config.password
    let result := requestToken tokenNet "password" params time
    { success := result.1.isValid, auth := { self with token := result.1 }, time := result.2,
      events := [GateEvent.requestToken "password" params] }

/-- `ESPrawAuth::authenticateReadOnly`. -/
def ESPrawAuth.authenticateReadOnly (tokenNet : String → TokenExchange) (self : ESPrawAuth)
    (time : Nat) : AuthRun :=
  if self.config.clientId.isEmpty || self.config.clientSecret.isEmpty then
    { success := false, auth := self, time := time, events := [] }
  else
    let params := "grant_type=client_credentials"
    let result := requestToken tokenNet "client_credentials" params time
    { success := result.1.isValid, auth := { self with token := result.1 }, time := result.2,
      events := [GateEvent.requestToken "client_credentials" params] }

/-- `ESPrawAuth::getToken`. -/
def ESPrawAuth.getToken (self : ESPrawAuth) : ESPrawToken := self.token

/-- `ESPrawAuth::isAuthenticated`: `_token.isValid && !_token.isExpired()`. -/
def ESPrawAuth.isAuthenticated (self : ESPrawAuth) (millis : Nat) : Bool :=
  self.token.isValid && !self.token.isExpired millis

/-- `ESPrawAuth::refreshToken`. -/
def ESPrawAuth.refreshToken (tokenNet : String → TokenExchange) (self : ESPrawAuth)
    (time : Nat) : AuthRun :=
  if self.config.readOnlyMode then self.authenticateReadOnly tokenNet time
  else self.authenticateScript tokenNet time

/-! ## The entry points `ESPraw::get` and `ESPraw::post` (`ESPraw.cpp`) -/

/-- `ESPrawClient::buildUrl`. -/
def buildUrl (endpoint params : String) : String :=
  let url := ESPRAW_API_BASE_URL ++ endpoint
  if params.length > 0 then url ++ ("?" ++ params) else url

/-- `ESPrawClient::setAccessToken`. -/
def ESPrawClient.setAccessToken (c : ESPrawClient) (token : String) : ESPrawClient :=
  { c with accessToken := token }

/-- `ESPrawClient::get`: `performRequest(GET, url)`, body and content type left
at their default `""`. -/
def ESPrawClient.get (lib : Library) (net : Nat → Exchange) (c : ESPrawClient)
    (endpoint params : String) (time : Nat) : Option Run :=
  performRequest lib c ESPrawRequestMethod.GET (buildUrl endpoint params) "" "" net time

/-- `ESPrawClient::post`. -/
def ESPrawClient.post (lib : Library) (net : Nat → Exchange) (c : ESPrawClient)
    (endpoint body contentType : String) (time : Nat) : Option Run :=
  performRequest lib c ESPrawRequestMethod.POST (buildUrl endpoint "") body contentType net time

set_option linter.dupNamespace false

/-- Data members of `ESPraw`. -/
structure ESPraw where
  client : ESPrawClient
  auth : ESPrawAuth
  authConfig : ESPrawAuthConfig
  requestConfig : ESPrawRequestConfig
  initialized : Bool
  readOnly : Bool
  deriving DecidableEq, Repr

/-- Result of a call of `ESPraw::get` or `ESPraw::post`: the response returned,
the object and the clock afterwards, and the effects in order. -/
structure GateRun where
  response : ESPrawResponse
  self : ESPraw
  time : Nat
  events : List GateEvent
  deriving DecidableEq, Repr

/-- The `return _client.get(...)` / `return _client.post(...)` at the end of
`ESPraw::get` and `ESPraw::post`: `run` is the call of the client, `events` the
effects before it. -/
def delegate (self : ESPraw) (events : List GateEvent) (run : Option Run) : Option GateRun :=
  match run with
  | none => none
  | some r =>
    some { response := r.response,
           self := { self with client := { self.client with limiter := r.limiter } },
           time := r.time,
           events := events ++ r.events.map GateEvent.request }

/-- Lines 180-188 and 195-203 of `ESPraw.cpp`, the token check shared by
`ESPraw::get` and `ESPraw::post`. `isAuthenticated()` reads the clock at instant
`time` and `isExpired()` at `time + gap`. The result is the response to return
at once (`Sum.inl`), or the object, the clock and the effects with which the
call goes on to the client (`Sum.inr`). -/
def tokenCheck (tokenNet : String → TokenExchange) (self : ESPraw) (time gap : Nat) :
    GateRun ⊕ (ESPraw × Nat × List GateEvent) :=
  if self.auth.isAuthenticated (time % WORD) &&
      self.auth.getToken.isExpired ((time + gap) % WORD) then
    let refreshed := self.auth.refreshToken tokenNet (time + gap)
    if !refreshed.success then
      Sum.inl { response := { ESPrawResponse.init with error := "Failed to refresh token" },
                self := { self with auth := refreshed.auth },
                time := refreshed.time,
                events := GateEvent.refreshToken :: refreshed.events }
    else
      let accessToken := refreshed.auth.getToken.accessToken
      Sum.inr ({ self with auth := refreshed.auth,
                           client := self.client.setAccessToken accessToken },
        refreshed.time,
        GateEvent.refreshToken :: refreshed.events ++ [GateEvent.setAccessToken accessToken])
  else
    Sum.inr (self, time, [])

/-- `ESPraw::get`, called at instant `time`. -/
def ESPraw.get (lib : Library) (tokenNet : String → TokenExchange) (net : Nat → Exchange)
    (self : ESPraw) (endpoint params : String) (time gap : Nat) : Option GateRun :=
  match tokenCheck tokenNet self time gap with
  | Sum.inl failed => some failed
  | Sum.inr (self1, time1, events) =>
    delegate self1 events (self1.client.get lib net endpoint params time1)

/-- `ESPraw::post`, called at instant `time`; the client's `post` is called with
its default content type. -/
def ESPraw.post (lib : Library) (tokenNet : String → TokenExchange) (net : Nat → Exchange)
    (self : ESPraw) (endpoint body : String) (time gap : Nat) : Option GateRun :=
  match tokenCheck tokenNet self time gap with
  | Sum.inl failed => some failed
  | Sum.inr (self1, time1, events) =>
    delegate self1 events
      (self1.client.post lib net endpoint body "application/x-www-form-urlencoded" time1)

/-- The pass reaches the success branch: `httpCode` is a 2xx status. -/
def Exchange.succeeds (method : ESPrawRequestMethod) (x : Exchange) : Bool :=
  match x.code method with
  | none => false
  | some code => decide (200 ≤ code ∧ code < 300)

/-- Number of calls of `recordRequest` among the effects. -/
def recordCalls : List Event → Nat
  | [] => 0
  | Event.record _ :: rest => recordCalls rest + 1
  | _ :: rest => recordCalls rest

/-- The value of `response.statusCode` after the attempts `k, ..., k + m - 1`,
`status` being its value before them: each attempt that gets past `http.begin`
stores its `httpCode`, the others leave it alone. -/
def lastCodeFrom (method : ESPrawRequestMethod) (net : Nat → Exchange) :
    Nat → Nat → Int → Int
  | _, 0, status => status
  | k, m + 1, status =>
    match (net k).code method with
    | none => lastCodeFrom method net (k + 1) m status
    | some code => lastCodeFrom method net (k + 1) m code

/-! ## Concrete tokens and objects used as test inputs -/

/-- A token server that grants the token "new-token" for 3600 seconds. -/
def tokenServerGrants : String → TokenExchange := fun _ =>
  TokenExchange.answered 200
    (some { access_token := some "new-token", token_type := "bearer", scope := some "*",
            expires_in := some 3600 }) 300

/-- Script credentials. -/
def scriptConfig : ESPrawAuthConfig :=
  { clientId := "id", clientSecret := "secret", username := "user name", password := "p&ss",
    userAgent := "", readOnlyMode := false }

/-- The token "old-token" with the validity flag set and `expiresAt = 100`. -/
def oldToken : ESPrawToken :=
  { accessToken := "old-token", tokenType := "bearer", scope := "*", expiresAt := 100,
    isValid := true }

/-- An `ESPraw` object after a successful `begin(scriptConfig)` that obtained
`oldToken`. -/
def redditWithOldToken : ESPraw :=
  { client := (clientWith 3 1000).setAccessToken "old-token",
    auth := { config := scriptConfig, token := oldToken },
    authConfig := scriptConfig, requestConfig := (clientWith 3 1000).config,
    initialized := true, readOnly := false }

/-- Transport that answers 200 on every attempt. -/
def netAlwaysOk : Nat → Exchange := fun _ => Exchange.completed 200 "listing" "" 80

/-- Transport that answers 401 on every attempt. -/
def netAlwaysUnauthorized : Nat → Exchange := fun _ => Exchange.completed 401 "denied" "" 50

/-- Transport on which every request is refused (`httpCode = -1`). -/
def netAlwaysRefused : Nat → Exchange := fun _ => Exchange.completed (-1) "" "" 5

/-- A client with the default configuration whose log holds 60 requests
recorded at reading 0. -/
def clientWithFullLog : ESPrawClient :=
  { clientWith 3 1000 with limiter := fullLogAtZero 0 }

/-- A token document that declares a lifetime of 30 seconds. -/
def shortLivedTokenJson : TokenJson :=
  { access_token := some "t", token_type := "bearer", scope := none, expires_in := some 30 }

/-- A token document that declares a lifetime of 3600 seconds. -/
def hourTokenJson : TokenJson :=
  { access_token := some "t", token_type := "bearer", scope := none, expires_in := some 3600 }

/-! ## `remainingValidity`, `extractSubmissionId`, `begin`, `authenticate`, `setReadOnly` -/

/-- `ESPrawToken::remainingValidity`, `millis` being the reading of `millis()`;
`expiresAt - now` is a subtraction of `unsigned long` values. -/
def ESPrawToken.remainingValidity (token : ESPrawToken) (millis : Nat) : Nat :=
  let now := millis / 1000
  if now ≥ token.expiresAt then 0 else subU32 token.expiresAt now

/-- The search of `String::indexOf` of the Arduino core (a `strstr`): the index
of the first place in `s` where `pat` starts, `i` being the index of the head
of `s`; `-1` when there is none. -/
def searchFrom (pat : List Char) : List Char → Nat → Int
  | [], _ => -1
  | c :: cs, i => if (c :: cs).take pat.length = pat then (i : Int) else searchFrom pat cs (i + 1)

/-- `String::indexOf(str, fromIndex)` of the Arduino core: `-1` when
`fromIndex >= length()`, otherwise the first occurrence at or after
`fromIndex`. -/
def indexOf (s pat : List Char) (fromIndex : Nat) : Int :=
  if fromIndex ≥ s.length then -1 else searchFrom pat (s.drop fromIndex) fromIndex

/-- `String::substring(left, right)` of the Arduino core: the bounds are swapped
when `left > right`, the result is empty when `left >= length()`, and `right`
is cut down to `length()`. -/
def substring (s : List Char) (left right : Nat) : List Char :=
  let l := if left > right then right else left
  let r := if left > right then left else right
  if l ≥ s.length then [] else (s.take (min r s.length)).drop l

/-- `ESPraw::extractSubmissionId`. -/
def extractSubmissionId (url : String) : String :=
  let commentsPos := indexOf url.data "/comments/".data 0
  if commentsPos = -1 then ""
  else
    let idStart := commentsPos + 10
    let idEnd0 := indexOf url.data "/".data idStart.toNat
    let idEnd : Int := if idEnd0 = -1 then (url.data.length : Int) else idEnd0
    String.mk (substring url.data idStart.toNat idEnd.toNat)

/-- `ESPrawAuth::ESPrawAuth()`. -/
def ESPrawAuth.init : ESPrawAuth :=
  { config := ESPrawAuthConfig.init, token := ESPrawToken.init }

/-- `ESPrawAuth::begin`. -/
def ESPrawAuth.begin (self : ESPrawAuth) (config : ESPrawAuthConfig) : ESPrawAuth :=
  { self with config := config }

/-- `ESPrawClient::begin`. -/
def ESPrawClient.begin (c : ESPrawClient) (config : ESPrawRequestConfig) : ESPrawClient :=
  { c with config := config }

/-- `ESPrawClient::setUserAgent`. -/
def ESPrawClient.setUserAgent (c : ESPrawClient) (userAgent : String) : ESPrawClient :=
  { c with userAgent := userAgent }

/-- `ESPraw::ESPraw()`: `_initialized(false)`, `_readOnly(false)`, the members
default constructed. -/
def ESPraw.init : ESPraw :=
  { client := ESPrawClient.init ESPrawRequestConfig.init, auth := ESPrawAuth.init,
    authConfig := ESPrawAuthConfig.init, requestConfig := ESPrawRequestConfig.init,
    initialized := false, readOnly := false }

/-- Result of a call of `ESPraw::begin`, `ESPraw::authenticate` or
`ESPraw::setReadOnly`: the value returned, the object and the clock afterwards,
and the effects in order. -/
structure SetupRun where
  success : Bool
  self : ESPraw
  time : Nat
  events : List GateEvent
  deriving DecidableEq, Repr

/-- `ESPraw::authenticate`, called at instant `time`. -/
def ESPraw.authenticate (tokenNet : String → TokenExchange) (self : ESPraw) (time : Nat) :
    SetupRun :=
  if !self.initialized then
    { success := false, self := self, time := time, events := [] }
  else
    let run := if self.readOnly || self.authConfig.readOnlyMode
      then self.auth.authenticateReadOnly tokenNet time
      else self.auth.authenticateScript tokenNet time
    if run.success then
      let accessToken := run.auth.getToken.accessToken
      { success := true,
        self := { self with auth := run.auth,
                            client := self.client.setAccessToken accessToken },
        time := run.time,
        events := run.events ++ [GateEvent.setAccessToken accessToken] }
    else
      { success := false, self := { self with auth := run.auth }, time := run.time,
        events := run.events }

/-- `ESPraw::begin(authConfig, requestConfig)`; `_client.begin` and `_auth.begin`
return true. -/
def ESPraw.begin (tokenNet : String → TokenExchange) (self : ESPraw)
    (authConfig : ESPrawAuthConfig) (requestConfig : ESPrawRequestConfig) (time : Nat) :
    SetupRun :=
  let self := { self with authConfig := authConfig, requestConfig := requestConfig,
                          readOnly := authConfig.readOnlyMode }
  let self := { self with client := self.client.begin requestConfig }
  let self := { self with auth := self.auth.begin authConfig }
  let self := if !authConfig.userAgent.isEmpty
    then { self with client := self.client.setUserAgent authConfig.userAgent } else self
  let self := { self with initialized := true }
  self.authenticate tokenNet time

/-- `ESPraw::setReadOnly`, called at instant `time`. -/
def ESPraw.setReadOnly (tokenNet : String → TokenExchange) (self : ESPraw) (readOnly : Bool)
    (time : Nat) : SetupRun :=
  if self.readOnly = readOnly then
    { success := true, self := self, time := time, events := [] }
  else
    let self := { self with readOnly := readOnly,
                            authConfig := { self.authConfig with readOnlyMode := readOnly } }
    self.authenticate tokenNet time

/-- `ESPraw::isReadOnly`. -/
def ESPraw.isReadOnly (self : ESPraw) : Bool := self.readOnly

/-- A sequence of `setReadOnly` calls, one after the other. -/
def setReadOnlyAll (tokenNet : String → TokenExchange) :
    List Bool → ESPraw → Nat → ESPraw × Nat
  | [], self, time => (self, time)
  | readOnly :: rest, self, time =>
    let run := self.setReadOnly tokenNet readOnly time
    setReadOnlyAll tokenNet rest run.self run.time

/-- The grant type passed to `requestToken` by the calls among the effects. -/
def grantsRequested : List GateEvent → List String
  | [] => []
  | GateEvent.requestToken grantType _ :: rest => grantType :: grantsRequested rest
  | _ :: rest => grantsRequested rest

/-- The token of `test_token_remaining_validity`: `expiresAt = 2000`. -/
def tokenExpiringAt2000 : ESPrawToken :=
  { accessToken := "t", tokenType := "bearer", scope := "", expiresAt := 2000, isValid := true }

/-- Following the claim's words: the uppercase hexadecimal digit of a 4-bit
value. -/
def upperHexDigit (n : Nat) : Char :=
  "0123456789ABCDEF".data.getD n '0'

/-- Following the claim's words: a space becomes `+`, an alphanumeric character
is copied, any other byte becomes `%` and its two uppercase hexadecimal digits,
high nibble first. -/
def percentEncode (c : Char) : List Char :=
  if c = ' ' then ['+']
  else if c.isAlphanum then [c]
  else ['%', upperHexDigit (c.toNat / 16), upperHexDigit (c.toNat % 16)]

/-- The characters of the string stand for bytes. -/
def IsByteString (s : String) : Prop := ∀ c ∈ s.data, c.toNat < 256

instance (s : String) : Decidable (IsByteString s) := by
  unfold IsByteString; infer_instance

/-! ## Reading a run, pass by pass -/

/-- The duration of the `delay(...)` call an effect stands for, if it is one. -/
def Event.sleep : Event → Option Nat
  | Event.rateLimitWait ms => some ms
  | Event.backoff ms => some ms
  | Event.retryAfterWait ms => some ms
  | _ => none

/-- The durations of all the `delay(...)` calls of a run, in order. -/
def sleeps (events : List Event) : List Nat := events.filterMap Event.sleep

/-- The effect is a request handed to the transport. -/
def Event.isSend : Event → Bool
  | Event.send _ _ _ _ _ => true
  | _ => false

/-- The requests handed to the transport, in order. -/
def sends (events : List Event) : List Event := events.filter Event.isSend

/-- The effects that follow the start of the pass with loop index `k`. -/
def afterAttempt (k : Nat) : List Event → List Event
  | [] => []
  | Event.attempt j :: rest => if j = k then rest else afterAttempt k rest
  | _ :: rest => afterAttempt k rest

/-- The effects up to the start of the next pass. -/
def untilAttempt : List Event → List Event
  | [] => []
  | Event.attempt _ :: _ => []
  | e :: rest => e :: untilAttempt rest

/-- The effects between the start of the pass with loop index `k` and the start
of the pass after it (or the return). -/
def betweenAttempts (k : Nat) (events : List Event) : List Event :=
  untilAttempt (afterAttempt k events)

/-- The clock at the end of the pass. -/
def Step.time : Step → Nat
  | Step.next _ time _ => time
  | Step.ret _ _ time _ => time

/-- The time the transport calls of a pass take. -/
def Exchange.elapsed (method : ESPrawRequestMethod) : Exchange → Nat
  | Exchange.beginFailed elapsed => elapsed
  | Exchange.completed _ _ _ elapsed => if method = ESPrawRequestMethod.PATCH then 0 else elapsed

/-- The transport `net` with the outcome of the pass with loop index `i`
replaced by `x`. -/
def replaceAt (net : Nat → Exchange) (i : Nat) (x : Exchange) : Nat → Exchange :=
  fun k => if k = i then x else net k

/-- The pass neither returns nor sleeps for a `Retry-After` hint: `http.begin`
failed, or `httpCode` is not 2xx, not 401 and not 429. -/
def Exchange.plainFailure (method : ESPrawRequestMethod) (x : Exchange) : Bool :=
  match x.code method with
  | none => true
  | some code => decide (¬ (200 ≤ code ∧ code < 300) ∧ code ≠ 401 ∧ code ≠ 429)

/-- The `delay` of line 166 on a pass whose exchange is `x`: taken when the
status is 429 and `http.header("Retry-After")` is not empty. -/
def retryAfterSleep (lib : Library) (method : ESPrawRequestMethod) : Exchange → List Nat
  | Exchange.beginFailed _ => []
  | Exchange.completed code _ retryAfter _ =>
    if method ≠ ESPrawRequestMethod.PATCH ∧ code = 429 ∧ retryAfter.length > 0 then
      [toULong (wrapInt32 (lib.toInt retryAfter * 1000))]
    else []

/-- The request handed to the transport on the pass with loop index `k` whose
exchange is `x`: none when `http.begin` fails, none for a method the `switch`
does not list. -/
def requestSent (c : ESPrawClient) (method : ESPrawRequestMethod)
    (url body contentType : String) (k : Nat) : Exchange → List Event
  | Exchange.beginFailed _ => []
  | Exchange.completed _ _ _ _ =>
    if method = ESPrawRequestMethod.PATCH then []
    else [Event.send k method url (addHeaders c ++ contentTypeHeader method contentType) body]

/-! ## Further test inputs -/

/-- Transport that answers 429 with `Retry-After: 2` on the first attempt and
200 afterwards. -/
def netRateLimitedWithHint : Nat → Exchange := fun k =>
  if k = 0 then Exchange.completed 429 "slow down" "2" 50
  else Exchange.completed 200 "listing" "" 80

/-- Transport that answers 429 without a `Retry-After` header on the first
attempt and 200 afterwards. -/
def netRateLimitedNoHint : Nat → Exchange := fun k =>
  if k = 0 then Exchange.completed 429 "slow down" "" 50
  else Exchange.completed 200 "listing" "" 80

/-- A library whose `toInt` reads the string `2` as 2 and any other as 0. -/
def hintLibrary : Library :=
  { errorToString := fun _ => "connection refused", toInt := fun s => if s = "2" then 2 else 0 }

/-- Transport that answers 429 with `Retry-After: 4294968` on the first attempt
and 200 afterwards. -/
def netRateLimitedLargeHint : Nat → Exchange := fun k =>
  if k = 0 then Exchange.completed 429 "slow down" "4294968" 50
  else Exchange.completed 200 "listing" "" 80

/-- A library whose `toInt` reads the string `4294968` as 4294968 and any other
as 0. -/
def largeHintLibrary : Library :=
  { errorToString := fun _ => "connection refused",
    toInt := fun s => if s = "4294968" then 4294968 else 0 }

/-- A log that tracks 59 requests recorded at reading 0, never cleaned. -/
def almostFullLogAtZero : RateLimiter :=
  { requestTimes := List.replicate 60 0, requestCount := 59, lastCleanup := 0 }

/-- A client with the default configuration whose log tracks 59 requests
recorded at reading 0. -/
def clientWithAlmostFullLog : ESPrawClient :=
  { clientWith 3 1000 with limiter := almostFullLogAtZero }

/-- Transport on which `http.begin` fails on every attempt. -/
def netBeginAlwaysFails : Nat → Exchange := fun _ => Exchange.beginFailed 5

/-- A client with the default configuration whose log holds 60 requests
recorded at reading 0 and was last cleaned at reading 59500. -/
def clientWithStaleFullLog : ESPrawClient :=
  { clientWith 3 1000 with limiter := fullLogAtZero 59500 }

/-- A client with the default configuration, a user agent and an access token. -/
def clientWithToken : ESPrawClient :=
  { clientWith 3 1000 with userAgent := "esp32:demo:v1", accessToken := "abc" }

/-! ## Lemmas on the machine arithmetic and the cleanup loop -/

theorem subU32_lt_word (a b : Nat) : subU32 a b < WORD := by
  unfold subU32 WORD; omega

theorem subU32_of_le (a b : Nat) (ha : a < WORD) (hb : b ≤ a) : subU32 a b = a - b := by
  unfold subU32 WORD at *; omega

theorem subU32_self (a : Nat) : subU32 a a = 0 := by
  unfold subU32 WORD; omega

/-- Clock readings of two instants `t ≤ u` less than `2^32` ms apart: the wrapped
difference of the readings is the time between them. -/
theorem subU32_mod (u t : Nat) (h : t ≤ u) (hlt : u - t < WORD) :
    subU32 (u % WORD) (t % WORD) = u - t := by
  unfold subU32 WORD at *; omega

theorem readSlot_nat (a : List Nat) (i : Nat) (h : i < a.length) :
    readSlot a (i : Int) = some a[i] := by
  simp [readSlot, List.getElem?_eq_getElem h]

theorem writeSlot_nat (a : List Nat) (i : Nat) (v : Nat) (h : i < a.length) :
    writeSlot a (i : Int) v = some (a.set i v) := by
  simp [writeSlot, h]

theorem take_set_succ (l : List Nat) (v t : Nat) (h : v < l.length) :
    (l.set v t).take (v + 1) = l.take v ++ [t] := by
  rw [List.take_succ, List.set_take, List.set_eq_of_length_le (by simp)]
  simp [List.getElem?_set, h]

/-- The in-place compaction loop computes a filter: the first `validRequests`
slots keep what was there, followed by the entries of the scanned range that
are still inside the window. Slots are only moved towards the front. -/
theorem cleanupLoop_spec (now : Nat) :
    ∀ (iters i v : Nat) (times : List Nat), v ≤ i → i + iters ≤ times.length →
      ∃ times1 v1, cleanupLoop now iters i v times = some (times1, v1) ∧
        times1.length = times.length ∧ v ≤ v1 ∧ v1 ≤ v + iters ∧
        times1.take v1 = times.take v ++
          ((times.drop i).take iters).filter
            (fun t => decide (subU32 now t < ESPRAW_RATE_LIMIT_WINDOW)) := by
  intro iters
  induction iters with
  | zero =>
    intro i v times _ _
    exact ⟨times, v, rfl, rfl, le_refl _, le_refl _, by simp⟩
  | succ k ih =>
    intro i v times hvi hlen
    have hi : i < times.length := by omega
    have hv : v < times.length := by omega
    have hdrop : (times.drop i).take (k + 1) = times[i] :: (times.drop (i + 1)).take k := by
      rw [List.drop_eq_getElem_cons hi]; rfl
    by_cases hp : subU32 now times[i] < ESPRAW_RATE_LIMIT_WINDOW
    · obtain ⟨times1, v1, hrun, hl, hge, hle, htake⟩ :=
        ih (i + 1) (v + 1) (times.set v times[i]) (by omega) (by simp; omega)
      refine ⟨times1, v1, ?_, ?_, by omega, by omega, ?_⟩
      · have : cleanupLoop now (k + 1) i v times
            = cleanupLoop now k (i + 1) (v + 1) (times.set v times[i]) := by
          simp only [cleanupLoop]
          rw [readSlot_nat times i hi]
          simp only [hp, if_true]
          rw [writeSlot_nat times v _ hv]
        rw [this, hrun]
      · simpa using hl
      · rw [htake, take_set_succ times v _ hv, List.drop_set_of_lt _ _ (by omega : v < i + 1),
          hdrop, List.filter_cons_of_pos (by simpa using hp)]
        simp
    · obtain ⟨times1, v1, hrun, hl, hge, hle, htake⟩ :=
        ih (i + 1) v times (by omega) (by omega)
      refine ⟨times1, v1, ?_, hl, hge, by omega, ?_⟩
      · have : cleanupLoop now (k + 1) i v times = cleanupLoop now k (i + 1) v times := by
          simp only [cleanupLoop]
          rw [readSlot_nat times i hi]
          simp only [hp, if_false]
        rw [this, hrun]
      · rw [htake, hdrop, List.filter_cons_of_neg (by simpa using hp)]

/-! ## The rate limiter functions on well-formed states -/

theorem tracked_length (s : RateLimiter) (h : WellFormed s) :
    (tracked s).length = s.requestCount.toNat := by
  obtain ⟨hl, h0, h60⟩ := h
  unfold ESPRAW_RATE_LIMIT_REQUESTS at h60
  simp only [tracked, List.length_take, hl]
  omega

theorem cleanupRequestLog_skip (now : Nat) (s : RateLimiter)
    (h : subU32 now s.lastCleanup < 1000) : cleanupRequestLog now s = some s := by
  simp [cleanupRequestLog, h]

/-- A cleanup pass that runs keeps the array size, filters the tracked entries
and stamps `_lastCleanup`. -/
theorem cleanupRequestLog_run (now : Nat) (s : RateLimiter) (hwf : WellFormed s)
    (h : 1000 ≤ subU32 now s.lastCleanup) :
    ∃ s1, cleanupRequestLog now s = some s1 ∧ WellFormed s1 ∧ s1.lastCleanup = now ∧
      s1.requestCount ≤ s.requestCount ∧
      tracked s1 = (tracked s).filter (inWindow now) := by
  obtain ⟨hl, h0, h60⟩ := hwf
  unfold ESPRAW_RATE_LIMIT_REQUESTS at h60
  obtain ⟨times1, v1, hrun, hlen, _, hle, htake⟩ :=
    cleanupLoop_spec now s.requestCount.toNat 0 0 s.requestTimes (le_refl _) (by omega)
  refine ⟨{ requestTimes := times1, requestCount := v1, lastCleanup := now }, ?_, ?_, rfl, ?_, ?_⟩
  · simp [cleanupRequestLog, Nat.not_lt.mpr h, hrun]
  · refine ⟨by rw [hlen, hl], by positivity, ?_⟩
    show (v1 : Int) ≤ 60
    omega
  · show (v1 : Int) ≤ s.requestCount
    omega
  · simp only [tracked, Int.toNat_ofNat, htake, List.take_zero, List.nil_append, List.drop_zero]
    rfl

/-- On a well-formed state `cleanupRequestLog` returns, the state stays well
formed, and the tracked entries are either untouched (pass skipped) or filtered. -/
theorem cleanupRequestLog_wf (now : Nat) (s : RateLimiter) (hwf : WellFormed s) :
    ∃ s1, cleanupRequestLog now s = some s1 ∧ WellFormed s1 ∧
      s1.requestCount ≤ s.requestCount ∧
      ((subU32 now s.lastCleanup < 1000 ∧ s1 = s) ∨
        (1000 ≤ subU32 now s.lastCleanup ∧ s1.lastCleanup = now ∧
          tracked s1 = (tracked s).filter (inWindow now))) := by
  by_cases h : subU32 now s.lastCleanup < 1000
  · exact ⟨s, cleanupRequestLog_skip now s h, hwf, le_refl _, Or.inl ⟨h, rfl⟩⟩
  · obtain ⟨s1, h1, h2, h3, h4, h5⟩ := cleanupRequestLog_run now s hwf (Nat.not_lt.mp h)
    exact ⟨s1, h1, h2, h4, Or.inr ⟨Nat.not_lt.mp h, h3, h5⟩⟩

/-- A second cleanup at the same clock reading changes nothing. -/
theorem cleanupRequestLog_idem (now : Nat) (s s1 : RateLimiter) (hwf : WellFormed s)
    (h : cleanupRequestLog now s = some s1) : cleanupRequestLog now s1 = some s1 := by
  obtain ⟨s2, h2, _, _, hcase⟩ := cleanupRequestLog_wf now s hwf
  rw [h] at h2
  cases h2
  rcases hcase with ⟨hskip, rfl⟩ | ⟨_, hlast, _⟩
  · exact h
  · apply cleanupRequestLog_skip
    rw [hlast, subU32_self]
    decide

theorem checkRateLimit_wf (now : Nat) (s : RateLimiter) (hwf : WellFormed s) :
    ∃ s1, cleanupRequestLog now s = some s1 ∧ WellFormed s1 ∧
      checkRateLimit now s = some (decide (s1.requestCount < ESPRAW_RATE_LIMIT_REQUESTS), s1) := by
  obtain ⟨s1, h1, h2, _⟩ := cleanupRequestLog_wf now s hwf
  exact ⟨s1, h1, h2, by simp [checkRateLimit, h1]⟩

theorem readSlot_zero_tracked (s : RateLimiter) (hwf : WellFormed s)
    (hpos : 0 < s.requestCount) :
    ∃ oldest, readSlot s.requestTimes 0 = some oldest ∧ (tracked s).head? = some oldest := by
  obtain ⟨hl, h0, h60⟩ := hwf
  have hn : s.requestCount.toNat ≠ 0 := by omega
  obtain ⟨k, hk⟩ := Nat.exists_eq_succ_of_ne_zero hn
  cases hts : s.requestTimes with
  | nil => simp [hts] at hl
  | cons a rest =>
    exact ⟨a, by simp [readSlot], by simp [tracked, hts, hk]⟩

/-- What `timeUntilNextRequest` computes on a well-formed state, in terms of the
state `s1` left by the cleanup of `checkRateLimit`. -/
theorem timeUntilNextRequest_wf (now : Nat) (s : RateLimiter) (hwf : WellFormed s) :
    ∃ s1 w, cleanupRequestLog now s = some s1 ∧ WellFormed s1 ∧
      timeUntilNextRequest now s = some (w, s1) ∧
      (s1.requestCount < ESPRAW_RATE_LIMIT_REQUESTS → w = 0) ∧
      (¬ s1.requestCount < ESPRAW_RATE_LIMIT_REQUESTS →
        ∃ oldest, (tracked s1).head? = some oldest ∧
          w = if subU32 now oldest < ESPRAW_RATE_LIMIT_WINDOW
              then ESPRAW_RATE_LIMIT_WINDOW - subU32 now oldest else 0) := by
  obtain ⟨s1, h1, hwf1, hchk⟩ := checkRateLimit_wf now s hwf
  have hidem := cleanupRequestLog_idem now s s1 hwf h1
  by_cases hfree : s1.requestCount < ESPRAW_RATE_LIMIT_REQUESTS
  · refine ⟨s1, 0, h1, hwf1, ?_, fun _ => rfl, fun h => absurd hfree h⟩
    simp [timeUntilNextRequest, hchk, hfree]
  · have hpos : 0 < s1.requestCount := by
      unfold ESPRAW_RATE_LIMIT_REQUESTS at hfree; omega
    obtain ⟨oldest, hread, hhead⟩ := readSlot_zero_tracked s1 hwf1 hpos
    have hne : s1.requestCount ≠ 0 := by omega
    by_cases hold : subU32 now oldest < ESPRAW_RATE_LIMIT_WINDOW
    · refine ⟨s1, ESPRAW_RATE_LIMIT_WINDOW - subU32 now oldest, h1, hwf1, ?_,
        fun h => absurd h hfree, fun _ => ⟨oldest, hhead, by simp [hold]⟩⟩
      simp [timeUntilNextRequest, hchk, hfree, hidem, hne, hread, hold]
    · refine ⟨s1, 0, h1, hwf1, ?_, fun _ => rfl, fun _ => ⟨oldest, hhead, by simp [hold]⟩⟩
      simp [timeUntilNextRequest, hchk, hfree, hidem, hne, hread, Nat.not_lt.mp hold]

/-- What `recordRequest` does on a well-formed state, in terms of the state `s1`
left by its cleanup. -/
theorem recordRequest_wf (now : Nat) (s : RateLimiter) (hwf : WellFormed s) :
    ∃ s1 s2, cleanupRequestLog now s = some s1 ∧ WellFormed s1 ∧
      recordRequest now s = some s2 ∧ WellFormed s2 ∧ s2.lastCleanup = s1.lastCleanup ∧
      (s1.requestCount < ESPRAW_RATE_LIMIT_REQUESTS →
        s2.requestCount = s1.requestCount + 1 ∧ tracked s2 = tracked s1 ++ [now]) ∧
      (¬ s1.requestCount < ESPRAW_RATE_LIMIT_REQUESTS → s2 = s1) := by
  obtain ⟨s1, h1, hwf1, _⟩ := cleanupRequestLog_wf now s hwf
  obtain ⟨hl, h0, h60⟩ := hwf1
  by_cases hfree : s1.requestCount < ESPRAW_RATE_LIMIT_REQUESTS
  · have hfree60 : s1.requestCount < 60 := hfree
    have hidx : s1.requestCount.toNat < s1.requestTimes.length := by omega
    have hcast : ((s1.requestCount.toNat : Nat) : Int) = s1.requestCount := by omega
    have hw : writeSlot s1.requestTimes s1.requestCount now
        = some (s1.requestTimes.set s1.requestCount.toNat now) := by
      have := writeSlot_nat s1.requestTimes s1.requestCount.toNat now hidx
      rwa [hcast] at this
    refine ⟨s1, { s1 with requestTimes := s1.requestTimes.set s1.requestCount.toNat now,
                          requestCount := s1.requestCount + 1 },
      h1, ⟨hl, h0, h60⟩, ?_, ?_, rfl, fun _ => ⟨rfl, ?_⟩, fun h => absurd hfree h⟩
    · simp [recordRequest, h1, hfree, hw]
    · refine ⟨by simpa using hl, by show 0 ≤ s1.requestCount + 1; omega, ?_⟩
      show s1.requestCount + 1 ≤ 60
      omega
    · have hto : (s1.requestCount + 1).toNat = s1.requestCount.toNat + 1 := by omega
      simp only [tracked, hto]
      exact take_set_succ _ _ _ hidx
  · refine ⟨s1, s1, h1, ⟨hl, h0, h60⟩, ?_, ⟨hl, h0, h60⟩, rfl, fun h => absurd h hfree,
      fun _ => rfl⟩
    simp [recordRequest, h1, hfree]

/-- Every rate limiter function returns on a well-formed state (no access
outside `_requestTimes`) and leaves a well-formed state. -/
theorem runOp_wf (op : RateOp) (now : Nat) (s : RateLimiter) (hwf : WellFormed s) :
    ∃ s1, runOp op now s = some s1 ∧ WellFormed s1 := by
  cases op with
  | check =>
    obtain ⟨s1, _, hwf1, hchk⟩ := checkRateLimit_wf now s hwf
    exact ⟨s1, by simp [runOp, hchk], hwf1⟩
  | timeUntil =>
    obtain ⟨s1, w, _, hwf1, ht, _⟩ := timeUntilNextRequest_wf now s hwf
    exact ⟨s1, by simp [runOp, ht], hwf1⟩
  | record =>
    obtain ⟨s1, s2, _, _, hr, hwf2, _⟩ := recordRequest_wf now s hwf
    exact ⟨s2, by simp [runOp, hr], hwf2⟩
  | cleanup =>
    obtain ⟨s1, h1, hwf1, _⟩ := cleanupRequestLog_wf now s hwf
    exact ⟨s1, by simp [runOp, h1], hwf1⟩

theorem runOps_wf (ops : List (RateOp × Nat)) :
    ∀ s, WellFormed s → ∃ s1, runOps ops s = some s1 ∧ WellFormed s1 := by
  induction ops with
  | nil => intro s hwf; exact ⟨s, rfl, hwf⟩
  | cons p rest ih =>
    intro s hwf
    obtain ⟨op, t⟩ := p
    obtain ⟨s1, h1, hwf1⟩ := runOp_wf op (t % WORD) s hwf
    obtain ⟨s2, h2, hwf2⟩ := ih s1 hwf1
    exact ⟨s2, by simp [runOps, h1, h2], hwf2⟩

theorem init_wf : WellFormed RateLimiter.init := by decide

theorem reachable_wf (s : RateLimiter) (h : Reachable s) : WellFormed s := by
  obtain ⟨ops, hops⟩ := h
  obtain ⟨s1, h1, hwf1⟩ := runOps_wf ops RateLimiter.init init_wf
  rw [hops] at h1
  cases h1
  exact hwf1

/-! ## Rate limiter: cleanup, waiting time, capacity -/

/-- C10. When the cleanup pass of `cleanupRequestLog` runs at clock reading `now`
(at least 1000 ms after the previous pass), it returns, and the tracked log
afterwards is the previous tracked log filtered, order kept, by
`now - t < 60000` (unsigned 32-bit subtraction). Every remaining entry is
therefore less than one window before `now` on the 32-bit clock, and when the
entry is not numerically after `now` it lies in `(now - 60000, now]`. -/
theorem cleanupRequestLog_keeps_exactly_window (now : Nat) (s : RateLimiter)
    (hwf : WellFormed s) (hrun : 1000 ≤ subU32 now s.lastCleanup) :
    ∃ s1, cleanupRequestLog now s = some s1 ∧
      tracked s1 = (tracked s).filter (fun t => decide (subU32 now t < 60000)) ∧
      List.Sublist (tracked s1) (tracked s) ∧
      ∀ t ∈ tracked s1, subU32 now t < 60000 ∧
        (t + subU32 now t) % WORD = now % WORD ∧
        (now < WORD → t ≤ now → (now : Int) - 60000 < (t : Int) ∧ t ≤ now) := by
  obtain ⟨s1, h1, _, _, _, h5⟩ := cleanupRequestLog_run now s hwf hrun
  have hfilter : tracked s1 = (tracked s).filter (fun t => decide (subU32 now t < 60000)) := h5
  refine ⟨s1, h1, hfilter, ?_, ?_⟩
  · rw [hfilter]; exact List.filter_sublist _
  · intro t ht
    rw [hfilter, List.mem_filter] at ht
    have hage : subU32 now t < 60000 := by simpa using ht.2
    refine ⟨hage, ?_, ?_⟩
    · unfold subU32 WORD; omega
    · intro hnow hle
      rw [subU32_of_le now t hnow hle] at hage
      omega

/-- C10, the case of `test_rate_limit_cleanup`: entries 5000, 15000, 25000
cleaned at `now = 70000` leave exactly 15000 and 25000. -/
theorem cleanupRequestLog_keeps_exactly_window_witness :
    ∃ s1, cleanupRequestLog 70000 cleanupTestLog = some s1 ∧ tracked s1 = [15000, 25000] := by
  obtain ⟨s1, h1, h2, _⟩ :=
    cleanupRequestLog_keeps_exactly_window 70000 cleanupTestLog (by decide) (by decide)
  exact ⟨s1, h1, by rw [h2]; decide⟩

/-- C7. On every well-formed rate limiter state and for every clock reading,
`timeUntilNextRequest` returns a value of at most 60000 (the window), and it
returns 0 whenever `checkRateLimit` at the same state and reading returns
true. -/
theorem timeUntilNextRequest_le_window (now : Nat) (s : RateLimiter) (hwf : WellFormed s) :
    ∃ w s1, timeUntilNextRequest now s = some (w, s1) ∧ w ≤ 60000 ∧
      ((∃ s2, checkRateLimit now s = some (true, s2)) → w = 0) := by
  obtain ⟨s1, w, h1, _, ht, hfree, hfull⟩ := timeUntilNextRequest_wf now s hwf
  have hchk : checkRateLimit now s
      = some (decide (s1.requestCount < ESPRAW_RATE_LIMIT_REQUESTS), s1) := by
    simp [checkRateLimit, h1]
  have hw : w ≤ ESPRAW_RATE_LIMIT_WINDOW := by
    by_cases hc : s1.requestCount < ESPRAW_RATE_LIMIT_REQUESTS
    · rw [hfree hc]; exact Nat.zero_le _
    · obtain ⟨oldest, _, hval⟩ := hfull hc
      rw [hval]
      split
      · exact Nat.sub_le _ _
      · exact Nat.zero_le _
  refine ⟨w, s1, ht, hw, ?_⟩
  rintro ⟨s2, h2⟩
  rw [hchk] at h2
  simp only [Option.some.injEq, Prod.mk.injEq, decide_eq_true_eq] at h2
  exact hfree h2.1

/-- C7 at a full log whose oldest entry is 40000 ms old: the wait is 20000, and
at an empty log, where `checkRateLimit` is true, it is 0. -/
theorem timeUntilNextRequest_le_window_witness :
    (∃ w s1, timeUntilNextRequest 50000 timeUntilTestLog = some (w, s1) ∧
      w ≤ 60000 ∧
      ((∃ s2, checkRateLimit 50000 timeUntilTestLog = some (true, s2)) → w = 0)) ∧
    (∃ w s1, timeUntilNextRequest 50000 RateLimiter.init = some (w, s1) ∧
      w ≤ 60000 ∧
      ((∃ s2, checkRateLimit 50000 RateLimiter.init = some (true, s2)) → w = 0)) :=
  ⟨timeUntilNextRequest_le_window 50000 timeUntilTestLog (by decide),
   timeUntilNextRequest_le_window 50000 RateLimiter.init (by decide)⟩

/-- C8 as stated fails when the oldest tracked entry has already left the
window but is still tracked because the last cleanup pass ran less than 1000 ms
ago. After 60 requests recorded at reading 0 and a `checkRateLimit` at 59500,
at `now = 60200` the log is still full, `checkRateLimit` returns false, and
`timeUntilNextRequest` returns 0, not `60000 - (60200 - 0)`. -/
theorem timeUntilNextRequest_stale_oldest_returns_zero :
    Reachable (fullLogAtZero 59500) ∧
    checkRateLimit 60200 (fullLogAtZero 59500) = some (false, fullLogAtZero 59500) ∧
    (tracked (fullLogAtZero 59500)).head? = some 0 ∧
    timeUntilNextRequest 60200 (fullLogAtZero 59500) = some (0, fullLogAtZero 59500) ∧
    ((0 : Nat) : Int) ≠ 60000 - ((subU32 60200 0 : Nat) : Int) := by
  refine ⟨⟨List.replicate 60 (RateOp.record, 0) ++ [(RateOp.check, 59500)], ?_⟩, ?_, ?_, ?_, ?_⟩
  · decide
  · decide
  · decide
  · decide
  · decide

/-- C8, amended. On a well-formed state `timeUntilNextRequest` returns 0 when
`checkRateLimit` returns true (a slot is free) and when no entries are tracked.
When `checkRateLimit` returns false it returns `60000 - (now - oldest)` if the
oldest tracked timestamp is less than 60000 ms old, and 0 if that entry is
already 60000 ms old or older (`now - oldest` is the unsigned 32-bit
difference, `oldest` the first tracked entry after the cleanup of
`checkRateLimit`). -/
theorem timeUntilNextRequest_value (now : Nat) (s : RateLimiter) (hwf : WellFormed s) :
    ∃ b s1 w, checkRateLimit now s = some (b, s1) ∧
      timeUntilNextRequest now s = some (w, s1) ∧
      (b = true → w = 0) ∧
      (tracked s1 = [] → w = 0) ∧
      (b = false → ∃ oldest, (tracked s1).head? = some oldest ∧
        (subU32 now oldest < 60000 → (w : Int) = 60000 - (subU32 now oldest : Int)) ∧
        (60000 ≤ subU32 now oldest → w = 0)) := by
  obtain ⟨s1, w, h1, hwf1, ht, hfree, hfull⟩ := timeUntilNextRequest_wf now s hwf
  have hchk : checkRateLimit now s
      = some (decide (s1.requestCount < ESPRAW_RATE_LIMIT_REQUESTS), s1) := by
    simp [checkRateLimit, h1]
  refine ⟨decide (s1.requestCount < ESPRAW_RATE_LIMIT_REQUESTS), s1, w, hchk, ht, ?_, ?_, ?_⟩
  · intro hb
    exact hfree (by simpa using hb)
  · intro hempty
    apply hfree
    have hlen := tracked_length s1 hwf1
    rw [hempty] at hlen
    have h0 := hwf1.2.1
    show s1.requestCount < 60
    simp only [List.length_nil] at hlen
    omega
  · intro hb
    obtain ⟨oldest, hhead, hval⟩ := hfull (by simpa using hb)
    refine ⟨oldest, hhead, ?_, ?_⟩
    · intro hlt
      have hlt2 : subU32 now oldest < ESPRAW_RATE_LIMIT_WINDOW := hlt
      rw [hval, if_pos hlt2]
      unfold ESPRAW_RATE_LIMIT_WINDOW
      omega
    · intro hge
      have hge2 : ¬ subU32 now oldest < ESPRAW_RATE_LIMIT_WINDOW := Nat.not_lt.mpr hge
      rw [hval, if_neg hge2]

/-- C8, amended, at the values of `test_time_until_next_request`: a full log
with oldest entry 10000 read at `now = 50000` gives 20000. -/
theorem timeUntilNextRequest_value_witness :
    ∃ s1, checkRateLimit 50000 timeUntilTestLog = some (false, s1) ∧
      (tracked s1).head? = some 10000 ∧
      timeUntilNextRequest 50000 timeUntilTestLog = some (20000, s1) := by
  obtain ⟨b, s1, w, hc, ht, _, _, hfull⟩ :=
    timeUntilNextRequest_value 50000 timeUntilTestLog (by decide)
  have hc2 : checkRateLimit 50000 timeUntilTestLog
      = some (false, { timeUntilTestLog with lastCleanup := 50000 }) := by decide
  rw [hc2] at hc
  simp only [Option.some.injEq, Prod.mk.injEq] at hc
  obtain ⟨hb, hs⟩ := hc
  subst hb hs
  obtain ⟨oldest, hhead, hlt, _⟩ := hfull rfl
  have hh : (tracked { timeUntilTestLog with lastCleanup := 50000 }).head? = some 10000 := by
    decide
  rw [hh] at hhead
  cases hhead
  have hw := hlt (by decide)
  have hsub : subU32 50000 10000 = 40000 := by decide
  rw [hsub] at hw
  have hw2 : w = 20000 := by omega
  subst hw2
  exact ⟨_, hc2, hh, ht⟩

/-- C9 as stated fails in its second half: `recordRequest` on a full log does
change the tracked entries when the cleanup pass it runs first evicts expired
ones. After 60 requests recorded at reading 0 the log is full; `recordRequest`
at `now = 100000` leaves the single entry 100000. -/
theorem recordRequest_full_log_changes_entries :
    Reachable (fullLogAtZero 0) ∧
    (fullLogAtZero 0).requestCount = 60 ∧
    (tracked (fullLogAtZero 0)).length = 60 ∧
    (recordRequest 100000 (fullLogAtZero 0)).map tracked = some [100000] ∧
    (recordRequest 100000 (fullLogAtZero 0)).map tracked ≠ some (tracked (fullLogAtZero 0)) := by
  refine ⟨⟨List.replicate 60 (RateOp.record, 0), ?_⟩, ?_, ?_, ?_, ?_⟩
  · decide
  · decide
  · decide
  · decide
  · decide

/-- C9, amended. In every state reachable from the constructor through
`checkRateLimit`, `timeUntilNextRequest`, `recordRequest` and
`cleanupRequestLog` the array keeps its 60 slots and the number of tracked
timestamps is between 0 and 60; each of the four functions returns without an
access outside the array. `recordRequest` first runs `cleanupRequestLog`; if
fewer than 60 entries are tracked after that cleanup it appends the current
time to them, and if 60 entries are still tracked it leaves that state
unchanged, so the write index is always below 60. -/
theorem requestCount_bounded_and_recordRequest_guarded (now : Nat) (s : RateLimiter)
    (h : Reachable s) :
    (s.requestTimes.length = 60 ∧ 0 ≤ s.requestCount ∧ s.requestCount ≤ 60 ∧
      (tracked s).length = s.requestCount.toNat ∧ (tracked s).length ≤ 60) ∧
    (∀ op, ∃ s1, runOp op now s = some s1 ∧ WellFormed s1) ∧
    (∃ s1 s2, cleanupRequestLog now s = some s1 ∧ recordRequest now s = some s2 ∧
      s2.requestTimes.length = 60 ∧
      (s1.requestCount < 60 →
        s2.requestCount = s1.requestCount + 1 ∧ tracked s2 = tracked s1 ++ [now]) ∧
      (s1.requestCount = 60 → s2 = s1)) := by
  have hwf := reachable_wf s h
  have hlen := tracked_length s hwf
  obtain ⟨hl, h0, h60⟩ := hwf
  have h60b : s.requestCount ≤ 60 := h60
  refine ⟨⟨hl, h0, h60, hlen, by omega⟩, ?_, ?_⟩
  · intro op
    exact runOp_wf op now s ⟨hl, h0, h60⟩
  · obtain ⟨s1, s2, h1, hwf1, hr, hwf2, _, happ, hfull⟩ := recordRequest_wf now s ⟨hl, h0, h60⟩
    refine ⟨s1, s2, h1, hr, hwf2.1, happ, ?_⟩
    intro heq
    apply hfull
    show ¬ s1.requestCount < 60
    omega

/-- C9, amended, at a reachable full log: the cleanup of `recordRequest` at
reading 500 is skipped, 60 entries stay tracked and the state is unchanged. -/
theorem requestCount_bounded_and_recordRequest_guarded_witness :
    Reachable (fullLogAtZero 0) ∧
    (tracked (fullLogAtZero 0)).length ≤ 60 ∧
    recordRequest 500 (fullLogAtZero 0) = some (fullLogAtZero 0) := by
  have hreach : Reachable (fullLogAtZero 0) := ⟨List.replicate 60 (RateOp.record, 0), by decide⟩
  obtain ⟨⟨_, _, _, _, hlen⟩, _, s1, s2, h1, hr, _, _, hfull⟩ :=
    requestCount_bounded_and_recordRequest_guarded 500 (fullLogAtZero 0) hreach
  have hc : cleanupRequestLog 500 (fullLogAtZero 0) = some (fullLogAtZero 0) := by decide
  rw [hc] at h1
  cases h1
  rw [hfull (by decide)] at hr
  exact ⟨hreach, hlen, hr⟩

/-! ## A full log stays full while its oldest entry is inside the window -/

/-- A cleanup at a reading at which every tracked entry is inside the window
drops nothing. -/
theorem cleanupRequestLog_all_fresh (now : Nat) (s : RateLimiter) (hwf : WellFormed s)
    (hfresh : ∀ e ∈ tracked s, subU32 now e < ESPRAW_RATE_LIMIT_WINDOW) :
    ∃ s1, cleanupRequestLog now s = some s1 ∧ WellFormed s1 ∧ tracked s1 = tracked s ∧
      s1.requestCount = s.requestCount := by
  obtain ⟨s1, h1, hwf1, _, hcase⟩ := cleanupRequestLog_wf now s hwf
  rcases hcase with ⟨_, rfl⟩ | ⟨_, _, hfilter⟩
  · exact ⟨s1, h1, hwf1, rfl, rfl⟩
  · have hsame : tracked s1 = tracked s := by
      rw [hfilter, List.filter_eq_self]
      intro e he
      simpa [inWindow] using hfresh e he
    refine ⟨s1, h1, hwf1, hsame, ?_⟩
    have hl1 := tracked_length s1 hwf1
    have hl := tracked_length s hwf
    rw [hsame] at hl1
    have := hwf.2.1
    have := hwf1.2.1
    omega

/-- One rate limiter call at a reading at which every tracked entry is inside
the window: only `recordRequest` on a log that is not full changes the tracked
entries, by appending the reading. -/
theorem runOp_all_fresh (op : RateOp) (now : Nat) (s : RateLimiter) (hwf : WellFormed s)
    (hfresh : ∀ e ∈ tracked s, subU32 now e < ESPRAW_RATE_LIMIT_WINDOW) :
    ∃ s1, runOp op now s = some s1 ∧ WellFormed s1 ∧
      tracked s1 = if op = RateOp.record ∧ s.requestCount < 60
                   then tracked s ++ [now] else tracked s := by
  obtain ⟨c, hc, hwfc, htr, hcnt⟩ := cleanupRequestLog_all_fresh now s hwf hfresh
  cases op with
  | check =>
    exact ⟨c, by simp [runOp, checkRateLimit, hc], hwfc, by simp [htr]⟩
  | cleanup =>
    exact ⟨c, by simp [runOp, hc], hwfc, by simp [htr]⟩
  | timeUntil =>
    obtain ⟨s1, w, h1, hwf1, ht, _⟩ := timeUntilNextRequest_wf now s hwf
    rw [hc] at h1
    cases h1
    exact ⟨c, by simp [runOp, ht], hwfc, by simp [htr]⟩
  | record =>
    obtain ⟨s1, s2, h1, _, hr, hwf2, _, happ, hfull⟩ := recordRequest_wf now s hwf
    rw [hc] at h1
    cases h1
    refine ⟨s2, by simp [runOp, hr], hwf2, ?_⟩
    by_cases hlt : s.requestCount < 60
    · have hlt1 : c.requestCount < ESPRAW_RATE_LIMIT_REQUESTS := by rw [hcnt]; exact hlt
      simp [hlt, (happ hlt1).2, htr]
    · have hlt1 : ¬ c.requestCount < ESPRAW_RATE_LIMIT_REQUESTS := by rw [hcnt]; exact hlt
      simp [hlt, hfull hlt1, htr]

/-- Invariant of a run of calls made at non-decreasing instants inside one
window that starts at `T`: the tracked entries are readings of instants in
`[T, c]`, nothing is evicted, and the log holds the first 60 recorded
requests. -/
theorem runOps_within_window (T u : Nat) (hu : u < T + 60000) :
    ∀ (ops : List (RateOp × Nat)) (s : RateLimiter) (c : Nat) (ts : List Nat),
      WellFormed s → tracked s = ts.map (fun t => t % WORD) →
      (∀ t ∈ ts, T ≤ t ∧ t ≤ c) → c ≤ u →
      (∀ p ∈ ops, c ≤ p.2 ∧ p.2 ≤ u) →
      List.Pairwise (fun a b => a ≤ b) (ops.map Prod.snd) →
      (∀ p ∈ ops, p.1 = RateOp.record → T ≤ p.2) →
      ∃ (s1 : RateLimiter) (ts1 : List Nat), runOps ops s = some s1 ∧ WellFormed s1 ∧
        tracked s1 = ts1.map (fun t => t % WORD) ∧ (∀ t ∈ ts1, T ≤ t ∧ t ≤ u) ∧
        ts1.length
          = min 60 (ts.length + (ops.filter (fun p => decide (p.1 = RateOp.record))).length) := by
  intro ops
  induction ops with
  | nil =>
    intro s c ts hwf htr hts hcu _ _ _
    refine ⟨s, ts, rfl, hwf, htr, ?_, ?_⟩
    · intro t ht
      exact ⟨(hts t ht).1, le_trans (hts t ht).2 hcu⟩
    · have := tracked_length s hwf
      rw [htr] at this
      have h60 : s.requestCount ≤ 60 := hwf.2.2
      simp at this ⊢
      omega
  | cons p rest ih =>
    intro s c ts hwf htr hts hcu hbounds hsorted hrec
    obtain ⟨op, t⟩ := p
    have hct : c ≤ t ∧ t ≤ u := hbounds (op, t) (List.mem_cons_self _ _)
    have hlen : ts.length = s.requestCount.toNat := by
      have := tracked_length s hwf
      rw [htr] at this
      simpa using this
    have h0 : 0 ≤ s.requestCount := hwf.2.1
    have h60 : s.requestCount ≤ 60 := hwf.2.2
    have hfresh : ∀ e ∈ tracked s, subU32 (t % WORD) e < ESPRAW_RATE_LIMIT_WINDOW := by
      intro e he
      rw [htr, List.mem_map] at he
      obtain ⟨x, hx, rfl⟩ := he
      have hxb := hts x hx
      rw [subU32_mod t x (by omega) (by unfold WORD; omega)]
      unfold ESPRAW_RATE_LIMIT_WINDOW
      omega
    obtain ⟨s1, hrun, hwf1, htr1⟩ := runOp_all_fresh op (t % WORD) s hwf hfresh
    simp only [List.map_cons, List.pairwise_cons] at hsorted
    obtain ⟨hhead, htail⟩ := hsorted
    have hrest : ∀ q ∈ rest, t ≤ q.2 ∧ q.2 ≤ u := by
      intro q hq
      exact ⟨hhead q.2 (List.mem_map_of_mem _ hq), (hbounds q (List.mem_cons_of_mem _ hq)).2⟩
    have hrecrest : ∀ q ∈ rest, q.1 = RateOp.record → T ≤ q.2 :=
      fun q hq => hrec q (List.mem_cons_of_mem _ hq)
    by_cases hcase : op = RateOp.record ∧ s.requestCount < 60
    · rw [if_pos hcase] at htr1
      have hT : T ≤ t := hrec (op, t) (List.mem_cons_self _ _) hcase.1
      obtain ⟨s2, ts2, h2, hwf2, htr2, hts2, hlen2⟩ :=
        ih s1 t (ts ++ [t]) hwf1 (by rw [htr1, htr]; simp)
          (by
            intro x hx
            rw [List.mem_append, List.mem_singleton] at hx
            rcases hx with hx | rfl
            · exact ⟨(hts x hx).1, le_trans (hts x hx).2 hct.1⟩
            · exact ⟨hT, le_refl _⟩)
          hct.2 hrest htail hrecrest
      refine ⟨s2, ts2, by simp [runOps, hrun, h2], hwf2, htr2, hts2, ?_⟩
      rw [hlen2]
      simp [hcase.1]
      omega
    · rw [if_neg hcase] at htr1
      obtain ⟨s2, ts2, h2, hwf2, htr2, hts2, hlen2⟩ :=
        ih s1 t ts hwf1 (by rw [htr1, htr])
          (fun x hx => ⟨(hts x hx).1, le_trans (hts x hx).2 hct.1⟩)
          hct.2 hrest htail hrecrest
      refine ⟨s2, ts2, by simp [runOps, hrun, h2], hwf2, htr2, hts2, ?_⟩
      rw [hlen2]
      by_cases hop : op = RateOp.record
      · have hfull : ¬ s.requestCount < 60 := fun hlt => hcase ⟨hop, hlt⟩
        simp [hop]
        omega
      · simp [hop]

/-- C6. Start from a well-formed rate limiter with an empty log and make any
calls of the rate limiter functions at non-decreasing instants (milliseconds
since boot, read by `millis()` modulo `2^32`), at least 60 of them
`recordRequest`, with every `recordRequest` at or after an instant `T` and
every call no later than `u`, where `u < T + 60000`. Then all calls return,
and a `checkRateLimit` made at instant `u`, while the oldest recorded
timestamp is less than 60000 ms old, returns false. -/
theorem checkRateLimit_false_after_capacity (s0 : RateLimiter) (ops : List (RateOp × Nat))
    (T u : Nat) (hwf : WellFormed s0) (hempty : s0.requestCount = 0)
    (hsorted : List.Pairwise (fun a b => a ≤ b) (ops.map Prod.snd))
    (hlater : ∀ p ∈ ops, p.2 ≤ u)
    (hrec : ∀ p ∈ ops, p.1 = RateOp.record → T ≤ p.2)
    (hwindow : u < T + 60000)
    (hcap : 60 ≤ (ops.filter (fun p => decide (p.1 = RateOp.record))).length) :
    ∃ s s1, runOps ops s0 = some s ∧ (tracked s).length = 60 ∧
      checkRateLimit (u % WORD) s = some (false, s1) ∧ tracked s1 = tracked s := by
  obtain ⟨s, ts, hrun, hwfs, htr, hts, hlen⟩ :=
    runOps_within_window T u hwindow ops s0 0 [] hwf (by simp [tracked, hempty])
      (by simp) (Nat.zero_le _) (fun p hp => ⟨Nat.zero_le _, hlater p hp⟩) hsorted hrec
  have hlen60 : ts.length = 60 := by
    rw [hlen]
    simp only [List.length_nil, Nat.zero_add]
    omega
  have hfresh : ∀ e ∈ tracked s, subU32 (u % WORD) e < ESPRAW_RATE_LIMIT_WINDOW := by
    intro e he
    rw [htr, List.mem_map] at he
    obtain ⟨x, hx, rfl⟩ := he
    have hxb := hts x hx
    rw [subU32_mod u x hxb.2 (by unfold WORD; omega)]
    unfold ESPRAW_RATE_LIMIT_WINDOW
    omega
  obtain ⟨s1, h1, hwf1, htr1, hcnt⟩ := cleanupRequestLog_all_fresh (u % WORD) s hwfs hfresh
  have htl : (tracked s).length = 60 := by rw [htr]; simpa using hlen60
  have hcount : s.requestCount = 60 := by
    have := tracked_length s hwfs
    have := hwfs.2.1
    omega
  refine ⟨s, s1, hrun, htl, ?_, htr1⟩
  have hnot : ¬ s1.requestCount < ESPRAW_RATE_LIMIT_REQUESTS := by
    rw [hcnt, hcount]; decide
  simp [checkRateLimit, h1, hnot]

/-- C6 on a concrete run: 60 requests recorded 500 ms apart from instant 1000
on (the last at 30500), a `checkRateLimit` at 40000, and the check at instant
60999, when the oldest entry is 59999 ms old, returns false. -/
theorem checkRateLimit_false_after_capacity_witness :
    ∃ s s1, runOps ((List.range 60).map (fun i => (RateOp.record, 1000 + 500 * i))
        ++ [(RateOp.check, 40000)]) RateLimiter.init = some s ∧
      (tracked s).length = 60 ∧
      checkRateLimit (60999 % WORD) s = some (false, s1) ∧ tracked s1 = tracked s :=
  checkRateLimit_false_after_capacity RateLimiter.init
    ((List.range 60).map (fun i => (RateOp.record, 1000 + 500 * i)) ++ [(RateOp.check, 40000)])
    1000 60999 (by decide) (by decide) (by decide) (by decide) (by decide) (by decide)
    (by decide)

/-! ## One pass through the retry loop -/

theorem attemptIndices_append (a b : List Event) :
    attemptIndices (a ++ b) = attemptIndices a ++ attemptIndices b := by
  induction a with
  | nil => rfl
  | cons e rest ih => cases e <;> simp [attemptIndices, ih]

theorem schedule_append (a b : List Event) : schedule (a ++ b) = schedule a ++ schedule b := by
  induction a with
  | nil => rfl
  | cons e rest ih => cases e <;> simp [schedule, ih]

theorem backoffSleeps_append (a b : List Event) :
    backoffSleeps (a ++ b) = backoffSleeps a ++ backoffSleeps b := by
  induction a with
  | nil => rfl
  | cons e rest ih => cases e <;> simp [backoffSleeps, ih]

/-- What `classify` does on a well-formed limiter: it returns; the effects it
adds are neither attempts nor backoff sleeps; it ends the loop exactly on a 2xx
or 401 status; the success flag is set exactly on 2xx. -/
theorem classify_spec (lib : Library) (lim : RateLimiter) (httpCode : Int)
    (bodyText retryAfter : String) (response : ESPrawResponse) (time : Nat)
    (events : List Event) (hwf : WellFormed lim) :
    ∃ step, classify lib lim httpCode bodyText retryAfter response time events = some step ∧
      attemptIndices step.events = attemptIndices events ∧
      schedule step.events = schedule events ∧
      backoffSleeps step.events = backoffSleeps events ∧
      step.isRet = decide ((200 ≤ httpCode ∧ httpCode < 300) ∨ httpCode = 401) ∧
      step.response.statusCode = httpCode ∧
      (0 < httpCode → step.response.body = bodyText) ∧
      (¬ 0 < httpCode → step.response.body = response.body) ∧
      ((200 ≤ httpCode ∧ httpCode < 300) → step.response.success = true ∧
        step.response.error = response.error ∧
        recordRequest (time % WORD) lim = some (step.limiter lim)) ∧
      (¬ (200 ≤ httpCode ∧ httpCode < 300) → step.response.success = response.success ∧
        step.limiter lim = lim) := by
  by_cases hpos : 0 < httpCode
  · by_cases h2xx : 200 ≤ httpCode ∧ httpCode < 300
    · obtain ⟨_, lim1, _, _, hr, _⟩ := recordRequest_wf (time % WORD) lim hwf
      refine ⟨Step.ret { response with statusCode := httpCode, body := bodyText, success := true } lim1 time (events ++ [Event.record (time % WORD)]), ?_, ?_, ?_, ?_, ?_,
        rfl, fun _ => rfl, fun h => absurd hpos h, fun _ => ⟨rfl, rfl, hr⟩, fun h => absurd h2xx h⟩
      · simp [classify, hpos, h2xx, hr]
      · simp [Step.events, attemptIndices_append, attemptIndices]
      · simp [Step.events, schedule_append, schedule]
      · simp [Step.events, backoffSleeps_append, backoffSleeps]
      · simp [Step.isRet, h2xx]
    · by_cases h401 : httpCode = 401
      · refine ⟨Step.ret { response with statusCode := httpCode, body := bodyText, error := "Unauthorized - token may be expired" } lim time events, ?_, rfl, rfl, rfl, ?_,
          rfl, fun _ => rfl, fun h => absurd hpos h, fun h => absurd h h2xx, fun _ => ⟨rfl, rfl⟩⟩
        · simp [classify, hpos, h2xx, h401]
        · simp [Step.isRet, h401]
      · by_cases h429 : httpCode = 429
        · by_cases hra : retryAfter.length > 0
          · refine ⟨Step.next { response with statusCode := httpCode, body := bodyText, error := "Rate limit exceeded" }
              (time + toULong (wrapInt32 (lib.toInt retryAfter * 1000)))
              (events ++ [Event.retryAfterWait (toULong (wrapInt32 (lib.toInt retryAfter * 1000)))]),
              ?_, ?_, ?_, ?_, ?_,
              rfl, fun _ => rfl, fun h => absurd hpos h, fun h => absurd h h2xx,
              fun _ => ⟨rfl, rfl⟩⟩
            · subst h429
              simp [classify, hra]
            · simp [Step.events, attemptIndices_append, attemptIndices]
            · simp [Step.events, schedule_append, schedule]
            · simp [Step.events, backoffSleeps_append, backoffSleeps]
            · simp [Step.isRet, h2xx, h401]
          · refine ⟨Step.next { response with statusCode := httpCode, body := bodyText, error := "Rate limit exceeded" } time events,
              ?_, rfl, rfl, rfl, ?_,
              rfl, fun _ => rfl, fun h => absurd hpos h, fun h => absurd h h2xx,
              fun _ => ⟨rfl, rfl⟩⟩
            · subst h429
              simp [classify, hra]
            · simp [Step.isRet, h2xx, h401]
        · refine ⟨Step.next { response with statusCode := httpCode, body := bodyText, error := "HTTP error: " ++ toString httpCode }
            time events, ?_, rfl, rfl, rfl, ?_,
            rfl, fun _ => rfl, fun h => absurd hpos h, fun h => absurd h h2xx,
            fun _ => ⟨rfl, rfl⟩⟩
          · simp [classify, hpos, h2xx, h401, h429]
          · simp [Step.isRet, h2xx, h401]
  · have h2xx : ¬ (200 ≤ httpCode ∧ httpCode < 300) := by omega
    have h401 : ¬ httpCode = 401 := by omega
    refine ⟨Step.next { response with statusCode := httpCode, error := "Connection error: " ++ lib.errorToString httpCode }
      time events, ?_, rfl, rfl, rfl, ?_,
      rfl, fun h => absurd h hpos, fun _ => rfl, fun h => absurd h h2xx, fun _ => ⟨rfl, rfl⟩⟩
    · simp [classify, hpos]
    · simp [Step.isRet, h2xx, h401]

theorem scheduleFrom_one (d : Int) (k : Nat) :
    scheduleFrom d k 1
      = (if k > 0 then [Event.backoff (backoffDelay d k)] else []) ++ [Event.attempt k] := by
  simp [scheduleFrom]

/-- What one pass through the loop body does on a well-formed limiter. It
returns; it makes one attempt, preceded by one backoff sleep exactly when the
loop index is positive; it ends the loop exactly when the exchange stops it. -/
theorem attemptBody_spec (lib : Library) (c : ESPrawClient) (lim : RateLimiter)
    (method : ESPrawRequestMethod) (url body contentType : String) (k : Nat) (x : Exchange)
    (response : ESPrawResponse) (time : Nat) (hwf : WellFormed lim) :
    ∃ step, attemptBody lib c lim method url body contentType k x response time = some step ∧
      attemptIndices step.events = [k] ∧
      schedule step.events = scheduleFrom c.config.retryDelay k 1 ∧
      backoffSleeps step.events
        = (if k > 0 then [backoffDelay c.config.retryDelay k] else []) ∧
      step.isRet = x.stops method ∧
      (x.stops method = false → step.response.success = response.success ∧
        step.limiter lim = lim) ∧
      (∀ code, x.code method = some code → step.response.statusCode = code) ∧
      (x.code method = none → step.response.statusCode = response.statusCode ∧
        step.response.body = response.body ∧
        step.response.error = "Failed to begin HTTP connection") ∧
      (∀ code bodyText ra el, x = Exchange.completed code bodyText ra el →
        method ≠ ESPrawRequestMethod.PATCH → 0 < code → step.response.body = bodyText) ∧
      (∀ code, x.code method = some code → ¬ 0 < code → step.response.body = response.body) ∧
      (∀ code, x.code method = some code → 200 ≤ code → code < 300 →
        step.response.success = true ∧ step.response.error = response.error) ∧
      (∀ code, x.code method = some code → ¬ (200 ≤ code ∧ code < 300) →
        step.response.success = response.success) := by
  have hsched : ∀ evs : List Event, schedule evs = []  → attemptIndices evs = [] →
      backoffSleeps evs = [] →
      schedule (((if k > 0 then
            (time + backoffDelay c.config.retryDelay k,
              [Event.backoff (backoffDelay c.config.retryDelay k)])
          else (time, [])) : Nat × List Event).2 ++ [Event.attempt k] ++ evs)
        = scheduleFrom c.config.retryDelay k 1 ∧
      attemptIndices (((if k > 0 then
            (time + backoffDelay c.config.retryDelay k,
              [Event.backoff (backoffDelay c.config.retryDelay k)])
          else (time, [])) : Nat × List Event).2 ++ [Event.attempt k] ++ evs) = [k] ∧
      backoffSleeps (((if k > 0 then
            (time + backoffDelay c.config.retryDelay k,
              [Event.backoff (backoffDelay c.config.retryDelay k)])
          else (time, [])) : Nat × List Event).2 ++ [Event.attempt k] ++ evs)
        = (if k > 0 then [backoffDelay c.config.retryDelay k] else []) := by
    intro evs h1 h2 h3
    rw [scheduleFrom_one]
    by_cases hk : k > 0
    · simp [hk, schedule, attemptIndices, backoffSleeps, schedule_append,
        attemptIndices_append, backoffSleeps_append, h1, h2, h3]
    · simp [hk, schedule, attemptIndices, backoffSleeps, schedule_append,
        attemptIndices_append, backoffSleeps_append, h1, h2, h3]
  cases x with
  | beginFailed elapsed =>
    obtain ⟨hs, ha, hb⟩ := hsched [] rfl rfl rfl
    simp only [List.append_nil] at hs ha hb
    refine ⟨_, rfl, ha, hs, hb, rfl, fun _ => ⟨rfl, rfl⟩, ?_, fun _ => ⟨rfl, rfl, rfl⟩, ?_, ?_,
      ?_, ?_⟩
    · intro code h; simp [Exchange.code] at h
    · intro code bodyText ra el h; cases h
    · intro code h; simp [Exchange.code] at h
    · intro code h; simp [Exchange.code] at h
    · intro code h; simp [Exchange.code] at h
  | completed code bodyText retryAfter elapsed =>
    by_cases hm : method = ESPrawRequestMethod.PATCH
    · subst hm
      obtain ⟨hs, ha, hb⟩ := hsched [] rfl rfl rfl
      simp only [List.append_nil] at hs ha hb
      obtain ⟨step, hstep, h1, h2, h3, h4, h5, h6, h7, h8, h9⟩ :=
        classify_spec lib lim (-1) bodyText retryAfter response
          ((if k > 0 then
            (time + backoffDelay c.config.retryDelay k,
              [Event.backoff (backoffDelay c.config.retryDelay k)])
            else (time, [])) : Nat × List Event).1
          (((if k > 0 then
            (time + backoffDelay c.config.retryDelay k,
              [Event.backoff (backoffDelay c.config.retryDelay k)])
            else (time, [])) : Nat × List Event).2 ++ [Event.attempt k]) hwf
      have hneg : ¬ ((200 : Int) ≤ -1 ∧ (-1 : Int) < 300) := by omega
      refine ⟨step, hstep, by rw [h1, ha], by rw [h2, hs], by rw [h3, hb], ?_,
        fun _ => h9 hneg, ?_, ?_, ?_, ?_, ?_, ?_⟩
      · rw [h4]; simp [Exchange.stops, Exchange.code]
      · intro code' h; simp [Exchange.code] at h; rw [h5, h]
      · intro h; simp [Exchange.code] at h
      · intro _ _ _ _ _ hne; exact absurd rfl hne
      · intro code' _ _; exact h7 (by omega)
      · intro code' h; simp [Exchange.code] at h; omega
      · intro code' _ _; exact (h9 hneg).1
    · obtain ⟨hs, ha, hb⟩ := hsched [Event.send k method url
        (addHeaders c ++ contentTypeHeader method contentType) body] rfl rfl rfl
      obtain ⟨step, hstep, h1, h2, h3, h4, h5, h6, h7, h8, h9⟩ :=
        classify_spec lib lim code bodyText retryAfter response
          (((if k > 0 then
            (time + backoffDelay c.config.retryDelay k,
              [Event.backoff (backoffDelay c.config.retryDelay k)])
            else (time, [])) : Nat × List Event).1 + elapsed)
          (((if k > 0 then
            (time + backoffDelay c.config.retryDelay k,
              [Event.backoff (backoffDelay c.config.retryDelay k)])
            else (time, [])) : Nat × List Event).2 ++ [Event.attempt k] ++
            [Event.send k method url (addHeaders c ++ contentTypeHeader method contentType) body])
          hwf
      have hbody : attemptBody lib c lim method url body contentType k
          (Exchange.completed code bodyText retryAfter elapsed) response time = some step := by
        rw [← hstep]
        cases method <;> first | exact absurd rfl hm | rfl
      have hcode : (Exchange.completed code bodyText retryAfter elapsed).code method
          = some code := by simp [Exchange.code, hm]
      refine ⟨step, hbody, by rw [h1, ha], by rw [h2, hs], by rw [h3, hb], ?_, ?_, ?_, ?_, ?_,
        ?_, ?_, ?_⟩
      · rw [h4]; simp [Exchange.stops, hcode]
      · intro hstop
        simp only [Exchange.stops, hcode, decide_eq_false_iff_not] at hstop
        exact h9 (fun h => hstop (Or.inl h))
      · intro code' h; rw [hcode] at h; cases h; exact h5
      · intro h; rw [hcode] at h; cases h
      · intro code' bodyText' ra el h _ hpos; cases h; exact h6 hpos
      · intro code' h hnpos; rw [hcode] at h; cases h; exact h7 hnpos
      · intro code' h h200 h300; rw [hcode] at h; cases h
        exact ⟨(h8 ⟨h200, h300⟩).1, (h8 ⟨h200, h300⟩).2.1⟩
      · intro code' h hn; rw [hcode] at h; cases h; exact (h9 hn).1

/-! ## The retry loop -/

theorem scheduleFrom_succ (d : Int) (k m : Nat) :
    scheduleFrom d k (m + 1) = scheduleFrom d k 1 ++ scheduleFrom d (k + 1) m := by
  simp [scheduleFrom]

/-- The retry loop on a well-formed limiter, started at loop index `k` with
`iters` passes allowed. It returns after `m` passes, numbered `k .. k+m-1`, none
of which but the last is stopped by its exchange; it makes all `iters` passes
unless the last pass made stops it; and the response returned is the one the
last pass leaves, that pass having started from a response whose success flag
is still the initial one. -/
theorem retryLoop_spec (lib : Library) (c : ESPrawClient) (lim : RateLimiter)
    (method : ESPrawRequestMethod) (url body contentType : String) (net : Nat → Exchange)
    (hwf : WellFormed lim) :
    ∀ (iters k : Nat) (response : ESPrawResponse) (time : Nat),
      ∃ (r : Run) (m : Nat),
        retryLoop lib c lim method url body contentType net iters k response time = some r ∧
        m ≤ iters ∧ (0 < iters → 0 < m) ∧
        attemptIndices r.events = List.range' k m ∧
        schedule r.events = scheduleFrom c.config.retryDelay k m ∧
        (∀ j, k ≤ j → j + 1 < k + m → (net j).stops method = false) ∧
        (m = iters ∨ (net (k + m - 1)).stops method = true) ∧
        (m = 0 → r.response = response ∧ r.limiter = lim) ∧
        ((net (k + m - 1)).stops method = false → r.response.success = response.success ∧
          r.limiter = lim) ∧
        (0 < m → ∃ (before : ESPrawResponse) (t : Nat) (step : Step),
          before.success = response.success ∧
          attemptBody lib c lim method url body contentType (k + m - 1) (net (k + m - 1))
            before t = some step ∧
          step.response = r.response ∧ step.limiter lim = r.limiter) := by
  intro iters
  induction iters with
  | zero =>
    intro k response time
    refine ⟨{ response := response, limiter := lim, time := time, events := [] }, 0, rfl,
      le_refl _, fun h => absurd h (lt_irrefl _), rfl, rfl, ?_, Or.inl rfl, fun _ => ⟨rfl, rfl⟩,
      fun _ => ⟨rfl, rfl⟩, fun h => absurd h (lt_irrefl _)⟩
    intro j h1 h2
    omega
  | succ n ih =>
    intro k response time
    obtain ⟨step, hstep, ha, hs, _, hret, hnext, _⟩ :=
      attemptBody_spec lib c lim method url body contentType k (net k) response time hwf
    cases step with
    | ret response1 lim1 time1 events =>
      have hstop : (net k).stops method = true := by rw [← hret]; rfl
      refine ⟨{ response := response1, limiter := lim1, time := time1, events := events }, 1, ?_,
        by omega, fun _ => Nat.one_pos, by simpa using ha, hs, ?_, Or.inr (by simpa using hstop),
        fun h => absurd h Nat.one_ne_zero, ?_, fun _ => ⟨response, time, Step.ret response1 lim1 time1 events, rfl, ?_, rfl, rfl⟩⟩
      · simp [retryLoop, hstep]
      · intro j h1 h2; omega
      · intro h
        simp only [Nat.add_sub_cancel] at h
        rw [hstop] at h
        cases h
      · simpa using hstep
    | next response1 time1 events =>
      have hstop : (net k).stops method = false := by rw [← hret]; rfl
      obtain ⟨hsucc, _⟩ := hnext hstop
      have hsucc1 : response1.success = response.success := hsucc
      obtain ⟨r, m, hrun, hm, hpos, hidx, hsch, hmid, hend, hzero, hkeep, hlast⟩ :=
        ih (k + 1) response1 time1
      have hidx1 : k + 1 + m - 1 = k + (m + 1) - 1 := by omega
      refine ⟨r.after events, m + 1, ?_, by omega, fun _ => Nat.succ_pos _, ?_, ?_, ?_, ?_,
        fun h => absurd h (Nat.succ_ne_zero _), ?_, fun _ => ?_⟩
      · simp [retryLoop, hstep, hrun]
      · have : attemptIndices (r.after events).events = attemptIndices events ++ attemptIndices r.events := by
          simp [Run.after, attemptIndices_append]
        rw [this, hidx]
        have ha1 : attemptIndices events = [k] := ha
        rw [ha1]
        simp [List.range'_succ]
      · have : schedule (r.after events).events = schedule events ++ schedule r.events := by
          simp [Run.after, schedule_append]
        rw [this, hsch, scheduleFrom_succ]
        have hs1 : schedule events = scheduleFrom c.config.retryDelay k 1 := hs
        rw [hs1]
      · intro j h1 h2
        by_cases hj : j = k
        · rw [hj]; exact hstop
        · exact hmid j (by omega) (by omega)
      · rcases hend with h | h
        · exact Or.inl (by omega)
        · exact Or.inr (by rw [← hidx1]; exact h)
      · intro h
        rw [← hidx1] at h
        by_cases hm0 : m = 0
        · obtain ⟨h1, h2⟩ := hzero hm0
          exact ⟨by show r.response.success = _; rw [h1, hsucc1], h2⟩
        · obtain ⟨h1, h2⟩ := hkeep h
          exact ⟨by show r.response.success = _; rw [h1, hsucc1], h2⟩
      · by_cases hm0 : m = 0
        · obtain ⟨h1, h2⟩ := hzero hm0
          subst hm0
          refine ⟨response, time, Step.next response1 time1 events, rfl, ?_, ?_, ?_⟩
          · simpa using hstep
          · show response1 = r.response
            rw [h1]
          · show lim = r.limiter
            rw [h2]
        · obtain ⟨before, t, step, hb, hbody, hresp, hlim⟩ := hlast (by omega)
          refine ⟨before, t, step, by rw [hb, hsucc1], ?_, hresp, hlim⟩
          rw [← hidx1]
          exact hbody

/-! ## `performRequest` -/

/-- The rate limit check before the loop returns on a well-formed limiter; it
may sleep but it makes no attempt and no backoff sleep. -/
theorem rateLimitGate_spec (lim : RateLimiter) (time : Nat) (hwf : WellFormed lim) :
    ∃ lim1 time1 events, rateLimitGate lim time = some (lim1, time1, events) ∧
      WellFormed lim1 ∧ attemptIndices events = [] ∧ schedule events = [] ∧
      backoffSleeps events = [] := by
  obtain ⟨s1, h1, hwf1, hchk⟩ := checkRateLimit_wf (time % WORD) lim hwf
  by_cases hfree : s1.requestCount < ESPRAW_RATE_LIMIT_REQUESTS
  · exact ⟨s1, time, [], by simp [rateLimitGate, hchk, hfree], hwf1, rfl, rfl, rfl⟩
  · obtain ⟨s2, w, _, hwf2, ht, _⟩ := timeUntilNextRequest_wf (time % WORD) s1 hwf1
    by_cases hw : w > 0
    · exact ⟨s2, time + w, [Event.rateLimitWait w], by simp [rateLimitGate, hchk, hfree, ht, hw],
        hwf2, rfl, rfl, rfl⟩
    · exact ⟨s2, time, [], by simp [rateLimitGate, hchk, hfree, ht, hw], hwf2, rfl, rfl, rfl⟩

/-- `performRequest` on a well-formed limiter: it returns after `m` attempts,
numbered `0 .. m-1`, of which only the last can have been stopped by its
exchange; `m` is `maxRetries + 1` unless the last attempt made stops the loop;
the response returned is the one the last pass leaves. -/
theorem performRequest_spec (lib : Library) (c : ESPrawClient) (method : ESPrawRequestMethod)
    (url body contentType : String) (net : Nat → Exchange) (time : Nat)
    (hwf : WellFormed c.limiter) :
    ∃ (r : Run) (lim : RateLimiter),
      performRequest lib c method url body contentType net time = some r ∧
      WellFormed lim ∧
      (r.attempts : Int) ≤ (c.config.maxRetries + 1).toNat ∧
      (0 ≤ c.config.maxRetries → 0 < r.attempts) ∧
      attemptIndices r.events = List.range r.attempts ∧
      schedule r.events = scheduleFrom c.config.retryDelay 0 r.attempts ∧
      (∀ j, j + 1 < r.attempts → (net j).stops method = false) ∧
      (r.attempts = (c.config.maxRetries + 1).toNat ∨
        (net (r.attempts - 1)).stops method = true) ∧
      (r.attempts = 0 → r.response = ESPrawResponse.init) ∧
      ((net (r.attempts - 1)).stops method = false → r.response.success = false ∧
        r.limiter = lim) ∧
      (0 < r.attempts → ∃ (before : ESPrawResponse) (t : Nat) (step : Step),
        before.success = false ∧
        attemptBody lib c lim method url body contentType (r.attempts - 1)
          (net (r.attempts - 1)) before t = some step ∧
        step.response = r.response ∧ step.limiter lim = r.limiter) := by
  obtain ⟨lim, time1, events, hgate, hwf1, ha, hs, _⟩ := rateLimitGate_spec c.limiter time hwf
  obtain ⟨r, m, hrun, hm, hpos, hidx, hsch, hmid, hend, hzero, hkeep, hlast⟩ :=
    retryLoop_spec lib c lim method url body contentType net hwf1
      (c.config.maxRetries + 1).toNat 0 ESPrawResponse.init time1
  have hidx1 : attemptIndices (r.after events).events = List.range' 0 m := by
    simp [Run.after, attemptIndices_append, ha, hidx]
  have hatt : (r.after events).attempts = m := by
    simp [Run.attempts, hidx1]
  simp only [Nat.zero_add] at hend hkeep hlast
  refine ⟨r.after events, lim, by simp [performRequest, hgate, hrun], hwf1, ?_, ?_, ?_, ?_, ?_,
    ?_, ?_, ?_, ?_⟩
  · rw [hatt]; exact_mod_cast hm
  · intro h0
    rw [hatt]
    exact hpos (by omega)
  · rw [hatt, hidx1, List.range_eq_range']
  · rw [hatt]
    simp [Run.after, schedule_append, hs, hsch]
  · intro j hj
    rw [hatt] at hj
    exact hmid j (Nat.zero_le _) (by omega)
  · rw [hatt]; exact hend
  · intro h0
    rw [hatt] at h0
    exact (hzero h0).1
  · rw [hatt]
    intro h
    exact hkeep h
  · rw [hatt]
    intro h
    exact hlast h

/-! ## The backoff delay while the `int` product does not overflow -/

/-- While `retryDelay * 2^attempt` fits an `int`, the delay computed is
`min(30000, retryDelay * 2^attempt)`. -/
theorem backoffDelay_of_no_overflow (retryDelay : Int) (attempt : Nat) (hd : 0 ≤ retryDelay)
    (hk : attempt < 31) (hfit : retryDelay * 2 ^ attempt < 2147483648) :
    (backoffDelay retryDelay attempt : Int) = min 30000 (retryDelay * 2 ^ attempt) := by
  have hpow : (2 : Int) ^ attempt ≤ 2 ^ 30 :=
    pow_le_pow_right₀ (by norm_num) (by omega)
  have hpos : (0 : Int) < 2 ^ attempt := by positivity
  have hshift : wrapInt32 (2 ^ attempt) = 2 ^ attempt := by
    unfold wrapInt32
    norm_num at hpow
    omega
  have hprod : 0 ≤ retryDelay * 2 ^ attempt := by positivity
  have hmod : attempt % 32 = attempt := Nat.mod_eq_of_lt (by omega)
  unfold backoffDelay
  simp only [hmod, hshift]
  generalize retryDelay * 2 ^ attempt = p at hfit hprod
  have hw : wrapInt32 p = p := by unfold wrapInt32; omega
  rw [hw]
  unfold toULong
  split <;> omega

/-- A shift count of 32 is taken as 0: with `retryDelay = 1` the delay before
attempt 32 is 1 ms. -/
theorem backoffDelay_shift_count_masked : backoffDelay 1 32 = 1 ∧ backoffDelay 1 33 = 2 := by
  decide

/-! ## Retry loop: claims -/

/-- The step that `attemptBody` returns is unique: facts proved about it by
`attemptBody_spec` hold of any step it is known to return. -/
theorem attemptBody_last (lib : Library) (c : ESPrawClient) (lim : RateLimiter)
    (method : ESPrawRequestMethod) (url body contentType : String) (k : Nat) (x : Exchange)
    (before : ESPrawResponse) (t : Nat) (step : Step) (hwf : WellFormed lim)
    (h : attemptBody lib c lim method url body contentType k x before t = some step) :
    (∀ code, x.code method = some code → step.response.statusCode = code) ∧
    (∀ code bodyText ra el, x = Exchange.completed code bodyText ra el →
      method ≠ ESPrawRequestMethod.PATCH → 0 < code → step.response.body = bodyText) ∧
    (∀ code, x.code method = some code → 200 ≤ code → code < 300 →
      step.response.success = true) ∧
    (∀ code, x.code method = some code → ¬ (200 ≤ code ∧ code < 300) →
      step.response.success = before.success) := by
  obtain ⟨step1, h1, _, _, _, _, _, hcode, _, hbody, _, h2xx, hnot⟩ :=
    attemptBody_spec lib c lim method url body contentType k x before t hwf
  rw [h] at h1
  cases h1
  exact ⟨hcode, hbody, fun code hc h200 h300 => (h2xx code hc h200 h300).1, hnot⟩

/-- C1. For every `maxRetries >= 0` and every behaviour of the transport,
`performRequest` returns, its attempts are numbered `0, 1, ...` without gaps,
and if an attempt `i` that is made gets HTTP 401 then it is the last attempt
(`i + 1` attempts in total) and the result has status code 401 and success
false. In particular a 401 on attempt 0 gives exactly one attempt. -/
theorem performRequest_401_stops (lib : Library) (c : ESPrawClient)
    (method : ESPrawRequestMethod) (url body contentType : String) (net : Nat → Exchange)
    (time : Nat) (hwf : WellFormed c.limiter) (hn : 0 ≤ c.config.maxRetries) :
    ∃ r, performRequest lib c method url body contentType net time = some r ∧
      attemptIndices r.events = List.range r.attempts ∧
      (∀ i, i < r.attempts → (net i).code method = some 401 →
        r.attempts = i + 1 ∧ r.response.statusCode = 401 ∧ r.response.success = false) ∧
      ((net 0).code method = some 401 →
        r.attempts = 1 ∧ r.response.statusCode = 401 ∧ r.response.success = false) := by
  obtain ⟨r, lim, hrun, hwf1, _, hpos, hidx, _, hmid, _, _, _, hlast⟩ :=
    performRequest_spec lib c method url body contentType net time hwf
  have hmain : ∀ i, i < r.attempts → (net i).code method = some 401 →
      r.attempts = i + 1 ∧ r.response.statusCode = 401 ∧ r.response.success = false := by
    intro i hi hcode
    have hstop : (net i).stops method = true := by simp [Exchange.stops, hcode]
    have hlastidx : r.attempts = i + 1 := by
      by_contra hne
      have := hmid i (by omega)
      rw [hstop] at this
      cases this
    obtain ⟨before, t, step, hb, hbody, hresp, _⟩ := hlast (by omega)
    have hi1 : r.attempts - 1 = i := by omega
    rw [hi1] at hbody
    obtain ⟨hc, _, _, hnot⟩ :=
      attemptBody_last lib c lim method url body contentType i (net i) before t step hwf1 hbody
    refine ⟨hlastidx, ?_, ?_⟩
    · rw [← hresp]; exact hc 401 hcode
    · rw [← hresp, hnot 401 hcode (by omega), hb]
  exact ⟨r, hrun, hidx, hmain, fun h => hmain 0 (hpos hn) h⟩

/-- C1 with the default budget of 3 retries and a transport that answers 401 on
attempt 0 and 200 afterwards: one attempt, status 401, failure. -/
theorem performRequest_401_stops_witness :
    ∃ r, performRequest testLibrary (clientWith 3 1000) ESPrawRequestMethod.GET
        "https://oauth.reddit.com/api/v1/me" "" "" netUnauthorizedFirst 0 = some r ∧
      r.attempts = 1 ∧ r.response.statusCode = 401 ∧ r.response.success = false := by
  obtain ⟨r, hrun, _, _, h0⟩ :=
    performRequest_401_stops testLibrary (clientWith 3 1000) ESPrawRequestMethod.GET
      "https://oauth.reddit.com/api/v1/me" "" "" netUnauthorizedFirst 0 (by decide) (by decide)
  exact ⟨r, hrun, h0 (by decide)⟩

/-- C2. For every `maxRetries = n >= 0`, if the exchange of attempt `j <= n` gets
a 2xx status and no earlier exchange gets a 2xx or a 401 status, then
`performRequest` (called with a method of the public interface) makes exactly
`j + 1` attempts and returns success with the status code and the body of
attempt `j`. -/
theorem performRequest_first_success (lib : Library) (c : ESPrawClient)
    (method : ESPrawRequestMethod) (url body contentType : String) (net : Nat → Exchange)
    (time : Nat) (j : Nat) (code : Int) (bodyText retryAfter : String) (elapsed : Nat)
    (hwf : WellFormed c.limiter) (hm : method ≠ ESPrawRequestMethod.PATCH)
    (hj : (j : Int) ≤ c.config.maxRetries)
    (hx : net j = Exchange.completed code bodyText retryAfter elapsed)
    (h200 : 200 ≤ code) (h300 : code < 300)
    (hbefore : ∀ i, i < j → (net i).stops method = false) :
    ∃ r, performRequest lib c method url body contentType net time = some r ∧
      r.attempts = j + 1 ∧ r.response.success = true ∧
      r.response.statusCode = code ∧ r.response.body = bodyText := by
  obtain ⟨r, lim, hrun, hwf1, _, hpos, _, _, hmid, hend, _, _, hlast⟩ :=
    performRequest_spec lib c method url body contentType net time hwf
  have hcode : (net j).code method = some code := by simp [hx, Exchange.code, hm]
  have hstop : (net j).stops method = true := by
    simp [Exchange.stops, hcode, h200, h300]
  have hatt : r.attempts = j + 1 := by
    have h0 := hpos (by omega)
    by_contra hne
    rcases Nat.lt_or_gt_of_ne hne with hlt | hgt
    · rcases hend with h | h
      · omega
      · rw [hbefore (r.attempts - 1) (by omega)] at h
        cases h
    · have := hmid j (by omega)
      rw [hstop] at this
      cases this
  obtain ⟨before, t, step, _, hbody, hresp, _⟩ := hlast (by omega)
  have hj1 : r.attempts - 1 = j := by omega
  rw [hj1] at hbody
  obtain ⟨hc, hb, hs, _⟩ :=
    attemptBody_last lib c lim method url body contentType j (net j) before t step hwf1 hbody
  refine ⟨r, hrun, hatt, ?_, ?_, ?_⟩
  · rw [← hresp]; exact hs code hcode h200 h300
  · rw [← hresp]; exact hc code hcode
  · rw [← hresp]; exact hb code bodyText retryAfter elapsed hx hm (by omega)

/-- C2 with `maxRetries = 3` and outcomes fail, fail, success: exactly 3
attempts and success, with the status and the body of the third attempt. -/
theorem performRequest_first_success_witness :
    ∃ r, performRequest testLibrary (clientWith 3 1000) ESPrawRequestMethod.GET
        "https://oauth.reddit.com/r/test/hot?limit=25" "" "" netFailFailSuccess 0 = some r ∧
      r.attempts = 2 + 1 ∧ r.response.success = true ∧
      r.response.statusCode = 200 ∧ r.response.body = "listing" :=
  performRequest_first_success testLibrary (clientWith 3 1000) ESPrawRequestMethod.GET
    "https://oauth.reddit.com/r/test/hot?limit=25" "" "" netFailFailSuccess 0
    2 200 "listing" "" 80 (by decide) (by decide) (by decide) (by decide) (by decide) (by decide)
    (by decide)

theorem backoffSleeps_schedule (evs : List Event) :
    backoffSleeps (schedule evs) = backoffSleeps evs := by
  induction evs with
  | nil => rfl
  | cons e rest ih => cases e <;> simp [schedule, backoffSleeps, ih]

theorem backoffSleeps_scheduleFrom_succ (d : Int) (m : Nat) :
    ∀ k, backoffSleeps (scheduleFrom d (k + 1) m)
      = (List.range' (k + 1) m).map (backoffDelay d) := by
  induction m with
  | zero => intro k; rfl
  | succ n ih =>
    intro k
    simp [scheduleFrom, backoffSleeps, ih (k + 1), List.range'_succ]

/-- In the schedule that starts at attempt 0 the backoff sleeps are those
computed for the loop indices `1 .. m-1`. -/
theorem backoffSleeps_scheduleFrom_zero (d : Int) (m : Nat) :
    backoffSleeps (scheduleFrom d 0 m) = (List.range' 1 (m - 1)).map (backoffDelay d) := by
  cases m with
  | zero => rfl
  | succ n =>
    simp [scheduleFrom, backoffSleeps, backoffSleeps_scheduleFrom_succ d n 0]

/-- C4. For every `maxRetries = n >= 0` and every behaviour of the transport,
`performRequest` returns after at least 1 and at most `n + 1` attempts; its
backoff sleeps and attempts, in order, are attempt 0 followed by one backoff
sleep and one attempt for each loop index `1 .. attempts-1`, so each attempt
other than the first is preceded by exactly one backoff sleep, of the duration
computed for its index. With `n = 0` there is exactly one attempt and no
backoff sleep. -/
theorem performRequest_attempts_and_backoff (lib : Library) (c : ESPrawClient)
    (method : ESPrawRequestMethod) (url body contentType : String) (net : Nat → Exchange)
    (time : Nat) (hwf : WellFormed c.limiter) (hn : 0 ≤ c.config.maxRetries) :
    ∃ r, performRequest lib c method url body contentType net time = some r ∧
      1 ≤ r.attempts ∧ (r.attempts : Int) ≤ c.config.maxRetries + 1 ∧
      attemptIndices r.events = List.range r.attempts ∧
      schedule r.events = scheduleFrom c.config.retryDelay 0 r.attempts ∧
      backoffSleeps r.events
        = (List.range' 1 (r.attempts - 1)).map (backoffDelay c.config.retryDelay) ∧
      (backoffSleeps r.events).length + 1 = r.attempts ∧
      (c.config.maxRetries = 0 → r.attempts = 1 ∧ backoffSleeps r.events = []) := by
  obtain ⟨r, lim, hrun, _, hle, hpos, hidx, hsch, _⟩ :=
    performRequest_spec lib c method url body contentType net time hwf
  have h1 : 1 ≤ r.attempts := hpos hn
  have hmax : (r.attempts : Int) ≤ c.config.maxRetries + 1 := by omega
  have hsleeps : backoffSleeps r.events
      = (List.range' 1 (r.attempts - 1)).map (backoffDelay c.config.retryDelay) := by
    rw [← backoffSleeps_schedule, hsch, backoffSleeps_scheduleFrom_zero]
  refine ⟨r, hrun, h1, hmax, hidx, hsch, hsleeps, ?_, ?_⟩
  · rw [hsleeps]
    simp
    omega
  · intro h0
    have hatt : r.attempts = 1 := by omega
    refine ⟨hatt, ?_⟩
    rw [hsleeps, hatt]
    rfl

/-- C4 with zero configured retries and a transport that always answers 503:
one attempt, no backoff sleep. -/
theorem performRequest_attempts_and_backoff_witness :
    ∃ r, performRequest testLibrary (clientWith 0 1000) ESPrawRequestMethod.GET
        "https://oauth.reddit.com/r/test/hot" "" "" netAlwaysUnavailable 0 = some r ∧
      r.attempts = 1 ∧ backoffSleeps r.events = [] := by
  obtain ⟨r, hrun, _, _, _, _, _, _, h0⟩ :=
    performRequest_attempts_and_backoff testLibrary (clientWith 0 1000) ESPrawRequestMethod.GET
      "https://oauth.reddit.com/r/test/hot" "" "" netAlwaysUnavailable 0 (by decide) (by decide)
  exact ⟨r, hrun, h0 (by decide)⟩

/-- C3 at `maxRetries = 1` with outcomes: HTTP 500 with body "first body", then a
failed `http.begin`. Both attempts fail and none is a 401; `performRequest` makes
2 attempts and returns failure with the error of the final attempt, but with
the status code 500 and the body of the first attempt. The same final attempt
made alone leaves status code 0 and an empty body. When the final attempt is a
refused connection instead, the status code is its `-1` and the body is still
that of the first attempt. -/
theorem performRequest_exhausted_keeps_earlier_status_and_body :
    (∀ i, i ≤ 1 → (netErrorThenBeginFails i).stops ESPrawRequestMethod.GET = false) ∧
    (performRequest testLibrary (clientWith 1 1000) ESPrawRequestMethod.GET
        "https://oauth.reddit.com/r/test/hot" "" "" netErrorThenBeginFails 0).map
      (fun r => (r.attempts, r.response))
      = some (2, { statusCode := 500, body := "first body",
                   error := "Failed to begin HTTP connection", success := false }) ∧
    (performRequest testLibrary (clientWith 0 1000) ESPrawRequestMethod.GET
        "https://oauth.reddit.com/r/test/hot" "" "" (fun _ => netErrorThenBeginFails 1) 0).map
      (fun r => (r.attempts, r.response))
      = some (1, { statusCode := 0, body := "",
                   error := "Failed to begin HTTP connection", success := false }) ∧
    (performRequest testLibrary (clientWith 1 1000) ESPrawRequestMethod.GET
        "https://oauth.reddit.com/r/test/hot" "" "" netErrorThenRefused 0).map
      (fun r => (r.attempts, r.response))
      = some (2, { statusCode := -1, body := "first body",
                   error := "Connection error: connection refused", success := false }) ∧
    (performRequest testLibrary (clientWith 0 1000) ESPrawRequestMethod.GET
        "https://oauth.reddit.com/r/test/hot" "" "" (fun _ => netErrorThenRefused 1) 0).map
      (fun r => (r.attempts, r.response))
      = some (1, { statusCode := -1, body := "",
                   error := "Connection error: connection refused", success := false }) := by
  refine ⟨?_, ?_, ?_, ?_, ?_⟩
  · decide
  · decide
  · decide
  · decide
  · decide

/-- C5 at the values of `test_exponential_backoff_calculation` and at the
default base delay 1000 with loop index 29. The delays for indices 0..3 are
1000, 2000, 4000, 8000 and the one for index 10 is capped at 30000; at index 29
the `int` product `1000 * (1 << 29)` is `125 * 2^32`, which wraps to 0, so the
delay is 0 where `min(30000, 1000 * 2^29)` is 30000. With `maxRetries = 29` and a
transport that always fails, the sleep before attempt 29 is that 0. -/
theorem backoffDelay_wraps_to_zero :
    backoffDelay 1000 0 = 1000 ∧ backoffDelay 1000 1 = 2000 ∧ backoffDelay 1000 2 = 4000 ∧
    backoffDelay 1000 3 = 8000 ∧ backoffDelay 1000 10 = 30000 ∧
    backoffDelay 1000 29 = 0 ∧ min 30000 (1000 * 2 ^ 29) = 30000 ∧
    backoffDelay 65536 16 = 0 ∧ min 30000 (65536 * 2 ^ 16) = 30000 ∧
    (performRequest testLibrary (clientWith 29 1000) ESPrawRequestMethod.GET
        "https://oauth.reddit.com/r/test/hot" "" "" netAlwaysUnavailable 0).map
      (fun r => (r.attempts, (backoffSleeps r.events).getLast?)) = some (30, some 0) := by
  refine ⟨?_, ?_, ?_, ?_, ?_, ?_, ?_, ?_, ?_, ?_⟩
  · decide
  · decide
  · decide
  · decide
  · decide
  · decide
  · decide
  · decide
  · decide
  · decide

/-! ## More on one pass: calls of `recordRequest`, error descriptions, first effect -/

theorem recordCalls_append (a b : List Event) :
    recordCalls (a ++ b) = recordCalls a + recordCalls b := by
  induction a with
  | nil => simp [recordCalls]
  | cons e rest ih =>
    cases e <;> simp [recordCalls, ih]
    omega

theorem append_ne_empty (a b : String) (h : 0 < a.length) : a ++ b ≠ "" := by
  intro heq
  have hlen := congrArg String.length heq
  rw [String.length_append] at hlen
  have h0 : "".length = 0 := rfl
  omega

/-- Facts about the step that `classify` returns: `recordRequest` is called
exactly on a 2xx status, the effects so far are kept in front, and on every
other status an error description is set. -/
theorem classify_facts (lib : Library) (lim : RateLimiter) (httpCode : Int)
    (bodyText retryAfter : String) (response : ESPrawResponse) (time : Nat)
    (events : List Event) (step : Step)
    (h : classify lib lim httpCode bodyText retryAfter response time events = some step) :
    recordCalls step.events
      = recordCalls events + (if 200 ≤ httpCode ∧ httpCode < 300 then 1 else 0) ∧
    (∃ tail, step.events = events ++ tail) ∧
    (¬ (200 ≤ httpCode ∧ httpCode < 300) → step.response.error ≠ "") := by
  by_cases hpos : 0 < httpCode
  · by_cases h2xx : 200 ≤ httpCode ∧ httpCode < 300
    · simp only [classify, gt_iff_lt, hpos, if_true, ge_iff_le, h2xx, and_self] at h
      cases hr : recordRequest (time % WORD) lim with
      | none => rw [hr] at h; cases h
      | some lim1 =>
        rw [hr] at h
        cases h
        refine ⟨?_, ⟨_, rfl⟩, fun hn => absurd h2xx hn⟩
        simp [Step.events, recordCalls_append, recordCalls, h2xx]
    · by_cases h401 : httpCode = 401
      · simp [classify, hpos, h2xx, h401] at h
        subst h
        refine ⟨by simp [Step.events, h2xx, h401], ⟨[], by simp [Step.events]⟩, fun _ => ?_⟩
        show "Unauthorized - token may be expired" ≠ ""
        decide
      · by_cases h429 : httpCode = 429
        · by_cases hra : retryAfter.length > 0
          · simp [classify, hpos, h2xx, h401, h429, hra] at h
            subst h
            refine ⟨?_, ⟨_, rfl⟩, fun _ => ?_⟩
            · simp [Step.events, recordCalls_append, recordCalls, h2xx, h429]
            · show "Rate limit exceeded" ≠ ""
              decide
          · simp [classify, hpos, h2xx, h401, h429, hra] at h
            subst h
            refine ⟨by simp [Step.events, h2xx, h429], ⟨[], by simp [Step.events]⟩, fun _ => ?_⟩
            show "Rate limit exceeded" ≠ ""
            decide
        · simp [classify, hpos, h2xx, h401, h429] at h
          subst h
          refine ⟨by simp [Step.events, h2xx], ⟨[], by simp [Step.events]⟩, fun _ => ?_⟩
          show "HTTP error: " ++ toString httpCode ≠ ""
          exact append_ne_empty _ _ (by decide)
  · have h2xx : ¬ (200 ≤ httpCode ∧ httpCode < 300) := by omega
    simp [classify, hpos] at h
    subst h
    refine ⟨by simp [Step.events, h2xx], ⟨[], by simp [Step.events]⟩, fun _ => ?_⟩
    show "Connection error: " ++ lib.errorToString httpCode ≠ ""
    exact append_ne_empty _ _ (by decide)

/-- Facts about the step that one pass through the loop body returns:
`recordRequest` is called exactly when the exchange gets a 2xx status, in which
case the pass returns success; otherwise the success flag is left alone and an
error description is set; and the pass of attempt 0 starts with the attempt. -/
theorem attemptBody_facts (lib : Library) (c : ESPrawClient) (lim : RateLimiter)
    (method : ESPrawRequestMethod) (url body contentType : String) (k : Nat) (x : Exchange)
    (response : ESPrawResponse) (time : Nat) (step : Step)
    (h : attemptBody lib c lim method url body contentType k x response time = some step) :
    recordCalls step.events = (if x.succeeds method then 1 else 0) ∧
    (x.succeeds method = false → step.response.error ≠ "") ∧
    (k = 0 → ∃ tail, step.events = Event.attempt 0 :: tail) := by
  have hslept : ∀ evs : List Event, recordCalls evs = 0 →
      recordCalls (((if k > 0 then
            (time + backoffDelay c.config.retryDelay k,
              [Event.backoff (backoffDelay c.config.retryDelay k)])
          else (time, [])) : Nat × List Event).2 ++ [Event.attempt k] ++ evs) = 0 ∧
      (k = 0 → (((if k > 0 then
            (time + backoffDelay c.config.retryDelay k,
              [Event.backoff (backoffDelay c.config.retryDelay k)])
          else (time, [])) : Nat × List Event).2 ++ [Event.attempt k] ++ evs)
        = Event.attempt 0 :: evs) := by
    intro evs h0
    by_cases hk : k > 0
    · refine ⟨by simp [hk, recordCalls_append, recordCalls, h0], fun hk0 => by omega⟩
    · refine ⟨by simp [hk, recordCalls_append, recordCalls, h0], fun hk0 => ?_⟩
      subst hk0
      simp
  cases x with
  | beginFailed elapsed =>
    obtain ⟨hrec, hhead⟩ := hslept [] rfl
    simp only [List.append_nil] at hrec hhead
    simp only [attemptBody] at h
    cases h
    refine ⟨?_, fun _ => ?_, fun hk => ⟨[], hhead hk⟩⟩
    · simpa [Exchange.succeeds, Exchange.code, Step.events] using hrec
    · show "Failed to begin HTTP connection" ≠ ""
      decide
  | completed code bodyText retryAfter elapsed =>
    by_cases hm : method = ESPrawRequestMethod.PATCH
    · subst hm
      obtain ⟨hrec, hhead⟩ := hslept [] rfl
      simp only [List.append_nil] at hrec hhead
      have hbody : attemptBody lib c lim ESPrawRequestMethod.PATCH url body contentType k
          (Exchange.completed code bodyText retryAfter elapsed) response time
          = classify lib lim (-1) bodyText retryAfter response
            ((if k > 0 then
              (time + backoffDelay c.config.retryDelay k,
                [Event.backoff (backoffDelay c.config.retryDelay k)])
              else (time, [])) : Nat × List Event).1
            (((if k > 0 then
              (time + backoffDelay c.config.retryDelay k,
                [Event.backoff (backoffDelay c.config.retryDelay k)])
              else (time, [])) : Nat × List Event).2 ++ [Event.attempt k]) := rfl
      rw [hbody] at h
      obtain ⟨h1, ⟨tail, h2⟩, h3⟩ := classify_facts lib lim (-1) bodyText retryAfter response _ _ step h
      have hneg : ¬ ((200 : Int) ≤ -1 ∧ (-1 : Int) < 300) := by omega
      refine ⟨?_, fun _ => h3 hneg, fun hk => ⟨tail, ?_⟩⟩
      · rw [h1, hrec]
        simp [Exchange.succeeds, Exchange.code]
      · rw [h2, hhead hk]
        rfl
    · have hbody : attemptBody lib c lim method url body contentType k
          (Exchange.completed code bodyText retryAfter elapsed) response time
          = classify lib lim code bodyText retryAfter response
            (((if k > 0 then
              (time + backoffDelay c.config.retryDelay k,
                [Event.backoff (backoffDelay c.config.retryDelay k)])
              else (time, [])) : Nat × List Event).1 + elapsed)
            (((if k > 0 then
              (time + backoffDelay c.config.retryDelay k,
                [Event.backoff (backoffDelay c.config.retryDelay k)])
              else (time, [])) : Nat × List Event).2 ++ [Event.attempt k] ++
              [Event.send k method url (addHeaders c ++ contentTypeHeader method contentType)
                body]) := by
        cases method <;> first | exact absurd rfl hm | rfl
      rw [hbody] at h
      obtain ⟨hrec, hhead⟩ := hslept [Event.send k method url
        (addHeaders c ++ contentTypeHeader method contentType) body] rfl
      obtain ⟨h1, ⟨tail, h2⟩, h3⟩ := classify_facts lib lim code bodyText retryAfter response _ _ step h
      have hsucc : (Exchange.completed code bodyText retryAfter elapsed).succeeds method
          = decide (200 ≤ code ∧ code < 300) := by
        simp [Exchange.succeeds, Exchange.code, hm]
      refine ⟨?_, ?_, fun hk => ⟨[Event.send k method url
        (addHeaders c ++ contentTypeHeader method contentType) body] ++ tail, ?_⟩⟩
      · rw [h1, hrec, hsucc]
        by_cases h2xx : 200 ≤ code ∧ code < 300
        · simp [h2xx]
        · simp [h2xx]
      · intro hs
        rw [hsucc] at hs
        exact h3 (by simpa using hs)
      · rw [h2, hhead hk]
        rfl

/-- The success flag and the status code after one pass, on a well-formed
limiter: the flag is set exactly by a 2xx status, which ends the loop, and the
status code is the `httpCode` of the pass when there is one. -/
theorem attemptBody_status (lib : Library) (c : ESPrawClient) (lim : RateLimiter)
    (method : ESPrawRequestMethod) (url body contentType : String) (k : Nat) (x : Exchange)
    (response : ESPrawResponse) (time : Nat) (step : Step) (hwf : WellFormed lim)
    (h : attemptBody lib c lim method url body contentType k x response time = some step) :
    step.response.success = (x.succeeds method || response.success) ∧
    (x.succeeds method = true → step.isRet = true) ∧
    step.isRet = x.stops method ∧
    attemptIndices step.events = [k] ∧
    step.response.statusCode
      = (match x.code method with
         | none => response.statusCode
         | some code => code) := by
  obtain ⟨step1, h1, hidx, _, _, hret, _, hcode, hnone, _, _, h2xx, hnot⟩ :=
    attemptBody_spec lib c lim method url body contentType k x response time hwf
  rw [h] at h1
  cases h1
  cases hc : x.code method with
  | none =>
    refine ⟨?_, ?_, hret, hidx, ?_⟩
    · have hstop : x.stops method = false := by simp [Exchange.stops, hc]
      have hkeep : step.response.success = response.success := by
        have := attemptBody_spec lib c lim method url body contentType k x response time hwf
        obtain ⟨step2, h2, _, _, _, _, hk, _⟩ := this
        rw [h] at h2
        cases h2
        exact (hk hstop).1
      simp [Exchange.succeeds, hc, hkeep]
    · intro hs
      simp [Exchange.succeeds, hc] at hs
    · simpa [hc] using (hnone hc).1
  | some code =>
    refine ⟨?_, ?_, hret, hidx, ?_⟩
    · by_cases hok : 200 ≤ code ∧ code < 300
      · simp [Exchange.succeeds, hc, hok, (h2xx code hc hok.1 hok.2).1]
      · simp [Exchange.succeeds, hc, hok, hnot code hc hok]
    · intro hs
      rw [hret]
      simp only [Exchange.succeeds, hc, decide_eq_true_eq] at hs
      simp [Exchange.stops, hc, hs]
    · simpa [hc] using hcode code hc

theorem lastCodeFrom_succ (method : ESPrawRequestMethod) (net : Nat → Exchange) (k m : Nat)
    (status : Int) :
    lastCodeFrom method net k (m + 1) status
      = lastCodeFrom method net (k + 1) m
          (match (net k).code method with
           | none => status
           | some code => code) := by
  cases hc : (net k).code method <;> simp [lastCodeFrom, hc]

/-- What the retry loop returns on a well-formed limiter, started with the
success flag unset: `recordRequest` has been called once if the response is a
success and not at all otherwise; the status code is that of the last attempt
that got past `http.begin`, if any. -/
theorem retryLoop_facts (lib : Library) (c : ESPrawClient) (lim : RateLimiter)
    (method : ESPrawRequestMethod) (url body contentType : String) (net : Nat → Exchange)
    (hwf : WellFormed lim) :
    ∀ (iters k : Nat) (response : ESPrawResponse) (time : Nat) (r : Run),
      response.success = false →
      retryLoop lib c lim method url body contentType net iters k response time = some r →
      recordCalls r.events = (if r.response.success then 1 else 0) ∧
      r.response.statusCode
        = lastCodeFrom method net k (attemptIndices r.events).length response.statusCode ∧
      (0 < iters → k = 0 → ∃ tail, r.events = Event.attempt 0 :: tail) := by
  intro iters
  induction iters with
  | zero =>
    intro k response time r hs h
    simp only [retryLoop] at h
    cases h
    refine ⟨by simp [recordCalls, hs], by simp [attemptIndices, lastCodeFrom], fun h0 => ?_⟩
    omega
  | succ n ih =>
    intro k response time r hs h
    cases hb : attemptBody lib c lim method url body contentType k (net k) response time with
    | none => simp [retryLoop, hb] at h
    | some step =>
      obtain ⟨hrec, _, hhead⟩ :=
        attemptBody_facts lib c lim method url body contentType k (net k) response time step hb
      obtain ⟨hsucc, hsret, hret, hidx, hstatus⟩ :=
        attemptBody_status lib c lim method url body contentType k (net k) response time step
          hwf hb
      cases step with
      | ret response1 lim1 time1 events =>
        simp only [retryLoop, hb] at h
        cases h
        have hidx1 : attemptIndices events = [k] := hidx
        have hsucc1 : response1.success = ((net k).succeeds method || response.success) := hsucc
        have hstatus1 : response1.statusCode
            = (match (net k).code method with
               | none => response.statusCode
               | some code => code) := hstatus
        refine ⟨?_, ?_, fun _ hk => hhead hk⟩
        · show recordCalls events = if response1.success then 1 else 0
          have hrec1 : recordCalls events = if (net k).succeeds method then 1 else 0 := hrec
          rw [hrec1, hsucc1, hs]
          simp
        · show response1.statusCode = _
          rw [hidx1, hstatus1]
          simp [lastCodeFrom_succ, lastCodeFrom]
      | next response1 time1 events =>
        have hidx1 : attemptIndices events = [k] := hidx
        have hnot : (net k).succeeds method = false := by
          cases hv : (net k).succeeds method with
          | false => rfl
          | true =>
            have := hsret hv
            simp [Step.isRet] at this
        have hsucc1 : response1.success = false := by
          have : response1.success = ((net k).succeeds method || response.success) := hsucc
          rw [this, hnot, hs]
          rfl
        have hstatus1 : response1.statusCode
            = (match (net k).code method with
               | none => response.statusCode
               | some code => code) := hstatus
        have hrec1 : recordCalls events = 0 := by
          have : recordCalls events = if (net k).succeeds method then 1 else 0 := hrec
          rw [this, hnot]
          rfl
        cases hr : retryLoop lib c lim method url body contentType net n (k + 1) response1
            time1 with
        | none => simp [retryLoop, hb, hr] at h
        | some r1 =>
          simp only [retryLoop, hb, hr] at h
          cases h
          obtain ⟨ih1, ih2, _⟩ := ih (k + 1) response1 time1 r1 hsucc1 hr
          refine ⟨?_, ?_, fun _ hk => ?_⟩
          · show recordCalls (events ++ r1.events) = if r1.response.success then 1 else 0
            rw [recordCalls_append, hrec1, ih1]
            simp
          · show r1.response.statusCode
              = lastCodeFrom method net k (attemptIndices (events ++ r1.events)).length
                  response.statusCode
            rw [attemptIndices_append, hidx1, ih2, hstatus1]
            simp only [List.singleton_append, List.length_cons]
            rw [lastCodeFrom_succ]
          · obtain ⟨tail, ht⟩ := hhead hk
            have ht1 : events = Event.attempt 0 :: tail := ht
            exact ⟨tail ++ r1.events, by show events ++ r1.events = _; rw [ht1]; rfl⟩

/-! ## `performRequest`: calls of `recordRequest`, status code, the rate limit wait -/

/-- What the rate limit check before the loop does, given that it returns: when
`checkRateLimit` is true nothing, and when it is false a sleep of
`timeUntilNextRequest()` unless that is 0. -/
theorem rateLimitGate_facts (lim lim1 : RateLimiter) (time time1 : Nat) (events : List Event)
    (h : rateLimitGate lim time = some (lim1, time1, events)) :
    recordCalls events = 0 ∧ attemptIndices events = [] ∧
    ∃ b s1, checkRateLimit (time % WORD) lim = some (b, s1) ∧
      (b = true → events = [] ∧ lim1 = s1 ∧ time1 = time) ∧
      (b = false → ∃ w, timeUntilNextRequest (time % WORD) s1 = some (w, lim1) ∧
        events = (if w > 0 then [Event.rateLimitWait w] else []) ∧ time1 = time + w) := by
  cases hc : checkRateLimit (time % WORD) lim with
  | none => simp [rateLimitGate, hc] at h
  | some p =>
    obtain ⟨b, s1⟩ := p
    cases b with
    | true =>
      simp only [rateLimitGate, hc, Option.some.injEq, Prod.mk.injEq] at h
      obtain ⟨h1, h2, h3⟩ := h
      subst h1 h2 h3
      exact ⟨rfl, rfl, true, _, rfl, fun _ => ⟨rfl, rfl, rfl⟩, fun hb => by cases hb⟩
    | false =>
      cases ht : timeUntilNextRequest (time % WORD) s1 with
      | none => simp [rateLimitGate, hc, ht] at h
      | some q =>
        obtain ⟨w, s2⟩ := q
        by_cases hw : w > 0
        · simp only [rateLimitGate, hc, ht, hw, if_true, Option.some.injEq, Prod.mk.injEq] at h
          obtain ⟨h1, h2, h3⟩ := h
          subst h1 h2 h3
          exact ⟨rfl, rfl, false, _, rfl, fun hb => (by cases hb),
            fun _ => ⟨w, ht, by simp [hw], rfl⟩⟩
        · simp only [rateLimitGate, hc, ht, hw, if_false, Option.some.injEq, Prod.mk.injEq] at h
          obtain ⟨h1, h2, h3⟩ := h
          subst h1 h2 h3
          have hw0 : w = 0 := by omega
          exact ⟨rfl, rfl, false, _, rfl, fun hb => (by cases hb),
            fun _ => ⟨w, ht, by simp [hw], by omega⟩⟩

/-- Facts about the run of `performRequest` on a well-formed limiter. -/
theorem performRequest_facts (lib : Library) (c : ESPrawClient) (method : ESPrawRequestMethod)
    (url body contentType : String) (net : Nat → Exchange) (time : Nat) (r : Run)
    (hwf : WellFormed c.limiter)
    (h : performRequest lib c method url body contentType net time = some r) :
    recordCalls r.events = (if r.response.success then 1 else 0) ∧
    r.response.statusCode = lastCodeFrom method net 0 r.attempts 0 ∧
    ∃ b s1, checkRateLimit (time % WORD) c.limiter = some (b, s1) ∧
      (b = true → 0 ≤ c.config.maxRetries → ∃ tail, r.events = Event.attempt 0 :: tail) ∧
      (b = false → ∃ w s2, timeUntilNextRequest (time % WORD) s1 = some (w, s2) ∧
        (0 ≤ c.config.maxRetries → ∃ tail,
          r.events = (if w > 0 then [Event.rateLimitWait w] else []) ++
            Event.attempt 0 :: tail)) := by
  cases hg : rateLimitGate c.limiter time with
  | none => simp [performRequest, hg] at h
  | some p =>
    obtain ⟨lim, time1, events⟩ := p
    obtain ⟨lim', time1', events', hgate, hwf1, _⟩ := rateLimitGate_spec c.limiter time hwf
    rw [hg] at hgate
    cases hgate
    obtain ⟨hrec0, hidx0, b, s1, hchk, htrue, hfalse⟩ :=
      rateLimitGate_facts c.limiter lim time time1 events hg
    cases hl : retryLoop lib c lim method url body contentType net
        (c.config.maxRetries + 1).toNat 0 ESPrawResponse.init time1 with
    | none => simp [performRequest, hg, hl] at h
    | some r1 =>
      simp only [performRequest, hg, hl, Option.some.injEq] at h
      subst h
      obtain ⟨h1, h2, h3⟩ := retryLoop_facts lib c lim method url body contentType net hwf1
        (c.config.maxRetries + 1).toNat 0 ESPrawResponse.init time1 r1 rfl hl
      refine ⟨?_, ?_, b, s1, hchk, ?_, ?_⟩
      · show recordCalls (events ++ r1.events) = if r1.response.success then 1 else 0
        rw [recordCalls_append, hrec0, h1]
        simp
      · show r1.response.statusCode
          = lastCodeFrom method net 0 (attemptIndices (events ++ r1.events)).length 0
        rw [attemptIndices_append, hidx0, h2]
        rfl
      · intro hb hn
        obtain ⟨tail, ht⟩ := h3 (by omega) rfl
        obtain ⟨he, _, _⟩ := htrue hb
        exact ⟨tail, by show events ++ r1.events = _; rw [he, ht]; rfl⟩
      · intro hb
        obtain ⟨w, hw, he, _⟩ := hfalse hb
        refine ⟨w, lim, hw, fun hn => ?_⟩
        obtain ⟨tail, ht⟩ := h3 (by omega) rfl
        exact ⟨tail, by show events ++ r1.events = _; rw [he, ht]⟩

theorem lastCodeFrom_cases (method : ESPrawRequestMethod) (net : Nat → Exchange) (m : Nat) :
    ∀ (k : Nat) (status : Int),
      ((∀ j, k ≤ j → j < k + m → (net j).code method = none) →
        lastCodeFrom method net k m status = status) ∧
      (lastCodeFrom method net k m status = status ∨
        ∃ j, k ≤ j ∧ j < k + m ∧
          (net j).code method = some (lastCodeFrom method net k m status)) := by
  induction m with
  | zero => intro k status; exact ⟨fun _ => rfl, Or.inl rfl⟩
  | succ n ih =>
    intro k status
    rw [lastCodeFrom_succ]
    cases hc : (net k).code method with
    | none =>
      obtain ⟨ih1, ih2⟩ := ih (k + 1) status
      refine ⟨fun hall => ih1 (fun j h1 h2 => hall j (by omega) (by omega)), ?_⟩
      rcases ih2 with h | ⟨j, h1, h2, h3⟩
      · exact Or.inl h
      · exact Or.inr ⟨j, by omega, by omega, h3⟩
    | some code =>
      obtain ⟨_, ih2⟩ := ih (k + 1) code
      refine ⟨fun hall => ?_, ?_⟩
      · have := hall k (le_refl _) (by omega)
        rw [hc] at this
        cases this
      · rcases ih2 with h | ⟨j, h1, h2, h3⟩
        · exact Or.inr ⟨k, le_refl _, by omega, by simp only []; rw [h]; exact hc⟩
        · exact Or.inr ⟨j, by omega, by omega, h3⟩

/-! ## `performRequest`: claims on recording, waiting and the response -/

/-- C11. On a well-formed limiter every call of `performRequest` returns, and
`recordRequest` has been called exactly once during the call if the response
returned has the success flag set and not at all if it has not, whatever the
number of attempts. -/
theorem performRequest_records_iff_success (lib : Library) (c : ESPrawClient)
    (method : ESPrawRequestMethod) (url body contentType : String) (net : Nat → Exchange)
    (time : Nat) (hwf : WellFormed c.limiter) :
    ∃ r, performRequest lib c method url body contentType net time = some r ∧
      (r.response.success = true → recordCalls r.events = 1) ∧
      (r.response.success = false → recordCalls r.events = 0) := by
  obtain ⟨r, _, hrun, _⟩ := performRequest_spec lib c method url body contentType net time hwf
  obtain ⟨hrec, _⟩ := performRequest_facts lib c method url body contentType net time r hwf hrun
  refine ⟨r, hrun, fun hs => ?_, fun hs => ?_⟩
  · rw [hrec, hs]; rfl
  · rw [hrec, hs]; rfl

/-- C11 on a success at the third attempt and on a failure after four attempts:
one call of `recordRequest`, respectively none. -/
theorem performRequest_records_iff_success_witness :
    (∃ r, performRequest testLibrary (clientWith 3 1000) ESPrawRequestMethod.GET
        "https://oauth.reddit.com/r/test/hot" "" "" netFailFailSuccess 0 = some r ∧
      r.attempts = 3 ∧ r.response.success = true ∧ recordCalls r.events = 1) ∧
    (∃ r, performRequest testLibrary (clientWith 3 1000) ESPrawRequestMethod.GET
        "https://oauth.reddit.com/r/test/hot" "" "" netAlwaysUnavailable 0 = some r ∧
      r.attempts = 4 ∧ r.response.success = false ∧ recordCalls r.events = 0) := by
  obtain ⟨r1, h1, hs1, _⟩ := performRequest_records_iff_success testLibrary (clientWith 3 1000)
    ESPrawRequestMethod.GET "https://oauth.reddit.com/r/test/hot" "" "" netFailFailSuccess 0
    (by decide)
  obtain ⟨r2, h2, _, hf2⟩ := performRequest_records_iff_success testLibrary (clientWith 3 1000)
    ESPrawRequestMethod.GET "https://oauth.reddit.com/r/test/hot" "" "" netAlwaysUnavailable 0
    (by decide)
  have e1 : (performRequest testLibrary (clientWith 3 1000) ESPrawRequestMethod.GET
      "https://oauth.reddit.com/r/test/hot" "" "" netFailFailSuccess 0).map
      (fun r => (r.attempts, r.response.success)) = some (3, true) := by decide
  have e2 : (performRequest testLibrary (clientWith 3 1000) ESPrawRequestMethod.GET
      "https://oauth.reddit.com/r/test/hot" "" "" netAlwaysUnavailable 0).map
      (fun r => (r.attempts, r.response.success)) = some (4, false) := by decide
  rw [h1] at e1
  rw [h2] at e2
  simp only [Option.map_some', Option.some.injEq, Prod.mk.injEq] at e1 e2
  exact ⟨⟨r1, h1, e1.1, e1.2, hs1 e1.2⟩, ⟨r2, h2, e2.1, e2.2, hf2 e2.2⟩⟩

/-- C12. For every well-formed rate limiter state and every `maxRetries >= 0`,
`performRequest` returns after at least one attempt. When `checkRateLimit()` is
true its first effect is attempt 0; when it is false, the call sleeps for the
value `w` of `timeUntilNextRequest()` (no `delay` call when `w = 0`) and its next
effect is attempt 0. -/
theorem performRequest_delays_never_drops (lib : Library) (c : ESPrawClient)
    (method : ESPrawRequestMethod) (url body contentType : String) (net : Nat → Exchange)
    (time : Nat) (hwf : WellFormed c.limiter) (hn : 0 ≤ c.config.maxRetries) :
    ∃ r b s1, performRequest lib c method url body contentType net time = some r ∧
      1 ≤ r.attempts ∧
      checkRateLimit (time % WORD) c.limiter = some (b, s1) ∧
      (b = true → ∃ tail, r.events = Event.attempt 0 :: tail) ∧
      (b = false → ∃ w s2 tail, timeUntilNextRequest (time % WORD) s1 = some (w, s2) ∧
        r.events = (if w > 0 then [Event.rateLimitWait w] else []) ++
          Event.attempt 0 :: tail) := by
  obtain ⟨r, _, hrun, _, _, hpos, _⟩ :=
    performRequest_spec lib c method url body contentType net time hwf
  obtain ⟨_, _, b, s1, hchk, htrue, hfalse⟩ :=
    performRequest_facts lib c method url body contentType net time r hwf hrun
  refine ⟨r, b, s1, hrun, hpos hn, hchk, fun hb => htrue hb hn, fun hb => ?_⟩
  obtain ⟨w, s2, hw, htail⟩ := hfalse hb
  obtain ⟨tail, ht⟩ := htail hn
  exact ⟨w, s2, tail, hw, ht⟩

/-- C12 on a full log whose entries were recorded at reading 0, called at
instant 30000: `checkRateLimit()` is false, the call sleeps 30000 ms and then
makes its first attempt. -/
theorem performRequest_delays_never_drops_witness :
    ∃ r s1 s2 tail, performRequest testLibrary clientWithFullLog ESPrawRequestMethod.GET
        "https://oauth.reddit.com/r/test/hot" "" "" netAlwaysOk 30000 = some r ∧
      1 ≤ r.attempts ∧
      checkRateLimit (30000 % WORD) clientWithFullLog.limiter = some (false, s1) ∧
      timeUntilNextRequest (30000 % WORD) s1 = some (30000, s2) ∧
      r.events = Event.rateLimitWait 30000 :: Event.attempt 0 :: tail := by
  obtain ⟨r, b, s1, hrun, hatt, hchk, _, hfalse⟩ :=
    performRequest_delays_never_drops testLibrary clientWithFullLog ESPrawRequestMethod.GET
      "https://oauth.reddit.com/r/test/hot" "" "" netAlwaysOk 30000 (by decide) (by decide)
  have hc : checkRateLimit (30000 % WORD) clientWithFullLog.limiter
      = some (false, fullLogAtZero 30000) := by decide
  rw [hc] at hchk
  simp only [Option.some.injEq, Prod.mk.injEq] at hchk
  obtain ⟨hb, hs⟩ := hchk
  subst hb hs
  obtain ⟨w, s2, tail, hw, hev⟩ := hfalse rfl
  have ht : timeUntilNextRequest (30000 % WORD) (fullLogAtZero 30000)
      = some (30000, fullLogAtZero 30000) := by decide
  rw [ht] at hw
  simp only [Option.some.injEq, Prod.mk.injEq] at hw
  obtain ⟨hw1, hs2⟩ := hw
  subst hw1 hs2
  exact ⟨r, _, _, tail, hrun, hatt, hc, ht, by rw [hev]; rfl⟩

/-- C13 at the default configuration with outcomes HTTP 500, HTTP 500, HTTP 200:
the result has the success flag set and still carries the error description of
the second attempt, so neither "success and no error description" nor "failure
and an error description" holds of it. A success on the first attempt carries
no error description. -/
theorem performRequest_success_keeps_earlier_error :
    (performRequest testLibrary (clientWith 3 1000) ESPrawRequestMethod.GET
        "https://oauth.reddit.com/r/test/hot" "" "" netFailFailSuccess 0).map
      (fun r => r.response)
      = some { statusCode := 200, body := "listing", error := "HTTP error: 500",
               success := true } ∧
    (performRequest testLibrary (clientWith 3 1000) ESPrawRequestMethod.GET
        "https://oauth.reddit.com/r/test/hot" "" "" netAlwaysOk 0).map
      (fun r => r.response)
      = some { statusCode := 200, body := "listing", error := "", success := true } := by
  refine ⟨?_, ?_⟩
  · decide
  · decide

/-- On a well-formed limiter and with `maxRetries >= 0`, a response of
`performRequest` whose success flag is not set has an error description. -/
theorem performRequest_failure_has_error (lib : Library) (c : ESPrawClient)
    (method : ESPrawRequestMethod) (url body contentType : String) (net : Nat → Exchange)
    (time : Nat) (hwf : WellFormed c.limiter) (hn : 0 ≤ c.config.maxRetries) :
    ∃ r, performRequest lib c method url body contentType net time = some r ∧
      (r.response.success = false → r.response.error ≠ "") := by
  obtain ⟨r, lim, hrun, hwf1, _, hpos, _, _, _, _, _, _, hlast⟩ :=
    performRequest_spec lib c method url body contentType net time hwf
  refine ⟨r, hrun, fun hfail => ?_⟩
  obtain ⟨before, t, step, _, hbody, hresp, _⟩ := hlast (hpos hn)
  obtain ⟨_, herr, _⟩ := attemptBody_facts lib c lim method url body contentType _ _ before t
    step hbody
  obtain ⟨hsucc, _⟩ := attemptBody_status lib c lim method url body contentType _ _ before t
    step hwf1 hbody
  rw [← hresp]
  apply herr
  rw [hresp, hfail] at hsucc
  cases hv : (net (r.attempts - 1)).succeeds method with
  | false => rfl
  | true => rw [hv] at hsucc; simp at hsucc

/-- The token check either returns at once the response "Failed to refresh
token", or hands on an object whose client has the limiter and the
configuration it had before. -/
theorem tokenCheck_cases (tokenNet : String → TokenExchange) (self : ESPraw) (time gap : Nat) :
    (∃ failed, tokenCheck tokenNet self time gap = Sum.inl failed ∧
      failed.response = { ESPrawResponse.init with error := "Failed to refresh token" } ∧
      self.auth.isAuthenticated (time % WORD) = true ∧
      self.auth.getToken.isExpired ((time + gap) % WORD) = true) ∨
    (∃ self1 time1 events, tokenCheck tokenNet self time gap = Sum.inr (self1, time1, events) ∧
      self1.client.limiter = self.client.limiter ∧ self1.client.config = self.client.config) := by
  unfold tokenCheck
  by_cases hg : (self.auth.isAuthenticated (time % WORD) &&
      self.auth.getToken.isExpired ((time + gap) % WORD)) = true
  · rw [if_pos hg]
    simp only [Bool.and_eq_true] at hg
    by_cases hr : (!(self.auth.refreshToken tokenNet (time + gap)).success) = true
    · rw [if_pos hr]
      exact Or.inl ⟨_, rfl, rfl, hg.1, hg.2⟩
    · rw [if_neg hr]
      exact Or.inr ⟨_, _, _, rfl, rfl, rfl⟩
  · rw [if_neg hg]
    exact Or.inr ⟨_, _, _, rfl, rfl, rfl⟩

/-- C14. For every `maxRetries >= 0`, every well-formed limiter and every
behaviour of the transport and of the token server, `performRequest`,
`ESPraw::get` and `ESPraw::post` return, and a result whose success flag is
false carries a non-empty error description. -/
theorem failure_carries_error_description (lib : Library) (tokenNet : String → TokenExchange)
    (net : Nat → Exchange) (self : ESPraw) (method : ESPrawRequestMethod)
    (url body contentType endpoint params : String) (time gap : Nat)
    (hwf : WellFormed self.client.limiter) (hn : 0 ≤ self.client.config.maxRetries) :
    (∃ r, performRequest lib self.client method url body contentType net time = some r ∧
      (r.response.success = false → r.response.error ≠ "" ∧ 0 < r.response.error.length)) ∧
    (∃ g, ESPraw.get lib tokenNet net self endpoint params time gap = some g ∧
      (g.response.success = false → g.response.error ≠ "" ∧ 0 < g.response.error.length)) ∧
    (∃ g, ESPraw.post lib tokenNet net self endpoint body time gap = some g ∧
      (g.response.success = false → g.response.error ≠ "" ∧ 0 < g.response.error.length)) := by
  have hlen : ∀ s : String, s ≠ "" → s ≠ "" ∧ 0 < s.length := by
    intro s hs
    refine ⟨hs, ?_⟩
    by_contra h0
    apply hs
    have hz : s.length = 0 := by omega
    exact String.ext (List.eq_nil_of_length_eq_zero hz)
  refine ⟨?_, ?_, ?_⟩
  · obtain ⟨r, hrun, herr⟩ := performRequest_failure_has_error lib self.client method url body
      contentType net time hwf hn
    exact ⟨r, hrun, fun hf => hlen _ (herr hf)⟩
  · rcases tokenCheck_cases tokenNet self time gap with ⟨failed, hc, hresp, _⟩ |
      ⟨self1, time1, events, hc, hlim, hcfg⟩
    · refine ⟨failed, by simp [ESPraw.get, hc], fun _ => hlen _ ?_⟩
      rw [hresp]
      show "Failed to refresh token" ≠ ""
      decide
    · obtain ⟨r, hrun, herr⟩ := performRequest_failure_has_error lib self1.client
        ESPrawRequestMethod.GET (buildUrl endpoint params) "" "" net time1
        (by rw [hlim]; exact hwf) (by rw [hcfg]; exact hn)
      refine ⟨_, (by simp only [ESPraw.get, hc, ESPrawClient.get, hrun, delegate]; rfl), fun hf => ?_⟩
      exact hlen _ (herr hf)
  · rcases tokenCheck_cases tokenNet self time gap with ⟨failed, hc, hresp, _⟩ |
      ⟨self1, time1, events, hc, hlim, hcfg⟩
    · refine ⟨failed, by simp [ESPraw.post, hc], fun _ => hlen _ ?_⟩
      rw [hresp]
      show "Failed to refresh token" ≠ ""
      decide
    · obtain ⟨r, hrun, herr⟩ := performRequest_failure_has_error lib self1.client
        ESPrawRequestMethod.POST (buildUrl endpoint "") body
        "application/x-www-form-urlencoded" net time1
        (by rw [hlim]; exact hwf) (by rw [hcfg]; exact hn)
      refine ⟨_, (by simp only [ESPraw.post, hc, ESPrawClient.post, hrun, delegate]; rfl), fun hf => ?_⟩
      exact hlen _ (herr hf)

/-- C14 on a transport that refuses every connection: `ESPraw::get` returns
failure with the description of the connection error. -/
theorem failure_carries_error_description_witness :
    (∃ g, ESPraw.get testLibrary tokenServerGrants netAlwaysRefused redditWithOldToken
        "/r/test/hot" "limit=25" 50000 0 = some g ∧
      g.response.success = false ∧
      g.response.error = "Connection error: connection refused") := by
  obtain ⟨_, ⟨g, hg, _⟩, _⟩ := failure_carries_error_description testLibrary tokenServerGrants
    netAlwaysRefused redditWithOldToken ESPrawRequestMethod.GET
    "https://oauth.reddit.com/r/test/hot" "" "" "/r/test/hot" "limit=25" 50000 0
    (by decide) (by decide)
  have e : (ESPraw.get testLibrary tokenServerGrants netAlwaysRefused redditWithOldToken
      "/r/test/hot" "limit=25" 50000 0).map (fun g => (g.response.success, g.response.error))
      = some (false, "Connection error: connection refused") := by decide
  rw [hg] at e
  simp only [Option.map_some', Option.some.injEq, Prod.mk.injEq] at e
  exact ⟨g, hg, e.1, e.2⟩

/-- C15 as stated, at the default configuration with a transport on which every
request is refused: no attempt obtains an HTTP status (`httpCode` is `-1` each
time), four attempts are made, and the status code returned is `-1`, not 0. -/
theorem performRequest_refused_status_is_error_code :
    (∀ k, (netAlwaysRefused k).code ESPrawRequestMethod.GET = some (-1)) ∧
    (performRequest testLibrary (clientWith 3 1000) ESPrawRequestMethod.GET
        "https://oauth.reddit.com/r/test/hot" "" "" netAlwaysRefused 0).map
      (fun r => (r.attempts, r.response.statusCode, r.response.success))
      = some (4, -1, false) := by
  refine ⟨fun k => rfl, ?_⟩
  decide

/-- C15, amended. On a well-formed limiter `performRequest` returns, and the
status code of its result is 0 (unset) whenever every attempt of the call fails
in `http.begin`, so that no request is sent. When the last attempt gets past
`http.begin`, the status code is the value its request method returned: for a
transport failure that is the non-positive error code of `HTTPClient`, not 0.
A status code other than 0 is always a value returned by the request method on
an attempt of this call, and a positive one is a status that an exchange of
this call obtained. -/
theorem performRequest_status_code_origin (lib : Library) (c : ESPrawClient)
    (method : ESPrawRequestMethod) (url body contentType : String) (net : Nat → Exchange)
    (time : Nat) (hwf : WellFormed c.limiter) :
    ∃ r, performRequest lib c method url body contentType net time = some r ∧
      ((∀ j, j < r.attempts → (net j).code method = none) → r.response.statusCode = 0) ∧
      (∀ code, 0 < r.attempts → (net (r.attempts - 1)).code method = some code →
        r.response.statusCode = code) ∧
      (r.response.statusCode ≠ 0 →
        ∃ j, j < r.attempts ∧ (net j).code method = some r.response.statusCode) ∧
      (0 < r.response.statusCode → ∃ j bodyText retryAfter elapsed, j < r.attempts ∧
        net j = Exchange.completed r.response.statusCode bodyText retryAfter elapsed) := by
  obtain ⟨r, lim, hrun, hwf1, _, _, _, _, _, _, _, _, hlast⟩ :=
    performRequest_spec lib c method url body contentType net time hwf
  obtain ⟨_, hstatus, _⟩ :=
    performRequest_facts lib c method url body contentType net time r hwf hrun
  obtain ⟨hnone, hsome⟩ := lastCodeFrom_cases method net r.attempts 0 0
  have hne : r.response.statusCode ≠ 0 →
      ∃ j, j < r.attempts ∧ (net j).code method = some r.response.statusCode := by
    intro h0
    rcases hsome with h | ⟨j, _, hj, hc⟩
    · rw [hstatus] at h0
      exact absurd h h0
    · exact ⟨j, by omega, by rw [hstatus]; exact hc⟩
  refine ⟨r, hrun, ?_, ?_, hne, ?_⟩
  · intro hall
    rw [hstatus]
    exact hnone (fun j _ hj => hall j (by omega))
  · intro code hpos hcode
    obtain ⟨before, t, step, _, hbody, hresp, _⟩ := hlast hpos
    obtain ⟨_, _, _, _, hst⟩ := attemptBody_status lib c lim method url body contentType _ _
      before t step hwf1 hbody
    rw [← hresp, hst, hcode]
  · intro hpos
    obtain ⟨j, hj, hc⟩ := hne (by omega)
    cases hx : net j with
    | beginFailed elapsed => rw [hx] at hc; simp [Exchange.code] at hc
    | completed code bodyText retryAfter elapsed =>
      rw [hx] at hc
      simp only [Exchange.code, Option.some.injEq] at hc
      by_cases hm : method = ESPrawRequestMethod.PATCH
      · rw [if_pos hm] at hc
        omega
      · rw [if_neg hm] at hc
        exact ⟨j, bodyText, retryAfter, elapsed, hj, by rw [← hc]; exact hx⟩

/-- C15, amended, at `maxRetries = 1`: when `http.begin` fails on both attempts
the status code is 0. -/
theorem performRequest_status_code_origin_witness :
    ∃ r, performRequest testLibrary (clientWith 1 1000) ESPrawRequestMethod.GET
        "https://oauth.reddit.com/r/test/hot" "" "" (fun _ => Exchange.beginFailed 5) 0 = some r ∧
      r.response.statusCode = 0 := by
  obtain ⟨r1, h1, hzero, _⟩ := performRequest_status_code_origin testLibrary
    (clientWith 1 1000) ESPrawRequestMethod.GET "https://oauth.reddit.com/r/test/hot" "" ""
    (fun _ => Exchange.beginFailed 5) 0 (by decide)
  exact ⟨r1, h1, hzero (fun j _ => rfl)⟩

/-! ## Token gatekeeper: `ESPraw::get`, `ESPraw::post`, `ESPrawToken`, `ESPrawAuth` -/

/-- A token that is expired when the guard of `ESPraw::get` / `ESPraw::post`
reads the clock for `isAuthenticated()` makes that guard false, whatever its
validity flag: `refreshToken()` is not called and the call goes on to the
client with the object unchanged. -/
theorem tokenCheck_expired_skips_refresh (tokenNet : String → TokenExchange) (self : ESPraw)
    (time gap : Nat) (hexp : self.auth.getToken.isExpired (time % WORD) = true) :
    tokenCheck tokenNet self time gap = Sum.inr (self, time, []) := by
  have hexp1 : self.auth.token.isExpired (time % WORD) = true := hexp
  have hauth : self.auth.isAuthenticated (time % WORD) = false := by
    simp [ESPrawAuth.isAuthenticated, hexp1]
  simp [tokenCheck, hauth]

/-- The guard of `ESPraw::get` / `ESPraw::post` holds only when the token has its
validity flag set, is not expired at the first clock reading and is expired at
the second. -/
theorem tokenCheck_refresh_only_between_readings (tokenNet : String → TokenExchange)
    (self : ESPraw) (time gap : Nat)
    (h : tokenCheck tokenNet self time gap ≠ Sum.inr (self, time, [])) :
    self.auth.token.isValid = true ∧ (time % WORD) / 1000 ≤ self.auth.token.expiresAt ∧
      self.auth.token.expiresAt < ((time + gap) % WORD) / 1000 := by
  by_cases hg : (self.auth.isAuthenticated (time % WORD) &&
      self.auth.getToken.isExpired ((time + gap) % WORD)) = true
  · simp only [Bool.and_eq_true, ESPrawAuth.isAuthenticated, ESPrawAuth.getToken,
      ESPrawToken.isExpired, Bool.not_eq_true', decide_eq_false_iff_not, decide_eq_true_eq,
      gt_iff_lt, not_lt] at hg
    exact ⟨hg.1.1, hg.1.2, hg.2⟩
  · exfalso
    apply h
    unfold tokenCheck
    rw [if_neg hg]

/-- C16 at an object whose token "old-token" has the validity flag set and
`expiresAt = 100`, called at instant 200000 ms (`now = 200`), with a token
server that would grant "new-token". `ESPraw::get` and `ESPraw::post` do not
call `refreshToken()`: the only effects are those of the client's request,
which is sent with `Authorization: Bearer old-token`, and the token is left as
it was. -/
theorem get_post_expired_token_not_refreshed :
    oldToken.isValid = true ∧ oldToken.isExpired (200000 % WORD) = true ∧
    (redditWithOldToken.auth.refreshToken tokenServerGrants 200000).success = true ∧
    (ESPraw.get testLibrary tokenServerGrants netAlwaysOk redditWithOldToken
        "/api/v1/me" "" 200000 0).map (fun g => (g.events, g.self.auth.token))
      = some ([GateEvent.request (Event.attempt 0),
               GateEvent.request (Event.send 0 ESPrawRequestMethod.GET
                 "https://oauth.reddit.com/api/v1/me"
                 [("User-Agent", "ESPraw/0.1.0 (ESP32)"),
                  ("Authorization", "Bearer old-token"),
                  ("Accept", "application/json")] ""),
               GateEvent.request (Event.record 200080)], oldToken) ∧
    (ESPraw.post testLibrary tokenServerGrants netAlwaysOk redditWithOldToken
        "/api/vote" "dir=1" 200000 0).map (fun g => (g.events, g.self.auth.token))
      = some ([GateEvent.request (Event.attempt 0),
               GateEvent.request (Event.send 0 ESPrawRequestMethod.POST
                 "https://oauth.reddit.com/api/vote"
                 [("User-Agent", "ESPraw/0.1.0 (ESP32)"),
                  ("Authorization", "Bearer old-token"),
                  ("Accept", "application/json"),
                  ("Content-Type", "application/x-www-form-urlencoded")] "dir=1"),
               GateEvent.request (Event.record 200080)], oldToken) := by
  refine ⟨?_, ?_, ?_, ?_, ?_⟩
  · decide
  · decide
  · decide
  · decide
  · decide

/-- C18. For every token and every clock reading, `isExpired()` is true exactly
when `now > expiresAt`, where `now = millis() / 1000`: a token with
`expiresAt = now + 1` is not expired, one with `expiresAt < now` is expired, and
at `now = expiresAt` the token is not expired. -/
theorem isExpired_iff_now_gt_expiresAt (token : ESPrawToken) (millis : Nat) :
    (token.isExpired millis = true ↔ millis / 1000 > token.expiresAt) ∧
    (token.expiresAt = millis / 1000 + 1 → token.isExpired millis = false) ∧
    (token.expiresAt < millis / 1000 → token.isExpired millis = true) ∧
    (millis / 1000 = token.expiresAt → token.isExpired millis = false) := by
  refine ⟨by simp [ESPrawToken.isExpired], ?_, ?_, ?_⟩
  · intro h
    simp [ESPrawToken.isExpired, h]
  · intro h
    simp [ESPrawToken.isExpired, h]
  · intro h
    simp [ESPrawToken.isExpired, h]

/-- C19 as stated fails at the boundary: with the validity flag set and
`expiresAt = 100`, at the clock reading 100000 ms (`now = 100`)
`isAuthenticated()` is true although `now < expiresAt` is false. -/
theorem isAuthenticated_at_expiry_instant :
    ESPrawAuth.isAuthenticated { config := scriptConfig, token := oldToken } 100000 = true ∧
    oldToken.isValid = true ∧ oldToken.expiresAt = 100 ∧ ¬ (100000 / 1000 < oldToken.expiresAt) := by
  refine ⟨?_, ?_, ?_, ?_⟩
  · decide
  · decide
  · decide
  · decide

/-- C19, amended. For every token and every clock reading, `isAuthenticated()`
is true exactly when the validity flag is true and
`millis() / 1000 <= expiresAt`: a token is reported usable only if its validity
flag is true and `now <= expiry`. -/
theorem isAuthenticated_iff_valid_and_not_after_expiry (auth : ESPrawAuth) (millis : Nat) :
    auth.isAuthenticated millis = true ↔
      (auth.token.isValid = true ∧ millis / 1000 ≤ auth.token.expiresAt) := by
  simp [ESPrawAuth.isAuthenticated, ESPrawToken.isExpired]

/-- While `now + expires_in >= 60`, with `now` a clock reading in seconds and
`expires_in` an `int`, `parseTokenResponse` sets `expiresAt` to
`now + expires_in - 60`, which is less than `now + expires_in`. -/
theorem parseTokenResponse_expiresAt (millis : Nat) (json : TokenJson)
    (accessToken : String) (expiresIn : Int)
    (hkey : json.access_token = some accessToken) (hexp : json.expires_in = some expiresIn)
    (hms : millis < WORD) (h0 : 0 ≤ expiresIn) (hint : expiresIn < 2147483648)
    (hge : 60 ≤ (millis / 1000 : Nat) + expiresIn) :
    ((parseTokenResponse millis json).expiresAt : Int)
        = (millis / 1000 : Nat) + expiresIn - 60 ∧
      ((parseTokenResponse millis json).expiresAt : Int) < (millis / 1000 : Nat) + expiresIn ∧
      (parseTokenResponse millis json).isValid = true := by
  have hval : (parseTokenResponse millis json).expiresAt
      = toULong (((millis / 1000 : Nat) : Int) + expiresIn - 60) := by
    unfold parseTokenResponse
    rw [hkey, hexp]
  have hvalid : (parseTokenResponse millis json).isValid = true := by
    unfold parseTokenResponse
    rw [hkey, hexp]
  unfold WORD at hms
  have hnow : millis / 1000 < 4294968 := by omega
  rw [hval]
  unfold toULong
  refine ⟨by omega, by omega, hvalid⟩

/-- C20 at a token issued 10 s after boot (`millis() = 10000`) with
`expires_in = 30`: the unsigned sum `10 + 30 - 60` wraps, `expiresAt` is
`2^32 - 20 = 4294967276`, which is not `now + expires_in - 60` and not below
`now + expires_in = 40`; the token is still not expired at `now = 41`, after the
server's deadline. At the values of `test_token_expiration` (`now = 1000000`,
`expires_in = 3600`) the expiry is 1003540, below 1003600. -/
theorem parseTokenResponse_short_lifetime_wraps :
    shortLivedTokenJson.expires_in = some 30 ∧
    (parseTokenResponse 10000 shortLivedTokenJson).expiresAt = 4294967276 ∧
    ¬ ((4294967276 : Int) = 10 + 30 - 60) ∧ ¬ ((4294967276 : Int) < 10 + 30) ∧
    (parseTokenResponse 10000 shortLivedTokenJson).isExpired 41000 = false ∧
    (parseTokenResponse 1000000000 hourTokenJson).expiresAt = 1003540 := by
  refine ⟨?_, ?_, ?_, ?_, ?_, ?_⟩
  · decide
  · decide
  · decide
  · decide
  · decide
  · decide

/-! ## `remainingValidity`, success flag and status code, the grant of a refresh -/

/-- C25. For every token (its `expiresAt` an `unsigned long`) and every clock
reading, `remainingValidity()` returns `expiresAt - now` when `now < expiresAt`
and 0 when `now >= expiresAt`, with `now = millis() / 1000`: the unsigned
subtraction never wraps, the value is at most `expiresAt`, and a token that
`isExpired()` has remaining validity 0. -/
theorem remainingValidity_no_underflow (token : ESPrawToken) (millis : Nat)
    (hexp : token.expiresAt < WORD) :
    (millis / 1000 < token.expiresAt →
      token.remainingValidity millis = token.expiresAt - millis / 1000) ∧
    (millis / 1000 ≥ token.expiresAt → token.remainingValidity millis = 0) ∧
    token.remainingValidity millis ≤ token.expiresAt ∧
    (token.isExpired millis = true → token.remainingValidity millis = 0) := by
  have hlt : millis / 1000 < token.expiresAt →
      token.remainingValidity millis = token.expiresAt - millis / 1000 := by
    intro h
    have hn : ¬ millis / 1000 ≥ token.expiresAt := by omega
    simp only [ESPrawToken.remainingValidity, hn, if_false]
    exact subU32_of_le _ _ hexp (by omega)
  have hge : millis / 1000 ≥ token.expiresAt → token.remainingValidity millis = 0 := by
    intro h
    simp [ESPrawToken.remainingValidity, h]
  refine ⟨hlt, hge, ?_, ?_⟩
  · by_cases h : millis / 1000 < token.expiresAt
    · rw [hlt h]; omega
    · rw [hge (by omega)]; omega
  · intro h
    apply hge
    simp only [ESPrawToken.isExpired, decide_eq_true_eq] at h
    omega

/-- C25 at the values of `test_token_remaining_validity`: with `expiresAt = 2000`,
`now = 1000` gives 1000 and `now = 2500` gives 0. -/
theorem remainingValidity_no_underflow_witness :
    tokenExpiringAt2000.remainingValidity 1000000 = 1000 ∧
    tokenExpiringAt2000.remainingValidity 2500000 = 0 := by
  obtain ⟨h1, _, _, _⟩ := remainingValidity_no_underflow tokenExpiringAt2000 1000000 (by decide)
  obtain ⟨_, h2, _, _⟩ := remainingValidity_no_underflow tokenExpiringAt2000 2500000 (by decide)
  exact ⟨h1 (by decide), h2 (by decide)⟩

/-- C27. On a well-formed limiter, for every configuration and every behaviour
of the transport, `performRequest` returns and the success flag of its result
is true if and only if its status code is in the range 200..299. -/
theorem performRequest_success_iff_2xx (lib : Library) (c : ESPrawClient)
    (method : ESPrawRequestMethod) (url body contentType : String) (net : Nat → Exchange)
    (time : Nat) (hwf : WellFormed c.limiter) :
    ∃ r, performRequest lib c method url body contentType net time = some r ∧
      (r.response.success = true ↔
        (200 ≤ r.response.statusCode ∧ r.response.statusCode ≤ 299)) := by
  obtain ⟨r, lim, hrun, hwf1, _, _, _, _, hmid, _, hzero, _, hlast⟩ :=
    performRequest_spec lib c method url body contentType net time hwf
  obtain ⟨_, hstatus, _⟩ :=
    performRequest_facts lib c method url body contentType net time r hwf hrun
  refine ⟨r, hrun, ?_⟩
  by_cases hatt : r.attempts = 0
  · rw [hzero hatt]
    simp [ESPrawResponse.init]
  · obtain ⟨before, t, step, hb, hbody, hresp, _⟩ := hlast (by omega)
    obtain ⟨hsucc, _, _, _, hst⟩ := attemptBody_status lib c lim method url body contentType
      _ _ before t step hwf1 hbody
    rw [hresp, hb, Bool.or_false] at hsucc
    rw [hresp] at hst
    constructor
    · intro hs
      rw [hs] at hsucc
      cases hc : (net (r.attempts - 1)).code method with
      | none => simp [Exchange.succeeds, hc] at hsucc
      | some code =>
        rw [hc] at hst
        have hst1 : r.response.statusCode = code := hst
        simp only [Exchange.succeeds, hc] at hsucc
        have := of_decide_eq_true hsucc.symm
        rw [hst1]
        omega
    · intro h2xx
      obtain ⟨_, hsome⟩ := lastCodeFrom_cases method net r.attempts 0 0
      rcases hsome with h0 | ⟨j, _, hj, hcj⟩
      · rw [hstatus, h0] at h2xx
        omega
      · rw [← hstatus] at hcj
        have hsj : (net j).succeeds method = true := by
          simp only [Exchange.succeeds, hcj, decide_eq_true_eq]
          omega
        have hstopj : (net j).stops method = true := by
          simp only [Exchange.stops, hcj, decide_eq_true_eq]
          left; omega
        have hjlast : j = r.attempts - 1 := by
          by_contra hne
          have := hmid j (by omega)
          rw [hstopj] at this
          cases this
        rw [← hjlast, hsj] at hsucc
        exact hsucc

/-- C27 on the transport of `test_retry_logic` (500, 500, 200): the call
returns with the success flag set and status 200. -/
theorem performRequest_success_iff_2xx_witness :
    WellFormed (clientWith 3 1000).limiter ∧
    ∃ r, performRequest testLibrary (clientWith 3 1000) ESPrawRequestMethod.GET
        "https://oauth.reddit.com/r/test/hot" "" "" netFailFailSuccess 0 = some r ∧
      (r.response.success = true ↔
        (200 ≤ r.response.statusCode ∧ r.response.statusCode ≤ 299)) :=
  ⟨by decide, performRequest_success_iff_2xx testLibrary (clientWith 3 1000)
    ESPrawRequestMethod.GET "https://oauth.reddit.com/r/test/hot" "" "" netFailFailSuccess 0
    (by decide)⟩

/-- `ESPraw::setReadOnly` never touches the configuration held by `_auth`. -/
theorem setReadOnly_keeps_auth_config (tokenNet : String → TokenExchange) (self : ESPraw)
    (readOnly : Bool) (time : Nat) :
    (self.setReadOnly tokenNet readOnly time).self.auth.config = self.auth.config := by
  unfold ESPraw.setReadOnly ESPraw.authenticate ESPrawAuth.authenticateReadOnly
    ESPrawAuth.authenticateScript
  simp only []
  split_ifs <;> rfl

/-- After any sequence of `setReadOnly` calls, `_auth` still holds the
configuration it had before, so `refreshToken()` takes the grant from the
`readOnlyMode` given to `begin`. -/
theorem setReadOnlyAll_keeps_auth_config (tokenNet : String → TokenExchange)
    (calls : List Bool) :
    ∀ (self : ESPraw) (time : Nat),
      (setReadOnlyAll tokenNet calls self time).1.auth.config = self.auth.config := by
  induction calls with
  | nil => intro self time; rfl
  | cons readOnly rest ih =>
    intro self time
    simp only [setReadOnlyAll]
    rw [ih, setReadOnly_keeps_auth_config]

/-- C30 at `begin` with script credentials (`readOnlyMode = false`) followed by
`setReadOnly(true)`, with a token server that grants every request. `begin`
authenticates with the password grant and `setReadOnly(true)` with the
client-credentials grant; afterwards `isReadOnly()` is true, but `_auth` still
holds `readOnlyMode = false` and `refreshToken()` requests the password
grant. -/
theorem refreshToken_grant_ignores_setReadOnly :
    grantsRequested
      (ESPraw.begin tokenServerGrants ESPraw.init scriptConfig ESPrawRequestConfig.init 5000).events
      = ["password"] ∧
    grantsRequested
      (((ESPraw.begin tokenServerGrants ESPraw.init scriptConfig ESPrawRequestConfig.init
          5000).self).setReadOnly tokenServerGrants true 6000).events
      = ["client_credentials"] ∧
    ((((ESPraw.begin tokenServerGrants ESPraw.init scriptConfig ESPrawRequestConfig.init
          5000).self).setReadOnly tokenServerGrants true 6000).self).isReadOnly = true ∧
    ((((ESPraw.begin tokenServerGrants ESPraw.init scriptConfig ESPrawRequestConfig.init
          5000).self).setReadOnly tokenServerGrants true 6000).self).auth.config.readOnlyMode
      = false ∧
    grantsRequested
      ((((ESPraw.begin tokenServerGrants ESPraw.init scriptConfig ESPrawRequestConfig.init
          5000).self).setReadOnly tokenServerGrants true 6000).self.auth.refreshToken
          tokenServerGrants 7000).events
      = ["password"] := by
  refine ⟨?_, ?_, ?_, ?_, ?_⟩
  · decide
  · decide
  · decide
  · decide
  · decide

/-! ## `urlEncode` -/

theorem hexDigit_eq_upperHexDigit : ∀ n : Fin 16, hexDigit n.val = upperHexDigit n.val := by
  decide

theorem hexDigit_injective : ∀ a b : Fin 16, hexDigit a.val = hexDigit b.val → a = b := by
  decide

theorem hexDigit_inj (a b : Nat) (ha : a < 16) (hb : b < 16) (h : hexDigit a = hexDigit b) :
    a = b := by
  have := hexDigit_injective ⟨a, ha⟩ ⟨b, hb⟩ h
  exact congrArg Fin.val this

theorem urlEncodeChar_eq_percentEncode (c : Char) (hc : c.toNat < 256) :
    urlEncodeChar c = percentEncode c := by
  unfold urlEncodeChar percentEncode
  have hhi : c.toNat / 16 % 16 = c.toNat / 16 := Nat.mod_eq_of_lt (by omega)
  have h1 := hexDigit_eq_upperHexDigit ⟨c.toNat / 16, by omega⟩
  have h2 := hexDigit_eq_upperHexDigit ⟨c.toNat % 16, by omega⟩
  simp only [] at h1 h2
  simp only [hhi, h1, h2]

theorem urlEncode_append (s1 s2 : String) :
    urlEncode (s1 ++ s2) = urlEncode s1 ++ urlEncode s2 := by
  apply String.ext
  simp [urlEncode, String.data_append]

/-- C26. For every input string whose characters are bytes, `urlEncode` maps
each character on its own and in order: the result is the concatenation, in
order, of `+` for a space, the character itself for an alphanumeric character,
and `%` followed by the two uppercase hexadecimal digits of the byte, high
nibble first, for any other byte. Encoding a concatenation gives the
concatenation of the encodings. -/
theorem urlEncode_maps_each_character (str : String) (hbytes : IsByteString str) :
    urlEncode str = String.mk (str.data.flatMap percentEncode) ∧
    (∀ other : String, urlEncode (str ++ other) = urlEncode str ++ urlEncode other) ∧
    (∀ c ∈ str.data, c = ' ' → urlEncodeChar c = ['+']) ∧
    (∀ c ∈ str.data, c.isAlphanum = true → urlEncodeChar c = [c]) ∧
    (∀ c ∈ str.data, c ≠ ' ' → c.isAlphanum = false →
      urlEncodeChar c = ['%', upperHexDigit (c.toNat / 16), upperHexDigit (c.toNat % 16)]) := by
  have hchar : ∀ c ∈ str.data, urlEncodeChar c = percentEncode c :=
    fun c hc => urlEncodeChar_eq_percentEncode c (hbytes c hc)
  refine ⟨?_, fun other => urlEncode_append str other, ?_, ?_, ?_⟩
  · unfold urlEncode
    congr 1
    exact List.flatMap_congr hchar
  · intro c _ hsp
    simp [urlEncodeChar, hsp]
  · intro c _ hal
    have hne : c ≠ ' ' := by
      intro h
      rw [h] at hal
      exact absurd hal (by decide)
    simp [urlEncodeChar, hne, hal]
  · intro c hc hne hal
    rw [hchar c hc]
    simp [percentEncode, hne, hal]

/-- C26 at the input of `test_url_encoding`: "hello world" gives
"hello+world". -/
theorem urlEncode_maps_each_character_witness :
    urlEncode "hello world" = String.mk ("hello world".data.flatMap percentEncode) ∧
    urlEncode "hello world" = "hello+world" ∧ urlEncode "a&b=c/d" = "a%26b%3Dc%2Fd" := by
  obtain ⟨h, _⟩ := urlEncode_maps_each_character "hello world" (by decide)
  exact ⟨h, by decide, by decide⟩

theorem urlEncodeChar_ne_nil (c : Char) : urlEncodeChar c ≠ [] := by
  unfold urlEncodeChar
  split_ifs <;> simp

theorem char_eq_of_toNat_eq (c d : Char) (h : c.toNat = d.toNat) : c = d := by
  rw [← Char.ofNat_toNat c, ← Char.ofNat_toNat d, h]

/-- The encodings of two bytes are never a proper beginning of one another: from
equal encoded texts the first byte and the rest can be read off. -/
theorem urlEncodeChar_append_inj (c d : Char) (hc : c.toNat < 256) (hd : d.toNat < 256)
    (rest1 rest2 : List Char) (h : urlEncodeChar c ++ rest1 = urlEncodeChar d ++ rest2) :
    c = d ∧ rest1 = rest2 := by
  have hplus : Char.isAlphanum '+' = false := by decide
  have hpct : Char.isAlphanum '%' = false := by decide
  unfold urlEncodeChar at h
  by_cases hcs : c = ' '
  · by_cases hds : d = ' '
    · rw [if_pos hcs, if_pos hds] at h
      exact ⟨by rw [hcs, hds], by simpa using h⟩
    · by_cases hda : d.isAlphanum = true
      · rw [if_pos hcs, if_neg hds, if_pos hda] at h
        simp only [List.singleton_append, List.cons.injEq] at h
        rw [← h.1, hplus] at hda
        cases hda
      · rw [if_pos hcs, if_neg hds, if_neg hda] at h
        simp at h
  · by_cases hca : c.isAlphanum = true
    · by_cases hds : d = ' '
      · rw [if_neg hcs, if_pos hca, if_pos hds] at h
        simp only [List.singleton_append, List.cons.injEq] at h
        rw [h.1, hplus] at hca
        cases hca
      · by_cases hda : d.isAlphanum = true
        · rw [if_neg hcs, if_pos hca, if_neg hds, if_pos hda] at h
          simp only [List.singleton_append, List.cons.injEq] at h
          exact h
        · rw [if_neg hcs, if_pos hca, if_neg hds, if_neg hda] at h
          simp only [List.singleton_append, List.cons_append, List.cons.injEq] at h
          rw [h.1, hpct] at hca
          cases hca
    · by_cases hds : d = ' '
      · rw [if_neg hcs, if_neg hca, if_pos hds] at h
        simp at h
      · by_cases hda : d.isAlphanum = true
        · rw [if_neg hcs, if_neg hca, if_neg hds, if_pos hda] at h
          simp only [List.singleton_append, List.cons_append, List.cons.injEq] at h
          rw [← h.1, hpct] at hda
          cases hda
        · rw [if_neg hcs, if_neg hca, if_neg hds, if_neg hda] at h
          simp only [List.cons_append, List.nil_append, List.cons.injEq, true_and] at h
          obtain ⟨h0, h1, hrest⟩ := h
          have e0 := hexDigit_inj _ _ (Nat.mod_lt _ (by decide)) (Nat.mod_lt _ (by decide)) h0
          have e1 := hexDigit_inj _ _ (Nat.mod_lt _ (by decide)) (Nat.mod_lt _ (by decide)) h1
          exact ⟨char_eq_of_toNat_eq c d (by omega), hrest⟩

theorem flatMap_urlEncodeChar_inj :
    ∀ l1 l2 : List Char, (∀ c ∈ l1, c.toNat < 256) → (∀ c ∈ l2, c.toNat < 256) →
      l1.flatMap urlEncodeChar = l2.flatMap urlEncodeChar → l1 = l2 := by
  intro l1
  induction l1 with
  | nil =>
    intro l2 _ _ h
    cases l2 with
    | nil => rfl
    | cons d rest =>
      simp only [List.flatMap_nil, List.flatMap_cons] at h
      have := urlEncodeChar_ne_nil d
      cases hd : urlEncodeChar d with
      | nil => exact absurd hd this
      | cons x xs => rw [hd] at h; simp at h
  | cons c rest ih =>
    intro l2 h1 h2 h
    cases l2 with
    | nil =>
      simp only [List.flatMap_nil, List.flatMap_cons] at h
      have := urlEncodeChar_ne_nil c
      cases hd : urlEncodeChar c with
      | nil => exact absurd hd this
      | cons x xs => rw [hd] at h; simp at h
    | cons d rest2 =>
      simp only [List.flatMap_cons] at h
      obtain ⟨hcd, hrest⟩ := urlEncodeChar_append_inj c d (h1 c (List.mem_cons_self _ _))
        (h2 d (List.mem_cons_self _ _)) _ _ h
      rw [hcd, ih rest2 (fun x hx => h1 x (List.mem_cons_of_mem _ hx))
        (fun x hx => h2 x (List.mem_cons_of_mem _ hx)) hrest]

/-- C29. `urlEncode` is injective on strings of bytes: if two such strings have
the same encoding they are equal, so an encoded username or password
determines the original. -/
theorem urlEncode_injective (s1 s2 : String) (h1 : IsByteString s1) (h2 : IsByteString s2)
    (h : urlEncode s1 = urlEncode s2) : s1 = s2 := by
  unfold urlEncode at h
  have hdata : s1.data.flatMap urlEncodeChar = s2.data.flatMap urlEncodeChar :=
    congrArg String.data h
  exact String.ext (flatMap_urlEncodeChar_inj s1.data s2.data h1 h2 hdata)

/-- C29 on two encodings that are equal: the strings are the same. -/
theorem urlEncode_injective_witness :
    urlEncode "user name" = "user+name" ∧ ("user name" : String) = "user name" :=
  ⟨by decide, urlEncode_injective "user name" "user name" (by decide) (by decide) rfl⟩

/-! ## `extractSubmissionId` -/

/-- `searchFrom` finds nothing where the pattern does not occur. -/
theorem searchFrom_none (pat : List Char) :
    ∀ (l : List Char) (i : Nat), (∀ pre post, l ≠ pre ++ pat ++ post) →
      searchFrom pat l i = -1 := by
  intro l
  induction l with
  | nil => intro i _; rfl
  | cons c cs ih =>
    intro i hno
    have hne : ¬ (c :: cs).take pat.length = pat := by
      intro htake
      apply hno [] ((c :: cs).drop pat.length)
      rw [List.nil_append]
      nth_rewrite 1 [← List.take_append_drop pat.length (c :: cs)]
      rw [htake]
    simp only [searchFrom, hne, if_false]
    apply ih
    intro pre post h
    exact hno (c :: pre) post (by rw [h]; rfl)

/-- `searchFrom` returns the place of the first occurrence of a non-empty
pattern. -/
theorem searchFrom_first (pat : List Char) (hpat : pat ≠ []) :
    ∀ (pre l post : List Char) (i : Nat), l = pre ++ pat ++ post →
      (∀ pre1 post1, l = pre1 ++ pat ++ post1 → pre.length ≤ pre1.length) →
      searchFrom pat l i = ((i + pre.length : Nat) : Int) := by
  intro pre
  induction pre with
  | nil =>
    intro l post i hl _
    cases hpat1 : pat with
    | nil => exact absurd hpat1 hpat
    | cons p ps =>
      have hl1 : l = p :: (ps ++ post) := by rw [hl, hpat1]; rfl
      have htake : l.take pat.length = pat := by
        rw [hl, List.nil_append, List.take_left]
      rw [hl1] at htake ⊢
      simp only [searchFrom, htake, if_true]
      simp
  | cons q pre1 ih =>
    intro l post i hl hmin
    have hl1 : l = q :: (pre1 ++ pat ++ post) := by rw [hl]; rfl
    have hne : ¬ l.take pat.length = pat := by
      intro htake
      have := hmin [] (l.drop pat.length) (by
        rw [List.nil_append]
        nth_rewrite 1 [← List.take_append_drop pat.length l]
        rw [htake])
      simp at this
    rw [hl1] at hne ⊢
    simp only [searchFrom, hne, if_false]
    rw [ih (pre1 ++ pat ++ post) post (i + 1) rfl]
    · simp only [List.length_cons]
      congr 1
      omega
    · intro pre2 post2 h2
      have := hmin (q :: pre2) post2 (by rw [hl1, h2]; rfl)
      simpa using this

theorem take_takeWhile_length (p : Char → Bool) :
    ∀ l : List Char, l.take (l.takeWhile p).length = l.takeWhile p := by
  intro l
  induction l with
  | nil => rfl
  | cons c cs ih =>
    by_cases hp : p c = true
    · simp [List.takeWhile_cons, hp, ih]
    · simp [List.takeWhile_cons, hp]

/-- `searchFrom` for the one-character pattern `/`: the number of characters in
front of the first `/`, and `-1` when there is none. -/
theorem searchFrom_slash :
    ∀ (l : List Char) (i : Nat),
      searchFrom ['/'] l i
        = if '/' ∈ l then ((i + (l.takeWhile (fun c => c != '/')).length : Nat) : Int)
          else -1 := by
  intro l
  induction l with
  | nil => intro i; rfl
  | cons c cs ih =>
    intro i
    by_cases hc : c = '/'
    · subst hc
      simp [searchFrom, List.takeWhile_cons]
    · have hstep : searchFrom ['/'] (c :: cs) i = searchFrom ['/'] cs (i + 1) := by
        simp [searchFrom, hc]
      have hbne : (c != '/') = true := by simp [hc]
      have hc2 : ¬ '/' = c := fun h => hc h.symm
      rw [hstep, ih]
      by_cases hmem : '/' ∈ cs
      · simp only [hmem, if_true, List.mem_cons, or_true, List.takeWhile_cons, hbne,
          List.length_cons]
        congr 1
        omega
      · simp [hmem, hc2]

theorem substring_of_le (s : List Char) (left right : Nat) (hle : left ≤ right)
    (hlt : left < s.length) :
    substring s left right = (s.take (min right s.length)).drop left := by
  have h1 : ¬ left > right := by omega
  have h2 : ¬ left ≥ s.length := by omega
  simp [substring, h1, h2]

/-- What `extractSubmissionId` returns when `/comments/` first occurs after
`pre` and is followed by `rest`. -/
theorem extractSubmissionId_found (url : String) (pre rest : List Char)
    (hurl : url.data = pre ++ "/comments/".data ++ rest)
    (hfirst : ∀ pre1 post1, url.data = pre1 ++ "/comments/".data ++ post1 →
      pre.length ≤ pre1.length) :
    extractSubmissionId url = String.mk (rest.takeWhile (fun c => c != '/')) := by
  have hpatlen : "/comments/".data.length = 10 := by decide
  have hlen : url.data.length = pre.length + 10 + rest.length := by
    rw [hurl, List.length_append, List.length_append, hpatlen]
  have hpos : indexOf url.data "/comments/".data 0 = ((pre.length : Nat) : Int) := by
    have h0 : ¬ 0 ≥ url.data.length := by omega
    simp only [indexOf, h0, if_false, List.drop_zero]
    rw [searchFrom_first "/comments/".data (by decide) pre url.data rest 0 hurl hfirst]
    simp
  have hdrop : url.data.drop (pre.length + 10) = rest := by
    rw [hurl, List.append_assoc]
    rw [List.drop_append_eq_append_drop]
    simp [hpatlen]
  have hstart : ((pre.length : Nat) : Int) + 10 = ((pre.length + 10 : Nat) : Int) := by
    push_cast; rfl
  unfold extractSubmissionId
  simp only [hpos]
  have hne : ¬ ((pre.length : Nat) : Int) = -1 := by omega
  rw [if_neg hne, hstart, Int.toNat_ofNat]
  congr 1
  by_cases hrest : rest = []
  · subst hrest
    have hge : pre.length + 10 ≥ url.data.length := by rw [hlen]; simp
    simp only [indexOf, hge, if_true, Int.toNat_ofNat, List.takeWhile_nil]
    simp [substring, hlen]
  · have hrl : 0 < rest.length := List.length_pos.mpr hrest
    have hlt : ¬ pre.length + 10 ≥ url.data.length := by omega
    have hslash : "/".data = ['/'] := rfl
    simp only [indexOf, hlt, if_false, hdrop, hslash, searchFrom_slash]
    by_cases hmem : '/' ∈ rest
    · have hk : (rest.takeWhile (fun c => c != '/')).length ≤ rest.length :=
        (List.takeWhile_sublist _).length_le
      simp only [hmem, if_true]
      have hne2 : ¬ ((pre.length + 10 + (rest.takeWhile (fun c => c != '/')).length : Nat) : Int)
          = -1 := by omega
      rw [if_neg hne2, Int.toNat_ofNat]
      rw [substring_of_le _ _ _ (by omega) (by omega)]
      have hmin : min (pre.length + 10 + (rest.takeWhile (fun c => c != '/')).length)
          url.data.length
          = pre.length + 10 + (rest.takeWhile (fun c => c != '/')).length := by omega
      rw [hmin, List.drop_take]
      simp only [Nat.add_sub_cancel_left, hdrop]
      exact take_takeWhile_length _ rest
    · simp only [hmem, if_false, if_true, Int.toNat_ofNat]
      rw [substring_of_le _ _ _ (by omega) (by omega)]
      simp only [Nat.min_self, List.take_length, hdrop]
      symm
      rw [List.takeWhile_eq_self_iff]
      intro c hc
      have : c ≠ '/' := fun h => hmem (h ▸ hc)
      simpa using this

/-- C24. For every URL, `extractSubmissionId` returns the empty string when the
URL does not contain `/comments/`; otherwise it returns the text that follows
the first `/comments/` up to, and not including, the next `/`, or up to the end
of the URL when no `/` follows. The URL
`https://www.reddit.com/r/test/comments/abc123/title/` gives `abc123`. -/
theorem extractSubmissionId_returns_first_segment (url : String) :
    ((∀ pre post, url.data ≠ pre ++ "/comments/".data ++ post) →
      extractSubmissionId url = "") ∧
    (∀ pre rest, url.data = pre ++ "/comments/".data ++ rest →
      (∀ pre1 post1, url.data = pre1 ++ "/comments/".data ++ post1 →
        pre.length ≤ pre1.length) →
      extractSubmissionId url = String.mk (rest.takeWhile (fun c => c != '/')) ∧
      ('/' ∉ rest → extractSubmissionId url = String.mk rest)) ∧
    extractSubmissionId "https://www.reddit.com/r/test/comments/abc123/title/" = "abc123" ∧
    extractSubmissionId "https://www.reddit.com/r/test/comments/abc123" = "abc123" ∧
    extractSubmissionId "https://www.reddit.com/r/test/hot" = "" := by
  refine ⟨?_, ?_, by decide, by decide, by decide⟩
  · intro hno
    unfold extractSubmissionId
    have hpos : indexOf url.data "/comments/".data 0 = -1 := by
      unfold indexOf
      split
      · rfl
      · rw [List.drop_zero]
        exact searchFrom_none _ _ _ hno
    simp [hpos]
  · intro pre rest hurl hfirst
    have hmain := extractSubmissionId_found url pre rest hurl hfirst
    refine ⟨hmain, fun hmem => ?_⟩
    rw [hmain]
    congr 1
    rw [List.takeWhile_eq_self_iff]
    intro c hc
    have : c ≠ '/' := fun h => hmem (h ▸ hc)
    simpa using this

/-! ## The effects of a run, pass by pass -/

theorem sleeps_append (a b : List Event) : sleeps (a ++ b) = sleeps a ++ sleeps b := by
  simp [sleeps, List.filterMap_append]

theorem sends_append (a b : List Event) : sends (a ++ b) = sends a ++ sends b := by
  simp [sends, List.filter_append]

theorem afterAttempt_append (k : Nat) (a b : List Event) (h : k ∉ attemptIndices a) :
    afterAttempt k (a ++ b) = afterAttempt k b := by
  induction a with
  | nil => rfl
  | cons e rest ih =>
    cases e with
    | attempt j =>
      simp only [attemptIndices, List.mem_cons, not_or] at h
      have hj : ¬ j = k := fun hjk => h.1 hjk.symm
      simp only [List.cons_append, afterAttempt, hj, if_false]
      exact ih h.2
    | rateLimitWait ms => exact ih h
    | backoff ms => exact ih h
    | send j m u hs bd => exact ih h
    | retryAfterWait ms => exact ih h
    | record now => exact ih h

theorem untilAttempt_append (a b : List Event) (h : attemptIndices a = []) :
    untilAttempt (a ++ b) = a ++ untilAttempt b := by
  induction a with
  | nil => rfl
  | cons e rest ih =>
    cases e with
    | attempt j => simp [attemptIndices] at h
    | rateLimitWait ms => exact congrArg (List.cons _) (ih h)
    | backoff ms => exact congrArg (List.cons _) (ih h)
    | send j m u hs bd => exact congrArg (List.cons _) (ih h)
    | retryAfterWait ms => exact congrArg (List.cons _) (ih h)
    | record now => exact congrArg (List.cons _) (ih h)

theorem untilAttempt_self (a : List Event) (h : attemptIndices a = []) :
    untilAttempt a = a := by
  have := untilAttempt_append a [] h
  simpa [untilAttempt] using this

/-- What `classify` appends to the effects of the pass. -/
theorem classify_shape (lib : Library) (lim : RateLimiter) (httpCode : Int)
    (bodyText retryAfter : String) (response : ESPrawResponse) (time : Nat)
    (events : List Event) (step : Step)
    (h : classify lib lim httpCode bodyText retryAfter response time events = some step) :
    ∃ tail, step.events = events ++ tail ∧ attemptIndices tail = [] ∧ sends tail = [] ∧
      sleeps tail = (if httpCode = 429 ∧ retryAfter.length > 0
        then [toULong (wrapInt32 (lib.toInt retryAfter * 1000))] else []) := by
  unfold classify at h
  simp only [] at h
  by_cases hpos : httpCode > 0
  · simp only [hpos, if_true] at h
    by_cases h2xx : httpCode ≥ 200 ∧ httpCode < 300
    · simp only [h2xx, and_self, if_true] at h
      have hne : ¬ httpCode = 429 := by omega
      cases hrec : recordRequest (time % WORD) lim with
      | none => simp [hrec] at h
      | some lim1 =>
        simp only [hrec, Option.some.injEq] at h
        subst h
        exact ⟨[Event.record (time % WORD)], rfl, rfl, rfl, by simp [hne, sleeps, Event.sleep]⟩
    · simp only [h2xx, if_false] at h
      by_cases h401 : httpCode = 401
      · simp only [h401, if_true, Option.some.injEq] at h
        subst h
        exact ⟨[], by simp [Step.events], rfl, rfl, by simp [h401, sleeps]⟩
      · simp only [h401, if_false] at h
        by_cases h429 : httpCode = 429
        · simp only [h429, if_true] at h
          by_cases hra : retryAfter.length > 0
          · simp only [hra, if_true, Option.some.injEq] at h
            subst h
            exact ⟨[Event.retryAfterWait (toULong (wrapInt32 (lib.toInt retryAfter * 1000)))],
              rfl, rfl, rfl, by simp [h429, hra, sleeps, Event.sleep]⟩
          · simp only [hra, if_false, Option.some.injEq] at h
            subst h
            exact ⟨[], by simp [Step.events], rfl, rfl, by simp [hra, sleeps]⟩
        · simp only [h429, if_false, Option.some.injEq] at h
          subst h
          exact ⟨[], by simp [Step.events], rfl, rfl, by simp [h429, sleeps]⟩
  · simp only [hpos, if_false, Option.some.injEq] at h
    subst h
    have hne : ¬ httpCode = 429 := by omega
    exact ⟨[], by simp [Step.events], rfl, rfl, by simp [hne, sleeps]⟩

/-- The effects of one pass: the backoff sleep (for `k > 0`), the start of the
pass, then the request if one is sent, the `Retry-After` sleep if one is taken,
and the `recordRequest` call on success. -/
theorem attemptBody_shape (lib : Library) (c : ESPrawClient) (lim : RateLimiter)
    (method : ESPrawRequestMethod) (url body contentType : String) (k : Nat) (x : Exchange)
    (response : ESPrawResponse) (time : Nat) (step : Step)
    (h : attemptBody lib c lim method url body contentType k x response time = some step) :
    ∃ tail, step.events
        = (if k > 0 then [Event.backoff (backoffDelay c.config.retryDelay k)] else []) ++
          Event.attempt k :: tail ∧
      attemptIndices tail = [] ∧ sleeps tail = retryAfterSleep lib method x ∧
      sends tail = requestSent c method url body contentType k x := by
  have hslept : ∀ (t : Nat),
      (if k > 0 then (t + backoffDelay c.config.retryDelay k,
          [Event.backoff (backoffDelay c.config.retryDelay k)]) else (t, [])).2
        = (if k > 0 then [Event.backoff (backoffDelay c.config.retryDelay k)] else []) := by
    intro t; split <;> rfl
  unfold attemptBody at h
  simp only [hslept] at h
  cases x with
  | beginFailed elapsed =>
    simp only [Option.some.injEq] at h
    subst h
    exact ⟨[], by simp [Step.events], rfl, rfl, rfl⟩
  | completed code bodyText retryAfter elapsed =>
    by_cases hm : method = ESPrawRequestMethod.PATCH
    · subst hm
      simp only [] at h
      obtain ⟨tail, hev, hatt, hsend, hsl⟩ := classify_shape _ _ _ _ _ _ _ _ _ h
      refine ⟨tail, ?_, hatt, ?_, ?_⟩
      · rw [hev]; simp
      · rw [hsl]; simp [retryAfterSleep]
      · rw [hsend]; simp [requestSent]
    · have h1 : classify lib lim code bodyText retryAfter response
          ((if k > 0 then (time + backoffDelay c.config.retryDelay k,
            [Event.backoff (backoffDelay c.config.retryDelay k)]) else (time, [])).1 + elapsed)
          ((if k > 0 then [Event.backoff (backoffDelay c.config.retryDelay k)] else []) ++
            [Event.attempt k] ++
            [Event.send k method url (addHeaders c ++ contentTypeHeader method contentType)
              body]) = some step := by
        cases method <;> first | exact h | exact absurd rfl hm
      obtain ⟨tail, hev, hatt, hsend, hsl⟩ := classify_shape _ _ _ _ _ _ _ _ _ h1
      refine ⟨Event.send k method url (addHeaders c ++ contentTypeHeader method contentType)
        body :: tail, ?_, hatt, ?_, ?_⟩
      · rw [hev]; simp
      · have : sleeps (Event.send k method url
            (addHeaders c ++ contentTypeHeader method contentType) body :: tail)
            = sleeps tail := rfl
        rw [this, hsl]
        simp [retryAfterSleep, hm]
      · have : sends (Event.send k method url
            (addHeaders c ++ contentTypeHeader method contentType) body :: tail)
            = Event.send k method url (addHeaders c ++ contentTypeHeader method contentType)
              body :: sends tail := rfl
        rw [this, hsend]
        simp [requestSent, hm]

theorem attemptIndices_head (d : Int) (k : Nat) :
    attemptIndices (if k > 0 then [Event.backoff (backoffDelay d k)] else []) = [] := by
  split <;> rfl

/-- A run of the loop that makes a pass starts with the backoff sleep (for
`k > 0`) and the start of pass `k`; a run of no pass has no effects. -/
theorem retryLoop_head (lib : Library) (c : ESPrawClient) (lim : RateLimiter)
    (method : ESPrawRequestMethod) (url body contentType : String) (net : Nat → Exchange)
    (iters k : Nat) (response : ESPrawResponse) (time : Nat) (r : Run)
    (h : retryLoop lib c lim method url body contentType net iters k response time = some r) :
    (iters = 0 → r.events = []) ∧
    (0 < iters → ∃ tail, r.events
      = (if k > 0 then [Event.backoff (backoffDelay c.config.retryDelay k)] else []) ++
        Event.attempt k :: tail) := by
  cases iters with
  | zero =>
    simp only [retryLoop, Option.some.injEq] at h
    subst h
    exact ⟨fun _ => rfl, fun hpos => absurd hpos (by omega)⟩
  | succ n =>
    refine ⟨fun h0 => absurd h0 (by omega), fun _ => ?_⟩
    unfold retryLoop at h
    cases hab : attemptBody lib c lim method url body contentType k (net k) response time with
    | none => simp [hab] at h
    | some step =>
      obtain ⟨tail, hev, _, _, _⟩ := attemptBody_shape _ _ _ _ _ _ _ _ _ _ _ _ hab
      cases step with
      | ret response1 lim1 time1 events =>
        simp only [hab, Option.some.injEq] at h
        subst h
        exact ⟨tail, hev⟩
      | next response1 time1 events =>
        simp only [hab] at h
        cases hrl : retryLoop lib c lim method url body contentType net n (k + 1)
            response1 time1 with
        | none => simp [hrl] at h
        | some r1 =>
          simp only [hrl, Option.some.injEq] at h
          subst h
          refine ⟨tail ++ r1.events, ?_⟩
          simp only [Step.events] at hev
          simp only [Run.after, hev]
          simp

/-- Between the start of a pass that was made and the start of the next one
(or the return): the request of the pass if one is sent, the `Retry-After`
sleep if one is taken and, when another pass follows, its backoff sleep. -/
theorem retryLoop_segment (lib : Library) (c : ESPrawClient) (lim : RateLimiter)
    (method : ESPrawRequestMethod) (url body contentType : String) (net : Nat → Exchange) :
    ∀ (iters k : Nat) (response : ESPrawResponse) (time : Nat) (r : Run),
      retryLoop lib c lim method url body contentType net iters k response time = some r →
      ∀ j, k ≤ j → j < k + (attemptIndices r.events).length →
        sleeps (betweenAttempts j r.events)
          = retryAfterSleep lib method (net j) ++
            (if j + 1 < k + (attemptIndices r.events).length
              then [backoffDelay c.config.retryDelay (j + 1)] else []) ∧
        sends (betweenAttempts j r.events)
          = requestSent c method url body contentType j (net j) := by
  intro iters
  induction iters with
  | zero =>
    intro k response time r h j hkj hj
    simp only [retryLoop, Option.some.injEq] at h
    subst h
    simp [attemptIndices] at hj
    omega
  | succ n ih =>
    intro k response time r h j hkj hj
    unfold retryLoop at h
    cases hab : attemptBody lib c lim method url body contentType k (net k) response time with
    | none => simp [hab] at h
    | some step =>
      obtain ⟨tail, hev, htail, hsl, hsn⟩ := attemptBody_shape _ _ _ _ _ _ _ _ _ _ _ _ hab
      have hhd := attemptIndices_head c.config.retryDelay k
      have hidx : attemptIndices step.events = [k] := by
        rw [hev, attemptIndices_append, hhd]
        simp [attemptIndices, htail]
      have hafter : ∀ post, afterAttempt k (step.events ++ post) = tail ++ post := by
        intro post
        rw [hev, List.append_assoc, afterAttempt_append _ _ _ (by rw [hhd]; simp)]
        simp [afterAttempt]
      cases step with
      | ret response1 lim1 time1 events =>
        simp only [hab, Option.some.injEq] at h
        subst h
        simp only [Step.events] at hidx hafter
        simp only [hidx, List.length_singleton] at hj ⊢
        have hjk : j = k := by omega
        subst hjk
        have hb : betweenAttempts j events = tail := by
          have := hafter []
          simp only [List.append_nil] at this
          rw [betweenAttempts, this, untilAttempt_self _ htail]
        rw [hb, hsl, hsn]
        simp
      | next response1 time1 events =>
        simp only [hab] at h
        cases hrl : retryLoop lib c lim method url body contentType net n (k + 1)
            response1 time1 with
        | none => simp [hrl] at h
        | some r1 =>
          simp only [hrl, Option.some.injEq] at h
          subst h
          simp only [Step.events] at hidx hafter
          have hlen : (attemptIndices (r1.after events).events).length
              = 1 + (attemptIndices r1.events).length := by
            simp only [Run.after, attemptIndices_append, hidx]
            simp; omega
          rw [hlen] at hj ⊢
          obtain ⟨hzero, hpos⟩ := retryLoop_head _ _ _ _ _ _ _ _ _ _ _ _ _ hrl
          by_cases hjk : j = k
          · subst hjk
            have hb : betweenAttempts j (r1.after events).events
                = tail ++ untilAttempt r1.events := by
              simp only [betweenAttempts, Run.after, hafter]
              exact untilAttempt_append _ _ htail
            rw [hb, sleeps_append, sends_append, hsl, hsn]
            cases n with
            | zero =>
              rw [hzero rfl]
              simp [untilAttempt, sleeps, sends, attemptIndices]
            | succ n1 =>
              obtain ⟨tail1, hev1⟩ := hpos (by omega)
              have hone : 1 ≤ (attemptIndices r1.events).length := by
                rw [hev1, attemptIndices_append]
                simp [attemptIndices]
              have hcond : j + 1 < j + (1 + (attemptIndices r1.events).length) := by omega
              have hun : untilAttempt r1.events
                  = [Event.backoff (backoffDelay c.config.retryDelay (j + 1))] := by
                rw [hev1]
                simp [untilAttempt]
              rw [hun, if_pos hcond]
              simp [sleeps, sends, Event.sleep, Event.isSend]
          · have hb : betweenAttempts j (r1.after events).events
                = betweenAttempts j r1.events := by
              simp only [betweenAttempts, Run.after]
              rw [afterAttempt_append _ _ _ (by rw [hidx]; simp; omega)]
            obtain ⟨h1, h2⟩ := ih (k + 1) response1 time1 r1 hrl j (by omega) (by omega)
            rw [hb, h1, h2]
            have hc : (j + 1 < k + 1 + (attemptIndices r1.events).length)
                ↔ (j + 1 < k + (1 + (attemptIndices r1.events).length)) := by omega
            simp only [hc, and_self]

/-- The passes of a call of `performRequest`, read off its effects: what lies
between the start of pass `j` and the start of pass `j + 1` (or the return). -/
theorem performRequest_segment (lib : Library) (c : ESPrawClient)
    (method : ESPrawRequestMethod) (url body contentType : String) (net : Nat → Exchange)
    (time : Nat) (r : Run)
    (h : performRequest lib c method url body contentType net time = some r) :
    ∀ j, j < r.attempts →
      sleeps (betweenAttempts j r.events)
        = retryAfterSleep lib method (net j) ++
          (if j + 1 < r.attempts then [backoffDelay c.config.retryDelay (j + 1)] else []) ∧
      sends (betweenAttempts j r.events)
        = requestSent c method url body contentType j (net j) := by
  intro j hj
  unfold performRequest at h
  cases hg : rateLimitGate c.limiter time with
  | none => simp [hg] at h
  | some g =>
    obtain ⟨lim, time1, events⟩ := g
    simp only [hg] at h
    cases hrl : retryLoop lib c lim method url body contentType net
        (c.config.maxRetries + 1).toNat 0 ESPrawResponse.init time1 with
    | none => simp [hrl] at h
    | some r1 =>
      simp only [hrl, Option.some.injEq] at h
      subst h
      obtain ⟨_, hnone, _⟩ := rateLimitGate_facts _ _ _ _ _ hg
      have hatt : (r1.after events).attempts = (attemptIndices r1.events).length := by
        simp [Run.attempts, Run.after, attemptIndices_append, hnone]
      have hb : betweenAttempts j (r1.after events).events = betweenAttempts j r1.events := by
        simp only [betweenAttempts, Run.after]
        rw [afterAttempt_append _ _ _ (by rw [hnone]; simp)]
      rw [hatt] at hj ⊢
      rw [hb]
      have := retryLoop_segment lib c lim method url body contentType net _ 0 _ _ r1 hrl j
        (by omega) (by omega)
      simpa using this

/-! ## A 429 answer and its `Retry-After` hint -/

/-- Storing a wrapped `int` in an `unsigned long` gives the value modulo `2^32`. -/
theorem toULong_wrapInt32 (y : Int) : toULong (wrapInt32 y) = (y % 4294967296).toNat := by
  unfold toULong wrapInt32
  omega

/-- When attempt `i` of `performRequest` is made and answered with HTTP 429
(the request being one the `switch` sends), the attempt consumes one unit of
the retry budget: attempt `i + 1` follows exactly when `i + 1 <= maxRetries`.
With a non-empty `Retry-After` header the sleeps between the start of attempt
`i` and the next attempt are the hint sleep followed by the standard backoff
sleep of attempt `i + 1`; with no header only the backoff sleep is taken. The
hint sleep is `toInt() * 1000` reduced modulo `2^32`: it is `s * 1000` ms for a
hint of `s` seconds whenever `s * 1000 < 2^32`. -/
theorem retryAfter_hint_sleeps_before_next_attempt (lib : Library) (c : ESPrawClient)
    (method : ESPrawRequestMethod) (url body contentType : String) (net : Nat → Exchange)
    (time i : Nat) (bodyText retryAfter : String) (elapsed : Nat)
    (hwf : WellFormed c.limiter) (hm : method ≠ ESPrawRequestMethod.PATCH)
    (hx : net i = Exchange.completed 429 bodyText retryAfter elapsed) :
    ∃ r, performRequest lib c method url body contentType net time = some r ∧
      attemptIndices r.events = List.range r.attempts ∧
      (i < r.attempts →
        (i + 1 < r.attempts ↔ (i : Int) + 1 ≤ c.config.maxRetries) ∧
        (retryAfter.length > 0 →
          sleeps (betweenAttempts i r.events)
            = toULong (wrapInt32 (lib.toInt retryAfter * 1000)) ::
              (if i + 1 < r.attempts then [backoffDelay c.config.retryDelay (i + 1)]
                else [])) ∧
        (retryAfter.length = 0 →
          sleeps (betweenAttempts i r.events)
            = (if i + 1 < r.attempts then [backoffDelay c.config.retryDelay (i + 1)]
                else []))) ∧
      toULong (wrapInt32 (lib.toInt retryAfter * 1000))
        = ((lib.toInt retryAfter * 1000) % 4294967296).toNat ∧
      (∀ s : Nat, lib.toInt retryAfter = (s : Int) → s * 1000 < 4294967296 →
        toULong (wrapInt32 (lib.toInt retryAfter * 1000)) = s * 1000) := by
  obtain ⟨r, lim, hrun, _, hbound, _, hidx, _, hmid, hlast, _⟩ :=
    performRequest_spec lib c method url body contentType net time hwf
  have hstop : (net i).stops method = false := by
    rw [hx]
    simp [Exchange.stops, Exchange.code, hm]
  refine ⟨r, hrun, hidx, ?_, ?_, ?_⟩
  · intro hi
    obtain ⟨hsl, _⟩ := performRequest_segment lib c method url body contentType net time r hrun
      i hi
    rw [hx] at hsl
    refine ⟨?_, ?_, ?_⟩
    · constructor
      · intro h1
        omega
      · intro h1
        by_contra hcon
        have hi1 : i = r.attempts - 1 := by omega
        rcases hlast with hfull | hstops
        · omega
        · rw [← hi1, hstop] at hstops
          cases hstops
    · intro hra
      rw [hsl]
      simp [retryAfterSleep, hm, hra]
    · intro hra
      have hra1 : ¬ retryAfter.length > 0 := by omega
      rw [hsl]
      simp only [retryAfterSleep, hra1, and_false, if_false, List.nil_append]
  · exact toULong_wrapInt32 _
  · intro s hs hfit
    have h0 : (0 : Int) ≤ (s : Int) * 1000 := by positivity
    have h1 : (s : Int) * 1000 < 4294967296 := by exact_mod_cast hfit
    rw [toULong_wrapInt32, hs, Int.emod_eq_of_lt h0 h1]
    exact Int.toNat_ofNat (s * 1000)

/-- On a transport that answers 429 with `Retry-After: 2` and then 200:
two attempts are made, and between them the call sleeps 2000 ms for the hint
and then the 2000 ms backoff of attempt 1. -/
theorem retryAfter_hint_sleeps_before_next_attempt_witness :
    ∃ r, performRequest hintLibrary (clientWith 3 1000) ESPrawRequestMethod.GET
        "https://oauth.reddit.com/r/test/hot" "" "" netRateLimitedWithHint 0 = some r ∧
      r.attempts = 2 ∧ sleeps (betweenAttempts 0 r.events) = [2000, 2000] := by
  obtain ⟨r, hrun, _, hseg, _, hms⟩ := retryAfter_hint_sleeps_before_next_attempt hintLibrary
    (clientWith 3 1000) ESPrawRequestMethod.GET "https://oauth.reddit.com/r/test/hot" "" ""
    netRateLimitedWithHint 0 0 "slow down" "2" 50 (by decide) (by decide) rfl
  have hc : (performRequest hintLibrary (clientWith 3 1000) ESPrawRequestMethod.GET
      "https://oauth.reddit.com/r/test/hot" "" "" netRateLimitedWithHint 0).map Run.attempts
      = some 2 := by decide
  have hatt : r.attempts = 2 := by
    rw [hrun] at hc
    simpa using hc
  obtain ⟨_, hhint, _⟩ := hseg (by omega)
  refine ⟨r, hrun, hatt, ?_⟩
  rw [hhint (by decide), hms 2 rfl (by norm_num), hatt]
  decide

/-- C21 at a `Retry-After` hint of 4294968 seconds. The product
`toInt() * 1000 = 4294968000` does not fit 32 bits and wraps to 704: between
the 429 answer and the next attempt the call sleeps 704 ms for the hint and
then the 2000 ms backoff, not `4294968 * 1000` ms. -/
theorem retryAfter_large_hint_wraps :
    netRateLimitedLargeHint 0 = Exchange.completed 429 "slow down" "4294968" 50 ∧
    largeHintLibrary.toInt "4294968" = 4294968 ∧
    (performRequest largeHintLibrary (clientWith 3 1000) ESPrawRequestMethod.GET
      "https://oauth.reddit.com/r/test/hot" "" "" netRateLimitedLargeHint 0).map
        (fun r => (r.attempts, sleeps r.events, sleeps (betweenAttempts 0 r.events)))
      = some (2, [704, 2000], [704, 2000]) ∧
    (704 : Nat) ≠ 4294968 * 1000 := by
  refine ⟨rfl, ?_, ?_, ?_⟩
  · decide
  · decide
  · decide

/-! ## The headers of the requests sent -/

theorem sends_head (d : Int) (k : Nat) :
    sends (if k > 0 then [Event.backoff (backoffDelay d k)] else []) = [] := by
  split <;> rfl

/-- Every request the retry loop hands to the transport has the method, the URL
and the body of the call and the headers of `addHeaders`, followed by the
`Content-Type` header of a POST or PUT. -/
theorem retryLoop_sends (lib : Library) (c : ESPrawClient) (lim : RateLimiter)
    (method : ESPrawRequestMethod) (url body contentType : String) (net : Nat → Exchange) :
    ∀ (iters k : Nat) (response : ESPrawResponse) (time : Nat) (r : Run),
      retryLoop lib c lim method url body contentType net iters k response time = some r →
      ∀ e ∈ sends r.events, ∃ j, e = Event.send j method url
        (addHeaders c ++ contentTypeHeader method contentType) body := by
  intro iters
  induction iters with
  | zero =>
    intro k response time r h e he
    simp only [retryLoop, Option.some.injEq] at h
    subst h
    simp [sends] at he
  | succ n ih =>
    intro k response time r h e he
    unfold retryLoop at h
    cases hab : attemptBody lib c lim method url body contentType k (net k) response time with
    | none => simp [hab] at h
    | some step =>
      obtain ⟨tail, hev, _, _, hsn⟩ := attemptBody_shape _ _ _ _ _ _ _ _ _ _ _ _ hab
      have hstep : ∀ e ∈ sends step.events, ∃ j, e = Event.send j method url
          (addHeaders c ++ contentTypeHeader method contentType) body := by
        intro e1 he1
        rw [hev, sends_append, sends_head, List.nil_append] at he1
        have hcons : sends (Event.attempt k :: tail) = sends tail := rfl
        rw [hcons, hsn] at he1
        cases hx : net k with
        | beginFailed el => simp [hx, requestSent] at he1
        | completed code b ra el =>
          simp only [hx, requestSent] at he1
          split at he1
          · simp at he1
          · exact ⟨k, by simpa using he1⟩
      cases step with
      | ret response1 lim1 time1 events =>
        simp only [hab, Option.some.injEq] at h
        subst h
        exact hstep e he
      | next response1 time1 events =>
        simp only [hab] at h
        cases hrl : retryLoop lib c lim method url body contentType net n (k + 1)
            response1 time1 with
        | none => simp [hrl] at h
        | some r1 =>
          simp only [hrl, Option.some.injEq] at h
          subst h
          simp only [Run.after, sends_append, List.mem_append] at he
          rcases he with he | he
          · exact hstep e he
          · exact ih (k + 1) response1 time1 r1 hrl e he

/-- The same for a call of `performRequest`: the rate limit wait sends nothing. -/
theorem performRequest_sends (lib : Library) (c : ESPrawClient)
    (method : ESPrawRequestMethod) (url body contentType : String) (net : Nat → Exchange)
    (time : Nat) (r : Run)
    (h : performRequest lib c method url body contentType net time = some r) :
    ∀ e ∈ sends r.events, ∃ j, e = Event.send j method url
      (addHeaders c ++ contentTypeHeader method contentType) body := by
  unfold performRequest at h
  cases hg : rateLimitGate c.limiter time with
  | none => simp [hg] at h
  | some g =>
    obtain ⟨lim, time1, events⟩ := g
    simp only [hg] at h
    cases hrl : retryLoop lib c lim method url body contentType net
        (c.config.maxRetries + 1).toNat 0 ESPrawResponse.init time1 with
    | none => simp [hrl] at h
    | some r1 =>
      simp only [hrl, Option.some.injEq] at h
      subst h
      have hgate : sends events = [] := by
        obtain ⟨_, _, b, s1, _, htrue, hfalse⟩ := rateLimitGate_facts _ _ _ _ _ hg
        cases b with
        | true => rw [(htrue rfl).1]; rfl
        | false =>
          obtain ⟨w, _, hw, _⟩ := hfalse rfl
          rw [hw]
          split <;> rfl
      intro e he
      simp only [Run.after, sends_append, hgate, List.nil_append] at he
      exact retryLoop_sends lib c lim method url body contentType net _ _ _ _ r1 hrl e he

/-- The headers `addHeaders` attaches: `User-Agent` with the configured user
agent or the default, `Accept: application/json`, and `Authorization: Bearer`
with the token exactly when the token is not empty. -/
theorem addHeaders_content (c : ESPrawClient) (method : ESPrawRequestMethod)
    (contentType : String) :
    ("User-Agent", if c.userAgent.length > 0 then c.userAgent else ESPRAW_USER_AGENT_FORMAT)
      ∈ addHeaders c ++ contentTypeHeader method contentType ∧
    ("Accept", "application/json") ∈ addHeaders c ++ contentTypeHeader method contentType ∧
    (c.accessToken.length > 0 → ("Authorization", "Bearer " ++ c.accessToken)
      ∈ addHeaders c ++ contentTypeHeader method contentType) ∧
    (¬ c.accessToken.length > 0 → ∀ v, ("Authorization", v)
      ∉ addHeaders c ++ contentTypeHeader method contentType) := by
  refine ⟨?_, ?_, ?_, ?_⟩
  · unfold addHeaders
    split <;> simp
  · unfold addHeaders
    simp
  · intro ht
    unfold addHeaders
    simp [ht]
  · intro ht v
    unfold addHeaders contentTypeHeader
    simp only [ht, if_false, List.append_nil]
    split <;> split <;> simp

/-- C23 as stated fails for an attempt whose `http.begin` fails: the pass ends
at the `continue` of line 119, before `addHeaders` is called, so the attempt
carries no header at all. With `http.begin` failing every time, four attempts
are made and no request with headers is handed to the transport; with a 500
answer followed by `http.begin` failures, only attempt 0 carries the headers. -/
theorem performRequest_begin_failure_attaches_no_header :
    (performRequest testLibrary clientWithToken ESPrawRequestMethod.GET
      "https://oauth.reddit.com/r/test/hot" "" "" netBeginAlwaysFails 0).map
        (fun r => (r.attempts, sends r.events)) = some (4, []) ∧
    (performRequest testLibrary clientWithToken ESPrawRequestMethod.GET
      "https://oauth.reddit.com/r/test/hot" "" "" netErrorThenBeginFails 0).map
        (fun r => (r.attempts, sends r.events))
      = some (4, [Event.send 0 ESPrawRequestMethod.GET "https://oauth.reddit.com/r/test/hot"
          [("User-Agent", "esp32:demo:v1"), ("Authorization", "Bearer abc"),
            ("Accept", "application/json")] ""]) := by
  constructor
  · decide
  · decide

/-- C23, amended. `performRequest` returns, and every request it hands to the
transport carries the headers of `addHeaders`: `User-Agent` with the configured
user agent, or the library default when none is set, `Accept:
application/json`, and `Authorization: Bearer <token>` exactly when the stored
access token is not empty. An attempt whose `http.begin` succeeds sends exactly
one such request (for the methods the `switch` sends); an attempt whose
`http.begin` fails sends nothing and attaches no header. -/
theorem performRequest_requests_carry_headers (lib : Library) (c : ESPrawClient)
    (method : ESPrawRequestMethod) (url body contentType : String) (net : Nat → Exchange)
    (time : Nat) (hwf : WellFormed c.limiter) :
    ∃ r, performRequest lib c method url body contentType net time = some r ∧
      (∀ e ∈ sends r.events, ∃ j, e = Event.send j method url
        (addHeaders c ++ contentTypeHeader method contentType) body) ∧
      (∀ j, j < r.attempts →
        (∀ el, net j = Exchange.beginFailed el → sends (betweenAttempts j r.events) = []) ∧
        (∀ code b ra el, net j = Exchange.completed code b ra el →
          method ≠ ESPrawRequestMethod.PATCH →
          sends (betweenAttempts j r.events) = [Event.send j method url
            (addHeaders c ++ contentTypeHeader method contentType) body])) ∧
      ("User-Agent", if c.userAgent.length > 0 then c.userAgent else ESPRAW_USER_AGENT_FORMAT)
        ∈ addHeaders c ++ contentTypeHeader method contentType ∧
      ("Accept", "application/json") ∈ addHeaders c ++ contentTypeHeader method contentType ∧
      (c.accessToken.length > 0 → ("Authorization", "Bearer " ++ c.accessToken)
        ∈ addHeaders c ++ contentTypeHeader method contentType) ∧
      (¬ c.accessToken.length > 0 → ∀ v, ("Authorization", v)
        ∉ addHeaders c ++ contentTypeHeader method contentType) := by
  obtain ⟨r, _, hrun, _⟩ := performRequest_spec lib c method url body contentType net time hwf
  obtain ⟨h1, h2, h3, h4⟩ := addHeaders_content c method contentType
  refine ⟨r, hrun, performRequest_sends lib c method url body contentType net time r hrun,
    ?_, h1, h2, h3, h4⟩
  intro j hj
  obtain ⟨_, hsn⟩ := performRequest_segment lib c method url body contentType net time r hrun
    j hj
  constructor
  · intro el hx
    rw [hsn, hx]
    rfl
  · intro code b ra el hx hm
    rw [hsn, hx]
    simp [requestSent, hm]

/-- C23, amended, on a client with a user agent and a token whose first attempt
is answered 500 and whose later attempts fail in `http.begin`. -/
theorem performRequest_requests_carry_headers_witness :
    WellFormed clientWithToken.limiter ∧
    ∃ r, performRequest testLibrary clientWithToken ESPrawRequestMethod.GET
        "https://oauth.reddit.com/r/test/hot" "" "" netErrorThenBeginFails 0 = some r ∧
      (∀ e ∈ sends r.events, ∃ j, e = Event.send j ESPrawRequestMethod.GET
        "https://oauth.reddit.com/r/test/hot"
        [("User-Agent", "esp32:demo:v1"), ("Authorization", "Bearer abc"),
          ("Accept", "application/json")] "") := by
  obtain ⟨r, hrun, hall, _⟩ := performRequest_requests_carry_headers testLibrary
    clientWithToken ESPrawRequestMethod.GET "https://oauth.reddit.com/r/test/hot" "" ""
    netErrorThenBeginFails 0 (by decide)
  exact ⟨by decide, r, hrun, hall⟩

/-! ## Passes that the retry loop cannot tell apart -/

/-- The clock and the rate limiter at the end of `classify`. -/
theorem classify_outline (lib : Library) (lim : RateLimiter) (httpCode : Int)
    (bodyText retryAfter : String) (response : ESPrawResponse) (time : Nat)
    (events : List Event) (step : Step)
    (h : classify lib lim httpCode bodyText retryAfter response time events = some step) :
    step.time = time + (if httpCode = 429 ∧ retryAfter.length > 0
      then toULong (wrapInt32 (lib.toInt retryAfter * 1000)) else 0) ∧
    ((200 ≤ httpCode ∧ httpCode < 300) →
      recordRequest (step.time % WORD) lim = some (step.limiter lim)) ∧
    (¬ (200 ≤ httpCode ∧ httpCode < 300) → step.limiter lim = lim) := by
  unfold classify at h
  simp only [] at h
  by_cases hpos : httpCode > 0
  · simp only [hpos, if_true] at h
    by_cases h2xx : httpCode ≥ 200 ∧ httpCode < 300
    · simp only [h2xx, and_self, if_true] at h
      have hne : ¬ httpCode = 429 := by omega
      cases hrec : recordRequest (time % WORD) lim with
      | none => simp [hrec] at h
      | some lim1 =>
        simp only [hrec, Option.some.injEq] at h
        subst h
        exact ⟨by simp [Step.time, hne], fun _ => hrec, fun hn => absurd h2xx hn⟩
    · simp only [h2xx, if_false] at h
      by_cases h401 : httpCode = 401
      · simp only [h401, if_true, Option.some.injEq] at h
        subst h
        exact ⟨by simp [Step.time, h401], fun hy => absurd hy h2xx, fun _ => rfl⟩
      · simp only [h401, if_false] at h
        by_cases h429 : httpCode = 429
        · simp only [h429, if_true] at h
          by_cases hra : retryAfter.length > 0
          · simp only [hra, if_true, Option.some.injEq] at h
            subst h
            exact ⟨by simp [Step.time, h429, hra], fun hy => absurd hy h2xx, fun _ => rfl⟩
          · simp only [hra, if_false, Option.some.injEq] at h
            subst h
            exact ⟨by simp [Step.time, hra], fun hy => absurd hy h2xx, fun _ => rfl⟩
        · simp only [h429, if_false, Option.some.injEq] at h
          subst h
          exact ⟨by simp [Step.time, h429], fun hy => absurd hy h2xx, fun _ => rfl⟩
  · simp only [hpos, if_false, Option.some.injEq] at h
    subst h
    have hne : ¬ httpCode = 429 := by omega
    have h2xx : ¬ (200 ≤ httpCode ∧ httpCode < 300) := by omega
    exact ⟨by simp [Step.time, hne], fun hy => absurd hy h2xx, fun _ => rfl⟩

/-- The clock and the rate limiter at the end of a pass: the clock advanced by
the backoff sleep, the transport calls and the `Retry-After` sleep; the limiter
changed by `recordRequest` on success only. -/
theorem attemptBody_outline (lib : Library) (c : ESPrawClient) (lim : RateLimiter)
    (method : ESPrawRequestMethod) (url body contentType : String) (k : Nat) (x : Exchange)
    (response : ESPrawResponse) (time : Nat) (step : Step)
    (h : attemptBody lib c lim method url body contentType k x response time = some step) :
    step.time = time + (if k > 0 then backoffDelay c.config.retryDelay k else 0) +
      x.elapsed method + (retryAfterSleep lib method x).sum ∧
    (x.succeeds method = true →
      recordRequest (step.time % WORD) lim = some (step.limiter lim)) ∧
    (x.succeeds method = false → step.limiter lim = lim) := by
  have hslept : ∀ (t : Nat),
      (if k > 0 then (t + backoffDelay c.config.retryDelay k,
          [Event.backoff (backoffDelay c.config.retryDelay k)]) else (t, [])).1
        = t + (if k > 0 then backoffDelay c.config.retryDelay k else 0) := by
    intro t; split <;> rfl
  unfold attemptBody at h
  simp only [hslept] at h
  cases x with
  | beginFailed elapsed =>
    simp only [Option.some.injEq] at h
    subst h
    refine ⟨by simp [Step.time, Exchange.elapsed, retryAfterSleep], ?_, fun _ => rfl⟩
    intro hs
    simp [Exchange.succeeds, Exchange.code] at hs
  | completed code bodyText retryAfter elapsed =>
    by_cases hm : method = ESPrawRequestMethod.PATCH
    · subst hm
      simp only [] at h
      obtain ⟨ht, _, hlim⟩ := classify_outline _ _ _ _ _ _ _ _ _ h
      refine ⟨?_, ?_, fun _ => hlim (by omega)⟩
      · rw [ht]
        simp [Exchange.elapsed, retryAfterSleep]
      · intro hs
        simp [Exchange.succeeds, Exchange.code] at hs
    · have h1 : classify lib lim code bodyText retryAfter response
          (time + (if k > 0 then backoffDelay c.config.retryDelay k else 0) + elapsed)
          ((if k > 0 then (time + backoffDelay c.config.retryDelay k,
            [Event.backoff (backoffDelay c.config.retryDelay k)]) else (time, [])).2 ++
            [Event.attempt k] ++
            [Event.send k method url (addHeaders c ++ contentTypeHeader method contentType)
              body]) = some step := by
        cases method <;> first | exact h | exact absurd rfl hm
      obtain ⟨ht, hrec, hlim⟩ := classify_outline _ _ _ _ _ _ _ _ _ h1
      refine ⟨?_, ?_, ?_⟩
      · rw [ht]
        simp only [Exchange.elapsed, hm, if_false, retryAfterSleep, ne_eq, not_false_eq_true,
          true_and]
        by_cases hhint : code = 429 ∧ retryAfter.length > 0
        · simp [hhint]
        · simp only [hhint, if_false, List.sum_nil]
      · intro hs
        apply hrec
        simp only [Exchange.succeeds, Exchange.code, hm, if_false, decide_eq_true_eq] at hs
        omega
      · intro hs
        apply hlim
        simp only [Exchange.succeeds, Exchange.code, hm, if_false, decide_eq_false_iff_not] at hs
        omega

theorem sleeps_head (d : Int) (k : Nat) :
    sleeps (if k > 0 then [Event.backoff (backoffDelay d k)] else [])
      = (if k > 0 then [backoffDelay d k] else []) := by
  split <;> rfl

/-- Two passes with the same loop index whose exchanges agree on whether the
pass returns, on success and on the `Retry-After` sleep, started with the same
success flag: they end the same way, with the same success flag, the same
sleeps and, when they start at the same instant and take the same time, the
same clock and rate limiter. -/
theorem attemptBody_replace (lib : Library) (c : ESPrawClient) (lim : RateLimiter)
    (method : ESPrawRequestMethod) (url body contentType : String) (k : Nat)
    (x1 x2 : Exchange) (resp1 resp2 : ESPrawResponse) (time1 time2 : Nat)
    (hwf : WellFormed lim) (hflag : resp1.success = resp2.success)
    (hstops : x1.stops method = x2.stops method)
    (hsucc : x1.succeeds method = x2.succeeds method)
    (hra : retryAfterSleep lib method x1 = retryAfterSleep lib method x2) :
    ∃ step1 step2,
      attemptBody lib c lim method url body contentType k x1 resp1 time1 = some step1 ∧
      attemptBody lib c lim method url body contentType k x2 resp2 time2 = some step2 ∧
      step1.isRet = step2.isRet ∧
      step1.response.success = step2.response.success ∧
      sleeps step1.events = sleeps step2.events ∧
      attemptIndices step1.events = attemptIndices step2.events ∧
      (time1 = time2 → x1.elapsed method = x2.elapsed method →
        step1.time = step2.time ∧ step1.limiter lim = step2.limiter lim) := by
  obtain ⟨step1, h1, _⟩ := attemptBody_spec lib c lim method url body contentType k x1 resp1
    time1 hwf
  obtain ⟨step2, h2, _⟩ := attemptBody_spec lib c lim method url body contentType k x2 resp2
    time2 hwf
  obtain ⟨hs1, _, hr1, hi1, _⟩ := attemptBody_status _ _ _ _ _ _ _ _ _ _ _ _ hwf h1
  obtain ⟨hs2, _, hr2, hi2, _⟩ := attemptBody_status _ _ _ _ _ _ _ _ _ _ _ _ hwf h2
  obtain ⟨ht1, hrec1, hlim1⟩ := attemptBody_outline _ _ _ _ _ _ _ _ _ _ _ _ h1
  obtain ⟨ht2, hrec2, hlim2⟩ := attemptBody_outline _ _ _ _ _ _ _ _ _ _ _ _ h2
  obtain ⟨tail1, hev1, _, hsl1, _⟩ := attemptBody_shape _ _ _ _ _ _ _ _ _ _ _ _ h1
  obtain ⟨tail2, hev2, _, hsl2, _⟩ := attemptBody_shape _ _ _ _ _ _ _ _ _ _ _ _ h2
  have hcons : ∀ tail, sleeps (Event.attempt k :: tail) = sleeps tail := fun _ => rfl
  refine ⟨step1, step2, h1, h2, ?_, ?_, ?_, ?_, ?_⟩
  · rw [hr1, hr2, hstops]
  · rw [hs1, hs2, hsucc, hflag]
  · rw [hev1, hev2, sleeps_append, sleeps_append, hcons, hcons, hsl1, hsl2, hra]
  · rw [hi1, hi2]
  · intro htime hel
    have ht : step1.time = step2.time := by rw [ht1, ht2, htime, hel, hra]
    refine ⟨ht, ?_⟩
    cases hx : x1.succeeds method with
    | true =>
      have e1 := hrec1 hx
      have e2 := hrec2 (hsucc ▸ hx)
      rw [ht, e2] at e1
      exact (Option.some.inj e1).symm
    | false =>
      rw [hlim1 hx, hlim2 (hsucc ▸ hx)]

/-- Two transports whose exchanges agree, pass by pass, on whether the pass
returns, on success and on the `Retry-After` sleep drive the retry loop through
the same passes and the same sleeps to the same success flag; when the passes
also take the same time, to the same clock and rate limiter. -/
theorem retryLoop_replace (lib : Library) (c : ESPrawClient) (lim : RateLimiter)
    (method : ESPrawRequestMethod) (url body contentType : String)
    (net1 net2 : Nat → Exchange) (hwf : WellFormed lim)
    (hnet : ∀ k, (net1 k).stops method = (net2 k).stops method ∧
      (net1 k).succeeds method = (net2 k).succeeds method ∧
      retryAfterSleep lib method (net1 k) = retryAfterSleep lib method (net2 k)) :
    ∀ (iters k : Nat) (resp1 resp2 : ESPrawResponse) (time1 time2 : Nat),
      resp1.success = resp2.success →
      ∃ r1 r2,
        retryLoop lib c lim method url body contentType net1 iters k resp1 time1 = some r1 ∧
        retryLoop lib c lim method url body contentType net2 iters k resp2 time2 = some r2 ∧
        r1.response.success = r2.response.success ∧
        sleeps r1.events = sleeps r2.events ∧
        attemptIndices r1.events = attemptIndices r2.events ∧
        (time1 = time2 → (∀ j, (net1 j).elapsed method = (net2 j).elapsed method) →
          r1.time = r2.time ∧ r1.limiter = r2.limiter) := by
  intro iters
  induction iters with
  | zero =>
    intro k resp1 resp2 time1 time2 hflag
    exact ⟨_, _, rfl, rfl, hflag, rfl, rfl, fun ht _ => ⟨ht, rfl⟩⟩
  | succ n ih =>
    intro k resp1 resp2 time1 time2 hflag
    obtain ⟨hstops, hsucc, hra⟩ := hnet k
    obtain ⟨step1, step2, h1, h2, hret, hfl, hsl, hidx, htl⟩ :=
      attemptBody_replace lib c lim method url body contentType k (net1 k) (net2 k)
        resp1 resp2 time1 time2 hwf hflag hstops hsucc hra
    cases step1 with
    | ret response1 lim1 t1 events1 =>
      cases step2 with
      | next response2 t2 events2 => simp [Step.isRet] at hret
      | ret response2 lim2 t2 events2 =>
        refine ⟨{ response := response1, limiter := lim1, time := t1, events := events1 },
          { response := response2, limiter := lim2, time := t2, events := events2 },
          by simp only [retryLoop, h1], by simp only [retryLoop, h2], hfl, hsl, hidx, ?_⟩
        intro ht hel
        exact htl ht (hel k)
    | next response1 t1 events1 =>
      cases step2 with
      | ret response2 lim2 t2 events2 => simp [Step.isRet] at hret
      | next response2 t2 events2 =>
        obtain ⟨r1, r2, e1, e2, hfl1, hsl1, hidx1, htl1⟩ :=
          ih (k + 1) response1 response2 t1 t2 hfl
        refine ⟨r1.after events1, r2.after events2, by simp only [retryLoop, h1, e1],
          by simp only [retryLoop, h2, e2], hfl1, ?_, ?_, ?_⟩
        · simp only [Step.events] at hsl
          simp only [Run.after, sleeps_append, hsl, hsl1]
        · simp only [Step.events] at hidx
          simp only [Run.after, attemptIndices_append, hidx, hidx1]
        · intro ht hel
          exact htl1 (htl ht (hel k)).1 hel

/-- The same for two calls of `performRequest` made by the same client at the
same instant. -/
theorem performRequest_replace (lib : Library) (c : ESPrawClient)
    (method : ESPrawRequestMethod) (url body contentType : String)
    (net1 net2 : Nat → Exchange) (time : Nat) (hwf : WellFormed c.limiter)
    (hnet : ∀ k, (net1 k).stops method = (net2 k).stops method ∧
      (net1 k).succeeds method = (net2 k).succeeds method ∧
      retryAfterSleep lib method (net1 k) = retryAfterSleep lib method (net2 k)) :
    ∃ r1 r2,
      performRequest lib c method url body contentType net1 time = some r1 ∧
      performRequest lib c method url body contentType net2 time = some r2 ∧
      r1.response.success = r2.response.success ∧
      sleeps r1.events = sleeps r2.events ∧
      r1.attempts = r2.attempts ∧
      ((∀ j, (net1 j).elapsed method = (net2 j).elapsed method) →
        r1.time = r2.time ∧ r1.limiter = r2.limiter) := by
  obtain ⟨lim, time1, evs, hg, hwf1, _⟩ := rateLimitGate_spec c.limiter time hwf
  obtain ⟨r1, r2, e1, e2, hfl, hsl, hidx, htl⟩ :=
    retryLoop_replace lib c lim method url body contentType net1 net2 hwf1 hnet
      (c.config.maxRetries + 1).toNat 0 ESPrawResponse.init ESPrawResponse.init time1 time1 rfl
  refine ⟨r1.after evs, r2.after evs, by simp only [performRequest, hg, e1],
    by simp only [performRequest, hg, e2], hfl, ?_, ?_, fun hel => htl rfl hel⟩
  · simp only [Run.after, sleeps_append, hsl]
  · simp only [Run.attempts, Run.after, attemptIndices_append, hidx]

/-! ## A failure to connect against a generic HTTP error -/

/-- C22 as stated fails for the rate limiter: a failing `http.begin` does not
take as long as an exchange that is answered, so a later success is recorded at
another instant. The log tracks 59 requests recorded at reading 0 (a state
reached by 59 `recordRequest` calls); the call is made at 53700 and answered
500, 500, 200. With the second 500 (120 ms) the call returns at 60020,
`recordRequest` evicts the 59 entries and the log tracks 1 request; with a
failing `http.begin` (5 ms) in its place the call returns at 59905, nothing is
evicted and the log tracks 60. Attempts, sleeps and success flag are the
same. -/
theorem begin_failure_changes_rate_limiter_by_timing :
    Reachable almostFullLogAtZero ∧
    netFailFailSuccess 1 = Exchange.completed 500 "server error" "" 120 ∧
    (performRequest testLibrary clientWithAlmostFullLog ESPrawRequestMethod.GET
      "https://oauth.reddit.com/r/test/hot" "" "" netFailFailSuccess 53700).map
        (fun r => (r.attempts, sleeps r.events, r.response.success, r.time,
          r.limiter.requestCount, tracked r.limiter))
      = some (3, [2000, 4000], true, 60020, 1, [60020]) ∧
    (performRequest testLibrary clientWithAlmostFullLog ESPrawRequestMethod.GET
      "https://oauth.reddit.com/r/test/hot" "" ""
      (replaceAt netFailFailSuccess 1 (Exchange.beginFailed 5)) 53700).map
        (fun r => (r.attempts, sleeps r.events, r.response.success, r.time,
          r.limiter.requestCount, tracked r.limiter))
      = some (3, [2000, 4000], true, 59905, 60, List.replicate 59 0 ++ [59905]) := by
  refine ⟨⟨List.replicate 59 (RateOp.record, 0), ?_⟩, rfl, ?_, ?_⟩
  · decide
  · decide
  · decide

/-- C22, amended. For every configuration (every `maxRetries`), every transport
and every position `i`: when the outcome at `i` is a status that is not 2xx, not
401 and not 429, replacing it by a failure of `http.begin` changes neither the
number of attempts made, nor the sequence of sleeps, nor the success flag of
the result; and when the failing `http.begin` takes as long as the exchange it
replaces, it changes neither the rate limiter after the call nor the instant of
return. -/
theorem begin_failure_retried_like_generic_failure (lib : Library) (c : ESPrawClient)
    (method : ESPrawRequestMethod) (url body contentType : String) (net : Nat → Exchange)
    (time i : Nat) (code : Int) (el : Nat) (hwf : WellFormed c.limiter)
    (hcode : (net i).code method = some code) (hgen : ¬ (200 ≤ code ∧ code < 300))
    (h401 : code ≠ 401) (h429 : code ≠ 429) :
    ∃ r1 r2,
      performRequest lib c method url body contentType net time = some r1 ∧
      performRequest lib c method url body contentType
        (replaceAt net i (Exchange.beginFailed el)) time = some r2 ∧
      r2.attempts = r1.attempts ∧
      sleeps r2.events = sleeps r1.events ∧
      r2.response.success = r1.response.success ∧
      (el = (net i).elapsed method → r2.limiter = r1.limiter ∧ r2.time = r1.time) := by
  have hnet : ∀ k, (net k).stops method
        = ((replaceAt net i (Exchange.beginFailed el)) k).stops method ∧
      (net k).succeeds method
        = ((replaceAt net i (Exchange.beginFailed el)) k).succeeds method ∧
      retryAfterSleep lib method (net k)
        = retryAfterSleep lib method ((replaceAt net i (Exchange.beginFailed el)) k) := by
    intro k
    by_cases hk : k = i
    · subst hk
      simp only [replaceAt, if_true]
      refine ⟨?_, ?_, ?_⟩
      · have hs : ¬ ((200 ≤ code ∧ code < 300) ∨ code = 401) := by omega
        unfold Exchange.stops
        rw [hcode]
        simp [Exchange.code, hs]
      · have hs : ¬ (200 ≤ code ∧ code < 300) := hgen
        unfold Exchange.succeeds
        rw [hcode]
        simp [Exchange.code, hs]
      · cases hx : net k with
        | beginFailed el1 => rfl
        | completed code1 b ra el1 =>
          rw [hx] at hcode
          simp only [Exchange.code, Option.some.injEq] at hcode
          simp only [retryAfterSleep]
          by_cases hm : method = ESPrawRequestMethod.PATCH
          · simp [hm]
          · simp only [hm, if_false] at hcode
            have : ¬ code1 = 429 := by omega
            simp [this]
    · simp only [replaceAt, hk, if_false, and_self]
  obtain ⟨r1, r2, e1, e2, hfl, hsl, hatt, htl⟩ :=
    performRequest_replace lib c method url body contentType net
      (replaceAt net i (Exchange.beginFailed el)) time hwf hnet
  refine ⟨r1, r2, e1, e2, hatt.symm, hsl.symm, hfl.symm, ?_⟩
  intro hel
  have hall : ∀ j, (net j).elapsed method
      = ((replaceAt net i (Exchange.beginFailed el)) j).elapsed method := by
    intro j
    by_cases hj : j = i
    · subst hj
      simp only [replaceAt, if_true, Exchange.elapsed]
      exact hel.symm
    · simp only [replaceAt, hj, if_false]
  obtain ⟨ht, hl⟩ := htl hall
  exact ⟨hl.symm, ht.symm⟩

/-- C22, amended, on the transport of `test_retry_logic` (500, 500, 200) with the second
500 replaced by a failing `http.begin`: still three attempts, the sleeps 2000
and 4000, success, and the same rate limiter. -/
theorem begin_failure_retried_like_generic_failure_witness :
    ∃ r1 r2,
      performRequest testLibrary (clientWith 3 1000) ESPrawRequestMethod.GET
        "https://oauth.reddit.com/r/test/hot" "" "" netFailFailSuccess 0 = some r1 ∧
      performRequest testLibrary (clientWith 3 1000) ESPrawRequestMethod.GET
        "https://oauth.reddit.com/r/test/hot" "" ""
        (replaceAt netFailFailSuccess 1 (Exchange.beginFailed 120)) 0 = some r2 ∧
      r2.attempts = r1.attempts ∧ sleeps r2.events = sleeps r1.events ∧
      r2.response.success = r1.response.success ∧ r2.limiter = r1.limiter ∧
      r1.attempts = 3 ∧ sleeps r1.events = [2000, 4000] ∧ r1.response.success = true := by
  obtain ⟨r1, r2, e1, e2, hatt, hsl, hfl, htl⟩ :=
    begin_failure_retried_like_generic_failure testLibrary (clientWith 3 1000)
      ESPrawRequestMethod.GET "https://oauth.reddit.com/r/test/hot" "" "" netFailFailSuccess
      0 1 500 120 (by decide) rfl (by decide) (by decide) (by decide)
  have hc : (performRequest testLibrary (clientWith 3 1000) ESPrawRequestMethod.GET
      "https://oauth.reddit.com/r/test/hot" "" "" netFailFailSuccess 0).map
        (fun r => (r.attempts, sleeps r.events, r.response.success))
      = some (3, [2000, 4000], true) := by decide
  rw [e1] at hc
  simp only [Option.map_some', Option.some.injEq, Prod.mk.injEq] at hc
  exact ⟨r1, r2, e1, e2, hatt, hsl, hfl, (htl rfl).1, hc.1, hc.2.1, hc.2.2⟩

/-! ## Which successful requests the rate limiter counts -/

/-- A pass that turns the success flag on ends with the `recordRequest` call of
line 154, made at the instant the exchange ended. -/
theorem classify_success (lib : Library) (lim : RateLimiter) (httpCode : Int)
    (bodyText retryAfter : String) (response : ESPrawResponse) (time : Nat)
    (events : List Event) (step : Step)
    (h : classify lib lim httpCode bodyText retryAfter response time events = some step)
    (hbefore : response.success = false) (hafter : step.response.success = true) :
    step.events = events ++ [Event.record (time % WORD)] ∧
    recordRequest (time % WORD) lim = some (step.limiter lim) ∧ step.time = time := by
  unfold classify at h
  simp only [] at h
  by_cases hpos : httpCode > 0
  · simp only [hpos, if_true] at h
    by_cases h2xx : httpCode ≥ 200 ∧ httpCode < 300
    · simp only [h2xx, and_self, if_true] at h
      cases hrec : recordRequest (time % WORD) lim with
      | none => simp [hrec] at h
      | some lim1 =>
        simp only [hrec, Option.some.injEq] at h
        subst h
        exact ⟨rfl, rfl, rfl⟩
    · simp only [h2xx, if_false] at h
      exfalso
      split at h
      · simp only [Option.some.injEq] at h
        subst h
        simp [Step.response, hbefore] at hafter
      · split at h
        · split at h
          · simp only [Option.some.injEq] at h
            subst h
            simp [Step.response, hbefore] at hafter
          · simp only [Option.some.injEq] at h
            subst h
            simp [Step.response, hbefore] at hafter
        · simp only [Option.some.injEq] at h
          subst h
          simp [Step.response, hbefore] at hafter
  · simp only [hpos, if_false, Option.some.injEq] at h
    subst h
    simp [Step.response, hbefore] at hafter

theorem attemptBody_success (lib : Library) (c : ESPrawClient) (lim : RateLimiter)
    (method : ESPrawRequestMethod) (url body contentType : String) (k : Nat) (x : Exchange)
    (response : ESPrawResponse) (time : Nat) (step : Step)
    (h : attemptBody lib c lim method url body contentType k x response time = some step)
    (hbefore : response.success = false) (hafter : step.response.success = true) :
    ∃ pre, step.events = pre ++ [Event.record (step.time % WORD)] ∧
      recordRequest (step.time % WORD) lim = some (step.limiter lim) := by
  unfold attemptBody at h
  cases x with
  | beginFailed elapsed =>
    simp only [Option.some.injEq] at h
    subst h
    simp [Step.response, hbefore] at hafter
  | completed code bodyText retryAfter elapsed =>
    cases method <;>
    · obtain ⟨hev, hrec, ht⟩ := classify_success _ _ _ _ _ _ _ _ _ h hbefore hafter
      rw [ht]
      exact ⟨_, hev, hrec⟩

/-- A run of the loop that returns success ends with the `recordRequest` call
of its last pass, applied to the rate limiter the loop started with. -/
theorem retryLoop_success (lib : Library) (c : ESPrawClient) (lim : RateLimiter)
    (method : ESPrawRequestMethod) (url body contentType : String) (net : Nat → Exchange)
    (hwf : WellFormed lim) :
    ∀ (iters k : Nat) (response : ESPrawResponse) (time : Nat) (r : Run),
      response.success = false →
      retryLoop lib c lim method url body contentType net iters k response time = some r →
      r.response.success = true →
      ∃ pre, r.events = pre ++ [Event.record (r.time % WORD)] ∧
        recordRequest (r.time % WORD) lim = some r.limiter := by
  intro iters
  induction iters with
  | zero =>
    intro k response time r hbefore h hafter
    simp only [retryLoop, Option.some.injEq] at h
    subst h
    simp [hbefore] at hafter
  | succ n ih =>
    intro k response time r hbefore h hafter
    unfold retryLoop at h
    cases hab : attemptBody lib c lim method url body contentType k (net k) response time with
    | none => simp [hab] at h
    | some step =>
      obtain ⟨hsucc, hret, _⟩ := attemptBody_status _ _ _ _ _ _ _ _ _ _ _ _ hwf hab
      cases step with
      | ret response1 lim1 time1 events =>
        simp only [hab, Option.some.injEq] at h
        subst h
        exact attemptBody_success _ _ _ _ _ _ _ _ _ _ _ _ hab hbefore hafter
      | next response1 time1 events =>
        simp only [hab] at h
        cases hrl : retryLoop lib c lim method url body contentType net n (k + 1)
            response1 time1 with
        | none => simp [hrl] at h
        | some r1 =>
          simp only [hrl, Option.some.injEq] at h
          subst h
          have hx : (net k).succeeds method = false := by
            cases hs : (net k).succeeds method with
            | false => rfl
            | true => have := hret hs; simp [Step.isRet] at this
          have h1 : response1.success = false := by
            simp only [Step.response] at hsucc
            rw [hsucc, hx, hbefore]
            rfl
          obtain ⟨pre, hev, hrec⟩ := ih (k + 1) response1 time1 r1 h1 hrl hafter
          refine ⟨events ++ pre, ?_, hrec⟩
          simp only [Run.after, hev, List.append_assoc]

/-- A call of `performRequest` that returns success ends with one
`recordRequest` call, made at the instant the call returns and applied to the
rate limiter as the rate limit check left it. -/
theorem performRequest_success_record (lib : Library) (c : ESPrawClient)
    (method : ESPrawRequestMethod) (url body contentType : String) (net : Nat → Exchange)
    (time : Nat) (r : Run) (hwf : WellFormed c.limiter)
    (h : performRequest lib c method url body contentType net time = some r)
    (hsucc : r.response.success = true) :
    ∃ lim time1 evs pre, rateLimitGate c.limiter time = some (lim, time1, evs) ∧
      WellFormed lim ∧ r.events = pre ++ [Event.record (r.time % WORD)] ∧
      recordRequest (r.time % WORD) lim = some r.limiter := by
  obtain ⟨lim, time1, evs, hg, hwf1, _⟩ := rateLimitGate_spec c.limiter time hwf
  unfold performRequest at h
  simp only [hg] at h
  cases hrl : retryLoop lib c lim method url body contentType net
      (c.config.maxRetries + 1).toNat 0 ESPrawResponse.init time1 with
  | none => simp [hrl] at h
  | some r1 =>
    simp only [hrl, Option.some.injEq] at h
    subst h
    obtain ⟨pre, hev, hrec⟩ := retryLoop_success lib c lim method url body contentType net hwf1
      _ _ _ _ r1 rfl hrl hsucc
    refine ⟨lim, time1, evs, evs ++ pre, hg, hwf1, ?_, hrec⟩
    simp only [Run.after, hev, List.append_assoc]

/-- C28 as stated fails after a rate limit wait shorter than the cleanup
interval. The log holds 60 requests recorded at reading 0 and was last cleaned
at 59500 (a state reached by 60 `recordRequest` calls and one `checkRateLimit`).
A call at 59900 waits 100 ms, its request is answered 200 at 60080, and
`recordRequest` skips its cleanup (580 ms since the last one), finds the log
full and records nothing: the call returns success, the limiter is unchanged
and 60080 is not tracked. The same happens with no wait for a call at 60200. -/
theorem performRequest_success_not_recorded_on_full_log :
    Reachable (fullLogAtZero 59500) ∧
    (performRequest testLibrary clientWithStaleFullLog ESPrawRequestMethod.GET
      "https://oauth.reddit.com/r/test/hot" "" "" netAlwaysOk 59900).map
        (fun r => (r.response.success, sleeps r.events, recordCalls r.events, r.time, r.limiter))
      = some (true, [100], 1, 60080, fullLogAtZero 59500) ∧
    60080 ∉ tracked (fullLogAtZero 59500) ∧
    (performRequest testLibrary clientWithStaleFullLog ESPrawRequestMethod.GET
      "https://oauth.reddit.com/r/test/hot" "" "" netAlwaysOk 60200).map
        (fun r => (r.response.success, sleeps r.events, recordCalls r.events, r.time, r.limiter))
      = some (true, [], 1, 60280, fullLogAtZero 59500) ∧
    60280 ∉ tracked (fullLogAtZero 59500) := by
  refine ⟨⟨List.replicate 60 (RateOp.record, 0) ++ [(RateOp.check, 59500)], ?_⟩, ?_, ?_, ?_, ?_⟩
  · decide
  · decide
  · decide
  · decide
  · decide

/-- C28, amended. On a well-formed limiter `performRequest` returns, and when it
returns success it has called `recordRequest` exactly once, as its last effect,
at the instant `t` the call returns. `recordRequest` first runs
`cleanupRequestLog`; if fewer than 60 entries are tracked after that cleanup,
`t` is appended to the tracked log, and otherwise the limiter is left as the
cleanup left it and the request is not counted. The request is counted whenever
the rate limit check at the start of the call found a free slot. -/
theorem performRequest_success_recorded_unless_full (lib : Library) (c : ESPrawClient)
    (method : ESPrawRequestMethod) (url body contentType : String) (net : Nat → Exchange)
    (time : Nat) (hwf : WellFormed c.limiter) :
    ∃ r, performRequest lib c method url body contentType net time = some r ∧
      (r.response.success = true →
        recordCalls r.events = 1 ∧
        ∃ lim time1 evs pre cleaned,
          rateLimitGate c.limiter time = some (lim, time1, evs) ∧
          r.events = pre ++ [Event.record (r.time % WORD)] ∧
          recordRequest (r.time % WORD) lim = some r.limiter ∧
          cleanupRequestLog (r.time % WORD) lim = some cleaned ∧
          (cleaned.requestCount < ESPRAW_RATE_LIMIT_REQUESTS →
            tracked r.limiter = tracked cleaned ++ [r.time % WORD]) ∧
          (¬ cleaned.requestCount < ESPRAW_RATE_LIMIT_REQUESTS → r.limiter = cleaned) ∧
          (∀ s, checkRateLimit (time % WORD) c.limiter = some (true, s) →
            tracked r.limiter = tracked cleaned ++ [r.time % WORD])) := by
  obtain ⟨r, _, hrun, _⟩ := performRequest_spec lib c method url body contentType net time hwf
  refine ⟨r, hrun, fun hsucc => ?_⟩
  obtain ⟨hcalls, _⟩ := performRequest_facts lib c method url body contentType net time r hwf hrun
  obtain ⟨lim, time1, evs, pre, hg, hwf1, hev, hrec⟩ :=
    performRequest_success_record lib c method url body contentType net time r hwf hrun hsucc
  obtain ⟨cleaned, s2, hclean, _, hrec2, _, _, hfree, hfull⟩ :=
    recordRequest_wf (r.time % WORD) lim hwf1
  obtain ⟨_, _, hle, _⟩ := cleanupRequestLog_wf (r.time % WORD) lim hwf1
  rw [hrec] at hrec2
  cases hrec2
  refine ⟨by rw [hcalls, hsucc]; rfl, lim, time1, evs, pre, cleaned, hg, hev, hrec, hclean,
    fun h => (hfree h).2, hfull, ?_⟩
  intro s hchk
  obtain ⟨_, _, b, s1, hchk1, htrue, _⟩ := rateLimitGate_facts _ _ _ _ _ hg
  rw [hchk] at hchk1
  cases hchk1
  obtain ⟨_, hlim, _⟩ := htrue rfl
  obtain ⟨s0, _, _, hchk2⟩ := checkRateLimit_wf (time % WORD) c.limiter hwf
  rw [hchk] at hchk2
  simp only [Option.some.injEq, Prod.mk.injEq] at hchk2
  obtain ⟨hdec, hs0⟩ := hchk2
  subst hs0
  have hlt : s.requestCount < ESPRAW_RATE_LIMIT_REQUESTS := of_decide_eq_true hdec.symm
  obtain ⟨c1, hc1, _, hle1, _⟩ := cleanupRequestLog_wf (r.time % WORD) lim hwf1
  rw [hclean] at hc1
  cases hc1
  rw [hlim] at hle1
  exact (hfree (lt_of_le_of_lt hle1 hlt)).2

/-- C28, amended, on a fresh client whose request at 5000 is answered 200 after
80 ms: the call returns success and the log tracks 5080. -/
theorem performRequest_success_recorded_unless_full_witness :
    WellFormed (clientWith 3 1000).limiter ∧
    ∃ r, performRequest testLibrary (clientWith 3 1000) ESPrawRequestMethod.GET
        "https://oauth.reddit.com/r/test/hot" "" "" netAlwaysOk 5000 = some r ∧
      r.response.success = true ∧ recordCalls r.events = 1 ∧ tracked r.limiter = [5080] := by
  obtain ⟨r, hrun, h⟩ := performRequest_success_recorded_unless_full testLibrary
    (clientWith 3 1000) ESPrawRequestMethod.GET "https://oauth.reddit.com/r/test/hot" "" ""
    netAlwaysOk 5000 (by decide)
  have hc : (performRequest testLibrary (clientWith 3 1000) ESPrawRequestMethod.GET
      "https://oauth.reddit.com/r/test/hot" "" "" netAlwaysOk 5000).map
        (fun r => (r.response.success, tracked r.limiter)) = some (true, [5080]) := by decide
  rw [hrun] at hc
  simp only [Option.map_some', Option.some.injEq, Prod.mk.injEq] at hc
  exact ⟨by decide, r, hrun, hc.1, (h hc.1).1, hc.2⟩

end ESPraw
